import Mathlib

/-!
# Climate report: verification of the aggregation engine of `climate.c`

Shallow embedding of `analyze_file` (and of the parts of `main` and
`print_report` that decide the stated properties) from `src/climate.c`.

Modelling conventions.
* A C string is a `List Char`, one `Char` per byte, without its terminating NUL.
* `double` and `long double` values are rationals (`ℚ`). In `analyze_file` the
  arithmetic is exact: the constants `1.8` and `459.67` are `9/5` and `45967/100`,
  and `strtod` returns the value of the numeral.
* `analyze_fileWith` is the same loop with the floating-point operations left
  open (`FloatOps`): whatever `strtod`, the multiplication, the subtraction and
  the additions round to. `exactOps` gives back `analyze_file`; `doubleOps` is
  IEEE 754 `double` with x87 `long double`, rounding to nearest. Properties that
  depend on comparing temperatures for equality, or on figures with a tolerance,
  are stated for every `FloatOps`.
* `unsigned long` values are naturals reduced modulo `2^64`.
* Undefined behaviour of the C program (a NULL pointer handed to `strtod`, an
  access past the `states` array, a `strcpy` longer than its destination array)
  is an explicit `Fault`.
-/

namespace Climate

/-! ## Constants and data model -/

/-- Number of table slots allocated by `main` (`#define NUM_STATES 50`). -/
def NUM_STATES : Nat := 50

/-- Size of the line buffer in `analyze_file` (`const int line_sz = 100`). -/
def line_sz : Nat := 100

/-- Number of values of an `unsigned long` (LP64). -/
def ULONG_RANGE : Nat := 2 ^ 64

/-- The accumulator `struct climate_info`. `code` is declared `char code[3]`,
`max_time` and `min_time` are declared `char [15]`. -/
structure climate_info where
  num_records : Nat
  code : List Char
  sum_humidity : ℚ
  snow : Nat
  sum_cloudcover : ℚ
  lightning : Nat
  sum_pressure : ℚ
  sum_temperature : ℚ
  max_temp : ℚ
  max_time : List Char
  min_temp : ℚ
  min_time : List Char
deriving DecidableEq

/-- The ways in which a run of `analyze_file` leaves defined behaviour. -/
inductive Fault where
  /-- a NULL token is passed to `strtod` (fewer than nine tokens on the line) -/
  | nullPointer
  /-- `states[i]` is accessed with `i` past the end of the array -/
  | outOfBounds
  /-- `strcpy` writes more bytes than the destination array holds -/
  | bufferOverflow
deriving DecidableEq

deriving instance DecidableEq for Except

/-- Result of running (part of) `analyze_file`: the new table, or the fault that
ends the run. -/
abbrev Outcome := Except Fault (List climate_info)

/-! ## C library functions used by `analyze_file` -/

/-- The function `isspace` of the C locale. -/
def isspace (c : Char) : Bool :=
  c = ' ' || c = '\t' || c = '\n' || c = '\x0b' || c = '\x0c' || c = '\r'

/-- The function `isdigit`. -/
def isdigit (c : Char) : Bool := decide ('0' ≤ c) && decide (c ≤ '9')

/-- Value of a string of decimal digits. -/
def digitsValue (ds : List Char) : Nat :=
  ds.foldl (fun acc c => acc * 10 + (c.toNat - 48)) 0

/-- Whether the text starts with a sign character. -/
def hasSign (s : List Char) : Bool :=
  s.head? = some '-' || s.head? = some '+'

/-- Drops leading white space and reports the optional sign: the result is
`(negative, rest)`. -/
def skipSign (s : List Char) : Bool × List Char :=
  let s1 := s.dropWhile isspace
  (s1.head? = some '-', if hasSign s1 then s1.tail else s1)

/-- The call `strtoul(s, NULL, 10)`: leading white space, an optional sign, then
the longest run of decimal digits. Without a digit the result is `0`; a value
that does not fit yields `ULONG_MAX`; a minus sign negates modulo `2^64`. -/
def strtoul (s : List Char) : Nat :=
  let p := skipSign s
  let v := digitsValue (p.2.takeWhile isdigit)
  if ULONG_RANGE ≤ v then ULONG_RANGE - 1
  else if p.1 then (ULONG_RANGE - v) % ULONG_RANGE else v

/-- Decimal exponent part of a floating-point subject sequence: `e` or `E`, an
optional sign and at least one digit; anything else contributes no exponent. -/
def exponentPart (s : List Char) : Int :=
  match s with
  | [] => 0
  | c :: t =>
    if c = 'e' ∨ c = 'E' then
      let ds := (if hasSign t then t.tail else t).takeWhile isdigit
      if t.head? = some '-' then -(digitsValue ds : Int) else (digitsValue ds : Int)
    else 0

/-- The call `strtod(s, NULL)` (and `strtold`) on decimal subject sequences, with
the exact rational value of the numeral: leading white space, an optional sign,
digits with an optional radix point, an optional exponent. When no digit is found
no conversion is performed and the result is `0`. Hexadecimal, infinity and NaN
spellings are not covered by this model (see `plainNumeral`). -/
def strtod (s : List Char) : ℚ :=
  let p := skipSign s
  let ip := p.2.takeWhile isdigit
  let r := p.2.dropWhile isdigit
  let fp := if r.head? = some '.' then r.tail.takeWhile isdigit else []
  let r2 := if r.head? = some '.' then r.tail.dropWhile isdigit else r
  if ip = [] ∧ fp = [] then 0
  else
    let v : ℚ := (digitsValue (ip ++ fp) : ℚ) * (10 : ℚ) ^ (exponentPart r2 - (fp.length : Int))
    if p.1 then -v else v

/-- The call `strtold(s, NULL)`; as `strtod` in exact arithmetic. -/
def strtold (s : List Char) : ℚ := strtod s

/-- One call of `strtok` with the delimiter string `"\t"`, on the text that the
saved position points to: leading tabs are skipped; `none` (NULL) when nothing is
left; otherwise the token up to the next tab, and the new saved position just
after that tab. -/
def strtok (s : List Char) : Option (List Char × List Char) :=
  let s1 := s.dropWhile (fun c => c = '\t')
  if s1 = [] then none
  else some (s1.takeWhile (fun c => c ≠ '\t'), (s1.dropWhile (fun c => c ≠ '\t')).tail)

/-- The nine tokens that `analyze_file` takes from one line. -/
structure Fields where
  code : List Char
  time : List Char
  location : List Char
  humidity : List Char
  snow : List Char
  cloud : List Char
  lightning : List Char
  pressure : List Char
  temperature : List Char
deriving DecidableEq

/-- The nine consecutive `strtok` calls at the head of the loop body. The result
is `none` when one of them returns NULL; `strtok` then returns NULL for all
later calls too, so `temperature` is NULL exactly in that case. -/
def tokenize (line : List Char) : Option Fields := do
  let (code, r1) ← strtok line
  let (time, r2) ← strtok r1
  let (location, r3) ← strtok r2
  let (humidity, r4) ← strtok r3
  let (snow, r5) ← strtok r4
  let (cloud, r6) ← strtok r5
  let (lightning, r7) ← strtok r6
  let (pressure, r8) ← strtok r7
  let (temperature, _) ← strtok r8
  pure ⟨code, time, location, humidity, snow, cloud, lightning, pressure, temperature⟩

/-! ## Reading lines -/

/-- The successive results of `fgets(line, n, file)` until it returns NULL: each
chunk holds at most `n - 1` characters and ends right after a newline when one
is met. `cur` is the (reversed) content of the buffer so far and `room` the
number of characters that still fit. -/
def fgetsChunks (n : Nat) : List Char → List Char → Nat → List (List Char)
  | [], cur, _ => if cur = [] then [] else [cur.reverse]
  | c :: f, cur, room =>
    if c = '\n' ∨ room ≤ 1 then (c :: cur).reverse :: fgetsChunks n f [] (n - 1)
    else fgetsChunks n f (c :: cur) (room - 1)

/-- The line buffer seen as a C string: it ends at the first NUL byte. -/
def cstr (buf : List Char) : List Char := buf.takeWhile (fun c => c ≠ '\x00')

/-- The sequence of line buffers that the loop `while (fgets(line, line_sz, file)
!= NULL)` processes for a file with the given content. -/
def readLines (file : List Char) : List (List Char) :=
  (fgetsChunks line_sz file [] (line_sz - 1)).map cstr

/-! ## The loop body of `analyze_file` -/

/-- The scan `for(i=0;i<num_states;i++)`: `n` is the number of iterations left
and `i` the current index. The result is `(i, already_exist)` at loop exit, or a
fault when `states[i]` lies outside the array. -/
def findSlot (states : List climate_info) (code : List Char) :
    Nat → Nat → Except Fault (Nat × Bool)
  | 0, i => .ok (i, false)
  | n + 1, i =>
    match states[i]? with
    | none => .error Fault.outOfBounds
    | some s =>
      if s.num_records = 0 then .ok (i, false)
      else if s.code = code then .ok (i, true)
      else findSlot states code n (i + 1)

/-- The Fahrenheit temperature `strtod(temperature,NULL)*1.8-459.67`. -/
def dtemp (temperature : List Char) : ℚ := strtod temperature * (9 / 5) - 45967 / 100

/-- The call `strcpy(dest, src)` into an array of `cap` bytes: the string and its
terminating NUL must fit. The result is the string now held by `dest`. -/
def strcpy (cap : Nat) (src : List Char) : Except Fault (List Char) :=
  if cap ≤ src.length then .error Fault.bufferOverflow else .ok src

/-- The branch `if(!already_exist)`: every member of the slot is assigned from
the line. -/
def create (f : Fields) : Except Fault climate_info := do
  let code ← strcpy 3 f.code
  let max_time ← strcpy 15 f.time
  let min_time ← strcpy 15 f.time
  pure
    { num_records := 1
      code := code
      sum_humidity := strtold f.humidity
      snow := strtoul f.snow
      sum_cloudcover := strtold f.cloud
      lightning := strtoul f.lightning
      sum_pressure := (strtoul f.pressure : ℚ)
      sum_temperature := dtemp f.temperature
      max_temp := dtemp f.temperature
      min_temp := dtemp f.temperature
      max_time := max_time
      min_time := min_time }

/-- The `else` branch: the counters and sums are advanced, then each extreme and
its timestamp are replaced when the new temperature is strictly beyond it. -/
def update (cur : climate_info) (f : Fields) : Except Fault climate_info := do
  let d := dtemp f.temperature
  let c1 : climate_info :=
    { cur with
      num_records := (cur.num_records + 1) % ULONG_RANGE
      sum_humidity := cur.sum_humidity + strtold f.humidity
      snow := (cur.snow + strtoul f.snow) % ULONG_RANGE
      sum_cloudcover := cur.sum_cloudcover + strtold f.cloud
      lightning := (cur.lightning + strtoul f.lightning) % ULONG_RANGE
      sum_pressure := cur.sum_pressure + (strtoul f.pressure : ℚ)
      sum_temperature := cur.sum_temperature + d }
  let c2 ←
    if c1.max_temp < d then do
      let t ← strcpy 15 f.time
      pure { c1 with max_temp := d, max_time := t }
    else pure c1
  if d < c2.min_temp then do
    let t ← strcpy 15 f.time
    pure { c2 with min_temp := d, min_time := t }
  else pure c2

/-- One iteration of the `while` loop of `analyze_file` on the line buffer
`line`, for the table `states` of which `num_states` slots are scanned. A NULL
`temperature` faults in `strtod` before anything is stored. -/
def processLine (num_states : Nat) (states : List climate_info) (line : List Char) :
    Outcome :=
  match tokenize line with
  | none => .error Fault.nullPointer
  | some f => do
    let (i, already_exist) ← findSlot states f.code num_states 0
    match states[i]? with
    | none => .error Fault.outOfBounds
    | some cur =>
      let cur1 ← if already_exist then update cur f else create f
      pure (states.set i cur1)

/-- The loop of `analyze_file` over the line buffers it reads. A fault ends the
run. -/
def analyzeLines (num_states : Nat) : List climate_info → List (List Char) → Outcome
  | states, [] => .ok states
  | states, line :: rest =>
    match processLine num_states states line with
    | .error e => .error e
    | .ok states1 => analyzeLines num_states states1 rest

/-- The function `analyze_file(file, states, num_states)`; `file` is the content
that remains to be read from the stream. -/
def analyze_file (file : List Char) (states : List climate_info) (num_states : Nat) :
    Outcome :=
  analyzeLines num_states states (readLines file)

/-- The second loop of `print_report`, reduced to the values it prints for each
slot with `num_records != 0`, in slot order. -/
structure Summary where
  code : List Char
  num_records : Nat
  average_humidity : ℚ
  average_temperature : ℚ
  max_temperature : ℚ
  max_time : List Char
  min_temperature : ℚ
  min_time : List Char
  lightenings : Nat
  snow : Nat
  average_cloud : ℚ
deriving DecidableEq

/-- The values `print_report` derives from one accumulator. -/
def summarize (info : climate_info) : Summary :=
  { code := info.code
    num_records := info.num_records
    average_humidity := info.sum_humidity / info.num_records
    average_temperature := info.sum_temperature / info.num_records
    max_temperature := info.max_temp
    max_time := info.max_time
    min_temperature := info.min_temp
    min_time := info.min_time
    lightenings := info.lightning
    snow := info.snow
    average_cloud := info.sum_cloudcover / info.num_records }

/-- The per-state part of `print_report(states, num_states)`: one summary for
every slot `i < num_states` with `num_records != 0`, in slot order. -/
def print_report (states : List climate_info) (num_states : Nat) : List Summary :=
  ((states.take num_states).filter (fun info => info.num_records ≠ 0)).map summarize

/-- The loop of `main` over its file arguments, for the files that could be
opened: each is analysed into the same table. -/
def analyzeFiles (num_states : Nat) : List climate_info → List (List Char) → Outcome
  | states, [] => .ok states
  | states, file :: rest =>
    match analyze_file file states num_states with
    | .error e => .error e
    | .ok states1 => analyzeFiles num_states states1 rest

/-- The accumulator that the scan of `analyze_file` finds for a state code: the
slot at which the scan stops with `already_exist = 1`, if it does. -/
def findAccumulator (states : List climate_info) (num_states : Nat) (code : List Char) :
    Option climate_info :=
  match findSlot states code num_states 0 with
  | .ok (i, true) => states[i]?
  | _ => none

/-! ## Well-formed input -/

/-- A plain decimal numeral as found in the data files (`93.0`, `277.58716`,
`-3`): an optional minus sign, at least one digit, an optional fraction; the last
token of a line may carry the line terminator. On such tokens `strtod` and
`strtoul` perform decimal conversions. -/
def plainNumeral (tok : List Char) : Bool :=
  let s := if tok.head? = some '-' then tok.tail else tok
  let r := s.dropWhile isdigit
  let r2 := if r.head? = some '.' then r.tail.dropWhile isdigit else r
  !(s.takeWhile isdigit).isEmpty && (r2 = [] || r2 = ['\n'] || r2 = ['\r', '\n'])

/-- A 0/1 flag field (`0.0` or `1.0` in the data files). -/
def flagField (tok : List Char) : Bool :=
  plainNumeral tok && decide (strtoul tok ≤ 1)

/-- The nine tokens form a record of the documented format that fits the
accumulator: the state code fits `char code[3]`, the timestamp is a digit string
that fits `char [15]`, and the numeric fields are plain numerals. -/
def Fields.wellFormed (f : Fields) : Bool :=
  decide (f.code.length < 3) && decide (f.time.length < 15) && f.time.all isdigit
    && plainNumeral f.humidity && flagField f.snow && plainNumeral f.cloud
    && flagField f.lightning && plainNumeral f.pressure && plainNumeral f.temperature

/-- A valid line: nine tokens forming a well-formed record. -/
def validLine (line : List Char) : Bool :=
  match tokenize line with
  | none => false
  | some f => f.wellFormed

/-- Whether the text starts with the given lower-case word, letter case ignored. -/
def startsNoCase (word s : List Char) : Bool :=
  (s.take word.length).map Char.toLower == word

/-- The conversion `strtod` (or `strtold`) finds no number at the start of the
token: after white space and an optional sign there is neither a digit, nor a
radix point followed by a digit, nor an infinity or NaN spelling (`inf` or `nan`
in any letter case). The C functions then perform no conversion and return zero. -/
def noConversion (tok : List Char) : Bool :=
  match (skipSign tok).2 with
  | [] => true
  | c :: rest =>
    !isdigit c && !(c = '.' && rest.head?.any isdigit)
      && !startsNoCase ['i', 'n', 'f'] (c :: rest) && !startsNoCase ['n', 'a', 'n'] (c :: rest)

/-- The records of the lines that have nine tokens. -/
def records (lines : List (List Char)) : List Fields := lines.filterMap tokenize

/-- The state code of a line, when it has nine tokens. -/
def codeOf (line : List Char) : Option (List Char) := (tokenize line).map Fields.code

/-- The distinct elements of a list, each once, in the order of their first
occurrence. -/
def firstOccurrences {α : Type} [DecidableEq α] : List α → List α
  | [] => []
  | x :: xs => x :: (firstOccurrences xs).filter (fun y => y ≠ x)

/-- A table slot is empty when its `num_records` is zero. -/
def emptyTable (states : List climate_info) : Prop :=
  ∀ s ∈ states, s.num_records = 0

instance (states : List climate_info) : Decidable (emptyTable states) :=
  inferInstanceAs (Decidable (∀ s ∈ states, s.num_records = 0))

/-! ## Accumulators as pure functions (used in the proofs) -/

/-- The accumulator written by the creation branch. -/
def seed (f : Fields) : climate_info :=
  { num_records := 1
    code := f.code
    sum_humidity := strtold f.humidity
    snow := strtoul f.snow
    sum_cloudcover := strtold f.cloud
    lightning := strtoul f.lightning
    sum_pressure := (strtoul f.pressure : ℚ)
    sum_temperature := dtemp f.temperature
    max_temp := dtemp f.temperature
    min_temp := dtemp f.temperature
    max_time := f.time
    min_time := f.time }

/-- The accumulator left by the update branch. -/
def absorb (cur : climate_info) (f : Fields) : climate_info :=
  { num_records := (cur.num_records + 1) % ULONG_RANGE
    code := cur.code
    sum_humidity := cur.sum_humidity + strtold f.humidity
    snow := (cur.snow + strtoul f.snow) % ULONG_RANGE
    sum_cloudcover := cur.sum_cloudcover + strtold f.cloud
    lightning := (cur.lightning + strtoul f.lightning) % ULONG_RANGE
    sum_pressure := cur.sum_pressure + (strtoul f.pressure : ℚ)
    sum_temperature := cur.sum_temperature + dtemp f.temperature
    max_temp := if cur.max_temp < dtemp f.temperature then dtemp f.temperature else cur.max_temp
    max_time := if cur.max_temp < dtemp f.temperature then f.time else cur.max_time
    min_temp := if dtemp f.temperature < cur.min_temp then dtemp f.temperature else cur.min_temp
    min_time := if dtemp f.temperature < cur.min_temp then f.time else cur.min_time }

/-- The occupied prefix of the table after one more record: the accumulator of
the record's code is updated, or a new one is appended. -/
def absorbInto : List climate_info → Fields → List climate_info
  | [], f => [seed f]
  | s :: occ, f => if s.code = f.code then absorb s f :: occ else s :: absorbInto occ f

/-- The occupied prefix of the table after a sequence of records. -/
def occupied (fs : List Fields) : List climate_info := fs.foldl absorbInto []

/-- The records that carry the state code `c`, in input order. -/
def group (c : List Char) (fs : List Fields) : List Fields :=
  fs.filter (fun f => f.code = c)

/-- The accumulator obtained from a non-empty sequence of records of one state:
created from the first, updated by each of the others. -/
def aggregate : List Fields → Option climate_info
  | [] => none
  | f :: rest => some (rest.foldl absorb (seed f))

/-- The table reached from the empty table `init` by the records `fs`: their
accumulators in the leading slots, the remaining slots untouched. -/
def tableAfter (init : List climate_info) (fs : List Fields) : List climate_info :=
  occupied fs ++ init.drop (occupied fs).length

/-! ## Sample input -/

/-- An empty slot with all members zero. -/
def zeroSlot : climate_info :=
  { num_records := 0, code := [], sum_humidity := 0, snow := 0, sum_cloudcover := 0,
    lightning := 0, sum_pressure := 0, sum_temperature := 0, max_temp := 0, max_time := [],
    min_temp := 0, min_time := [] }

/-- The table of `main` with every slot empty. -/
def zeroTable : List climate_info := List.replicate NUM_STATES zeroSlot

/-- A file of five records for three states; the two extremes of `CA` are each
reached twice. -/
def sampleFile : List Char :=
  String.toList ("CA\t1428300000000\t9prcjqk3yc80\t93.0\t0.0\t100.0\t0.0\t95644.0\t277.58716\n"
  ++ "TN\t1430308800000\tdn6nb3vwjyxb\t4.0\t1.0\t100.0\t0.0\t99226.0\t282.63037\n"
  ++ "CA\t1428559200000\t9prrremmdqxb\t61.0\t0.0\t0.0\t1.0\t102112.0\t285.07513\n"
  ++ "CA\t1428192000000\t9prkzkcdypgz\t57.0\t0.0\t100.0\t0.0\t101765.0\t285.07513\n"
  ++ "WA\t1428170400000\tc23nb3vwjyxb\t73.0\t0.0\t22.0\t0.0\t102074.0\t285.10425\n"
  ++ "CA\t1429768800000\t9pr60tz83r2p\t38.0\t0.0\t0.0\t0.0\t101679.0\t277.58716\n")

/-- A file of three records of the state `CA`, the last tying the maximum of the
second. -/
def singleStateFile : List Char :=
  String.toList ("CA\t1428300000000\t9prcjqk3yc80\t93.0\t0.0\t100.0\t0.0\t95644.0\t277.58716\n"
  ++ "CA\t1428559200000\t9prrremmdqxb\t61.0\t0.0\t0.0\t1.0\t102112.0\t285.07513\n"
  ++ "CA\t1428192000000\t9prkzkcdypgz\t57.0\t0.0\t100.0\t0.0\t101765.0\t285.07513\n")

/-- The records of `sampleFile` distributed over two sources; the records of each
state keep their relative order, but `TN` now comes first. -/
def sampleSources : List (List Char) :=
  [String.toList ("TN\t1430308800000\tdn6nb3vwjyxb\t4.0\t1.0\t100.0\t0.0\t99226.0\t282.63037\n"
    ++ "CA\t1428300000000\t9prcjqk3yc80\t93.0\t0.0\t100.0\t0.0\t95644.0\t277.58716\n"
    ++ "CA\t1428559200000\t9prrremmdqxb\t61.0\t0.0\t0.0\t1.0\t102112.0\t285.07513\n"),
   String.toList ("WA\t1428170400000\tc23nb3vwjyxb\t73.0\t0.0\t22.0\t0.0\t102074.0\t285.10425\n"
    ++ "CA\t1428192000000\t9prkzkcdypgz\t57.0\t0.0\t100.0\t0.0\t101765.0\t285.07513\n"
    ++ "CA\t1429768800000\t9pr60tz83r2p\t38.0\t0.0\t0.0\t0.0\t101679.0\t277.58716\n")]

/-- A file whose first line has only four fields, followed by a valid line. -/
def shortLineFile : List Char :=
  String.toList ("TN\t1428300000000\tdn6nb3vwjyxb\t93.0\n"
  ++ "WA\t1428170400000\tc23nb3vwjyxb\t73.0\t0.0\t22.0\t0.0\t102074.0\t285.10425\n")

/-- A file with one record for each of the fifty states and, last, one for the
District of Columbia: 51 distinct codes. -/
def fiftyOneCodesFile : List Char :=
  String.toList ("AL\t1428300000000\t9prcjqk3yc80\t93.0\t0.0\t100.0\t0.0\t95644.0\t277.5\n"
  ++ "AK\t1428303600000\t9prcjqk3yc80\t93.0\t0.0\t100.0\t0.0\t95644.0\t278.5\n"
  ++ "AZ\t1428307200000\t9prcjqk3yc80\t93.0\t0.0\t100.0\t0.0\t95644.0\t279.5\n"
  ++ "AR\t1428310800000\t9prcjqk3yc80\t93.0\t0.0\t100.0\t0.0\t95644.0\t280.5\n"
  ++ "CA\t1428314400000\t9prcjqk3yc80\t93.0\t0.0\t100.0\t0.0\t95644.0\t281.5\n"
  ++ "CO\t1428318000000\t9prcjqk3yc80\t93.0\t0.0\t100.0\t0.0\t95644.0\t282.5\n"
  ++ "CT\t1428321600000\t9prcjqk3yc80\t93.0\t0.0\t100.0\t0.0\t95644.0\t283.5\n"
  ++ "DE\t1428325200000\t9prcjqk3yc80\t93.0\t0.0\t100.0\t0.0\t95644.0\t284.5\n"
  ++ "FL\t1428328800000\t9prcjqk3yc80\t93.0\t0.0\t100.0\t0.0\t95644.0\t285.5\n"
  ++ "GA\t1428332400000\t9prcjqk3yc80\t93.0\t0.0\t100.0\t0.0\t95644.0\t286.5\n"
  ++ "HI\t1428336000000\t9prcjqk3yc80\t93.0\t0.0\t100.0\t0.0\t95644.0\t287.5\n"
  ++ "ID\t1428339600000\t9prcjqk3yc80\t93.0\t0.0\t100.0\t0.0\t95644.0\t288.5\n"
  ++ "IL\t1428343200000\t9prcjqk3yc80\t93.0\t0.0\t100.0\t0.0\t95644.0\t289.5\n"
  ++ "IN\t1428346800000\t9prcjqk3yc80\t93.0\t0.0\t100.0\t0.0\t95644.0\t290.5\n"
  ++ "IA\t1428350400000\t9prcjqk3yc80\t93.0\t0.0\t100.0\t0.0\t95644.0\t291.5\n"
  ++ "KS\t1428354000000\t9prcjqk3yc80\t93.0\t0.0\t100.0\t0.0\t95644.0\t292.5\n"
  ++ "KY\t1428357600000\t9prcjqk3yc80\t93.0\t0.0\t100.0\t0.0\t95644.0\t293.5\n"
  ++ "LA\t1428361200000\t9prcjqk3yc80\t93.0\t0.0\t100.0\t0.0\t95644.0\t294.5\n"
  ++ "ME\t1428364800000\t9prcjqk3yc80\t93.0\t0.0\t100.0\t0.0\t95644.0\t295.5\n"
  ++ "MD\t1428368400000\t9prcjqk3yc80\t93.0\t0.0\t100.0\t0.0\t95644.0\t296.5\n"
  ++ "MA\t1428372000000\t9prcjqk3yc80\t93.0\t0.0\t100.0\t0.0\t95644.0\t297.5\n"
  ++ "MI\t1428375600000\t9prcjqk3yc80\t93.0\t0.0\t100.0\t0.0\t95644.0\t298.5\n"
  ++ "MN\t1428379200000\t9prcjqk3yc80\t93.0\t0.0\t100.0\t0.0\t95644.0\t299.5\n"
  ++ "MS\t1428382800000\t9prcjqk3yc80\t93.0\t0.0\t100.0\t0.0\t95644.0\t300.5\n"
  ++ "MO\t1428386400000\t9prcjqk3yc80\t93.0\t0.0\t100.0\t0.0\t95644.0\t301.5\n"
  ++ "MT\t1428390000000\t9prcjqk3yc80\t93.0\t0.0\t100.0\t0.0\t95644.0\t302.5\n"
  ++ "NE\t1428393600000\t9prcjqk3yc80\t93.0\t0.0\t100.0\t0.0\t95644.0\t303.5\n"
  ++ "NV\t1428397200000\t9prcjqk3yc80\t93.0\t0.0\t100.0\t0.0\t95644.0\t304.5\n"
  ++ "NH\t1428400800000\t9prcjqk3yc80\t93.0\t0.0\t100.0\t0.0\t95644.0\t305.5\n"
  ++ "NJ\t1428404400000\t9prcjqk3yc80\t93.0\t0.0\t100.0\t0.0\t95644.0\t306.5\n"
  ++ "NM\t1428408000000\t9prcjqk3yc80\t93.0\t0.0\t100.0\t0.0\t95644.0\t307.5\n"
  ++ "NY\t1428411600000\t9prcjqk3yc80\t93.0\t0.0\t100.0\t0.0\t95644.0\t308.5\n"
  ++ "NC\t1428415200000\t9prcjqk3yc80\t93.0\t0.0\t100.0\t0.0\t95644.0\t309.5\n"
  ++ "ND\t1428418800000\t9prcjqk3yc80\t93.0\t0.0\t100.0\t0.0\t95644.0\t310.5\n"
  ++ "OH\t1428422400000\t9prcjqk3yc80\t93.0\t0.0\t100.0\t0.0\t95644.0\t311.5\n"
  ++ "OK\t1428426000000\t9prcjqk3yc80\t93.0\t0.0\t100.0\t0.0\t95644.0\t312.5\n"
  ++ "OR\t1428429600000\t9prcjqk3yc80\t93.0\t0.0\t100.0\t0.0\t95644.0\t313.5\n"
  ++ "PA\t1428433200000\t9prcjqk3yc80\t93.0\t0.0\t100.0\t0.0\t95644.0\t314.5\n"
  ++ "RI\t1428436800000\t9prcjqk3yc80\t93.0\t0.0\t100.0\t0.0\t95644.0\t315.5\n"
  ++ "SC\t1428440400000\t9prcjqk3yc80\t93.0\t0.0\t100.0\t0.0\t95644.0\t316.5\n"
  ++ "SD\t1428444000000\t9prcjqk3yc80\t93.0\t0.0\t100.0\t0.0\t95644.0\t317.5\n"
  ++ "TN\t1428447600000\t9prcjqk3yc80\t93.0\t0.0\t100.0\t0.0\t95644.0\t318.5\n"
  ++ "TX\t1428451200000\t9prcjqk3yc80\t93.0\t0.0\t100.0\t0.0\t95644.0\t319.5\n"
  ++ "UT\t1428454800000\t9prcjqk3yc80\t93.0\t0.0\t100.0\t0.0\t95644.0\t320.5\n"
  ++ "VT\t1428458400000\t9prcjqk3yc80\t93.0\t0.0\t100.0\t0.0\t95644.0\t321.5\n"
  ++ "VA\t1428462000000\t9prcjqk3yc80\t93.0\t0.0\t100.0\t0.0\t95644.0\t322.5\n"
  ++ "WA\t1428465600000\t9prcjqk3yc80\t93.0\t0.0\t100.0\t0.0\t95644.0\t323.5\n"
  ++ "WV\t1428469200000\t9prcjqk3yc80\t93.0\t0.0\t100.0\t0.0\t95644.0\t324.5\n"
  ++ "WI\t1428472800000\t9prcjqk3yc80\t93.0\t0.0\t100.0\t0.0\t95644.0\t325.5\n"
  ++ "WY\t1428476400000\t9prcjqk3yc80\t93.0\t0.0\t100.0\t0.0\t95644.0\t326.5\n"
  ++ "DC\t1428480000000\t9prcjqk3yc80\t93.0\t0.0\t100.0\t0.0\t95644.0\t327.5\n")

/-- The worked example: two records of `TN` (293.15 K, then 310.93 K) and one of
`WA` (280.0 K). -/
def workedExampleFile : List Char :=
  String.toList ("TN\t1428300000000\tdn6nb3vwjyxb\t93.0\t0.0\t100.0\t0.0\t95644.0\t293.15\n"
  ++ "TN\t1430308800000\tdn6nb3vwjyxb\t4.0\t1.0\t100.0\t0.0\t99226.0\t310.93\n"
  ++ "WA\t1428559200000\tc23nb3vwjyxb\t61.0\t0.0\t0.0\t1.0\t102112.0\t280.0\n")

/-- The accumulator of `TN` after the worked example. -/
def workedExampleTN : climate_info :=
  { num_records := 2, code := ['T', 'N'], sum_humidity := 97, snow := 1, sum_cloudcover := 200,
    lightning := 0, sum_pressure := 194870, sum_temperature := 42001 / 250,
    max_temp := 25001 / 250, max_time := String.toList "1430308800000",
    min_temp := 68, min_time := String.toList "1428300000000" }

/-- The accumulator of `WA` after the worked example. -/
def workedExampleWA : climate_info :=
  { num_records := 1, code := ['W', 'A'], sum_humidity := 61, snow := 0, sum_cloudcover := 0,
    lightning := 1, sum_pressure := 102112, sum_temperature := 4433 / 100,
    max_temp := 4433 / 100, max_time := String.toList "1428559200000",
    min_temp := 4433 / 100, min_time := String.toList "1428559200000" }

/-- Two valid records of `TN` whose pressure fields have a fractional part:
101325.7 and 99000.5, of sum 200326.2. -/
def fractionalPressureFile : List Char :=
  String.toList ("TN\t1430308800000\tdn6nb3vwjyxb\t4.0\t1.0\t100.0\t0.0\t101325.7\t282.63037\n"
  ++ "TN\t1430312400000\tdn6nb3vwjyxb\t6.0\t0.0\t50.0\t0.0\t99000.5\t282.63037\n")

/-- The accumulator of `TN` after `fractionalPressureFile`. -/
def fractionalPressureSlot : climate_info :=
  { num_records := 2, code := ['T', 'N'], sum_humidity := 10, snow := 1, sum_cloudcover := 150,
    lightning := 0, sum_pressure := 200325, sum_temperature := 24532333 / 250000,
    max_temp := 24532333 / 500000, max_time := String.toList "1430308800000",
    min_temp := 24532333 / 500000, min_time := String.toList "1430308800000" }

/-- A source that is one line of 186 characters before its newline: the fields of
three records on a single line. -/
def longLineFile : List Char :=
  String.toList ("TN\t1428300000000\tdn6nb3vwjyxb\t93.0\t0.0\t100.0\t0.0\t95644.0\t293.15"
  ++ "\tWA\t1428559200000\tc23nb3vwjyxb\t61.0\t0\t0.0\t1.0\t102112.0\t280.0"
  ++ "\tOR\t1428559200000\tc20nb3vwjyxb\t55.0\t0.0\t10.0\t0.0\t101000.0\t285.0\n")

/-- The accumulator created from the first 99 characters of `longLineFile`. -/
def longLineSlot1 : climate_info :=
  { num_records := 1, code := ['T', 'N'], sum_humidity := 93, snow := 0, sum_cloudcover := 100,
    lightning := 0, sum_pressure := 95644, sum_temperature := 68,
    max_temp := 68, max_time := String.toList "1428300000000",
    min_temp := 68, min_time := String.toList "1428300000000" }

/-- The accumulator created from the remaining characters of `longLineFile`. -/
def longLineSlot2 : climate_info :=
  { num_records := 1, code := ['0'], sum_humidity := 102112, snow := 280, sum_cloudcover := 0,
    lightning := 1428559200000, sum_pressure := 0, sum_temperature := -36067 / 100,
    max_temp := -36067 / 100, max_time := String.toList "0.0",
    min_temp := -36067 / 100, min_time := String.toList "0.0" }

/-- A source whose only line has nine fields but is not a valid record: humidity
and cloud cover are given as `-`. -/
def missingValuesFile : List Char :=
  String.toList "TN\t1430308800000\tdn6nb3vwjyxb\t-\t0.0\t-\t0.0\t99226.0\t282.63037\n"

/-- The accumulator that `missingValuesFile` creates. -/
def missingValuesSlot : climate_info :=
  { num_records := 1, code := ['T', 'N'], sum_humidity := 0, snow := 0, sum_cloudcover := 0,
    lightning := 0, sum_pressure := 99226, sum_temperature := 24532333 / 500000,
    max_temp := 24532333 / 500000, max_time := String.toList "1430308800000",
    min_temp := 24532333 / 500000, min_time := String.toList "1430308800000" }

/-- A line with nine tab-separated fields. -/
def geoLine : List Char :=
  String.toList "TN\t1430308800000\tdn6nb3vwjyxb\t4.0\t1.0\t100.0\t0.0\t99226.0\t282.63037\n"

/-- The line `geoLine` with another geolocation. -/
def otherGeoLine : List Char :=
  String.toList "TN\t1430308800000\t9prcjqk3yc80\t4.0\t1.0\t100.0\t0.0\t99226.0\t282.63037\n"

/-- The line `geoLine` with the empty string as geolocation. -/
def emptyGeoLine : List Char :=
  String.toList "TN\t1430308800000\t\t4.0\t1.0\t100.0\t0.0\t99226.0\t282.63037\n"

/-- The accumulator that `geoLine` creates. -/
def geoLineSlot : climate_info :=
  { num_records := 1, code := ['T', 'N'], sum_humidity := 4, snow := 1, sum_cloudcover := 100,
    lightning := 0, sum_pressure := 99226, sum_temperature := 24532333 / 500000,
    max_temp := 24532333 / 500000, max_time := String.toList "1430308800000",
    min_temp := 24532333 / 500000, min_time := String.toList "1430308800000" }

/-- The number `k` of leading slots with `num_records != 0`. -/
def occupiedCount (states : List climate_info) : Nat :=
  (states.takeWhile (fun s => s.num_records ≠ 0)).length

/-- The prefix invariant of the table: with `k = occupiedCount states`, the slots
`0..k-1` have `num_records != 0`, every slot from `k` on has `num_records = 0`, and
the codes stored in the slots `0..k-1` are pairwise distinct. -/
def prefixInvariant (states : List climate_info) : Prop :=
  (∀ s ∈ states.take (occupiedCount states), s.num_records ≠ 0)
    ∧ (∀ s ∈ states.drop (occupiedCount states), s.num_records = 0)
    ∧ ((states.take (occupiedCount states)).map climate_info.code).Nodup

instance (states : List climate_info) : Decidable (prefixInvariant states) :=
  inferInstanceAs (Decidable (_ ∧ _ ∧ _))

/-- The codes of the fifty states. -/
def fiftyStateCodes : List (List Char) :=
  ["AL", "AK", "AZ", "AR", "CA", "CO", "CT", "DE", "FL", "GA", "HI", "ID", "IL", "IN", "IA",
   "KS", "KY", "LA", "ME", "MD", "MA", "MI", "MN", "MS", "MO", "MT", "NE", "NV", "NH", "NJ",
   "NM", "NY", "NC", "ND", "OH", "OK", "OR", "PA", "RI", "SC", "SD", "TN", "TX", "UT", "VT",
   "VA", "WA", "WV", "WI", "WY"].map String.toList

/-- A table whose 50 slots are all occupied, one record for each state. -/
def fullTable : List climate_info :=
  fiftyStateCodes.map (fun c => { zeroSlot with num_records := 1, code := c })

/-- A valid line for the District of Columbia. -/
def dcLine : List Char :=
  String.toList "DC\t1428480000000\t9prcjqk3yc80\t93.0\t0.0\t100.0\t0.0\t95644.0\t327.5\n"

/-- The floating-point operations of the loop body, left open. Each member gives
the (finite) value that the C expression stores, so that any rounding of `strtod`,
`strtold`, the multiplication, the subtraction and the additions is an instance. -/
structure FloatOps where
  /-- the `double` computed by `strtod(temperature,NULL)*1.8-459.67` -/
  temp : List Char → ℚ
  /-- the value stored by `sum_humidity=strtold(humidity,NULL)` -/
  humidityInit : List Char → ℚ
  /-- the value stored by `sum_humidity+=strtold(humidity,NULL)` -/
  humidityAdd : ℚ → List Char → ℚ
  /-- the value stored by `sum_cloudcover=strtold(cloud,NULL)` -/
  cloudInit : List Char → ℚ
  /-- the value stored by `sum_cloudcover+=strtold(cloud,NULL)` -/
  cloudAdd : ℚ → List Char → ℚ
  /-- the value stored by `sum_pressure=strtoul(pressure,NULL,10)` -/
  pressureInit : Nat → ℚ
  /-- the value stored by `sum_pressure+=strtoul(pressure,NULL,10)` -/
  pressureAdd : ℚ → Nat → ℚ
  /-- the value stored by `sum_temperature+=dtemp` -/
  temperatureAdd : ℚ → ℚ → ℚ

/-- The operations in exact arithmetic. -/
def exactOps : FloatOps :=
  { temp := dtemp
    humidityInit := strtold
    humidityAdd := fun s tok => s + strtold tok
    cloudInit := strtold
    cloudAdd := fun s tok => s + strtold tok
    pressureInit := fun n => (n : ℚ)
    pressureAdd := fun s n => s + (n : ℚ)
    temperatureAdd := fun s d => s + d }

/-- The branch `if(!already_exist)` for given floating-point operations. -/
def createWith (ops : FloatOps) (f : Fields) : Except Fault climate_info := do
  let code ← strcpy 3 f.code
  let max_time ← strcpy 15 f.time
  let min_time ← strcpy 15 f.time
  pure
    { num_records := 1
      code := code
      sum_humidity := ops.humidityInit f.humidity
      snow := strtoul f.snow
      sum_cloudcover := ops.cloudInit f.cloud
      lightning := strtoul f.lightning
      sum_pressure := ops.pressureInit (strtoul f.pressure)
      sum_temperature := ops.temp f.temperature
      max_temp := ops.temp f.temperature
      min_temp := ops.temp f.temperature
      max_time := max_time
      min_time := min_time }

/-- The `else` branch for given floating-point operations. -/
def updateWith (ops : FloatOps) (cur : climate_info) (f : Fields) :
    Except Fault climate_info := do
  let d := ops.temp f.temperature
  let c1 : climate_info :=
    { cur with
      num_records := (cur.num_records + 1) % ULONG_RANGE
      sum_humidity := ops.humidityAdd cur.sum_humidity f.humidity
      snow := (cur.snow + strtoul f.snow) % ULONG_RANGE
      sum_cloudcover := ops.cloudAdd cur.sum_cloudcover f.cloud
      lightning := (cur.lightning + strtoul f.lightning) % ULONG_RANGE
      sum_pressure := ops.pressureAdd cur.sum_pressure (strtoul f.pressure)
      sum_temperature := ops.temperatureAdd cur.sum_temperature d }
  let c2 ←
    if c1.max_temp < d then do
      let t ← strcpy 15 f.time
      pure { c1 with max_temp := d, max_time := t }
    else pure c1
  if d < c2.min_temp then do
    let t ← strcpy 15 f.time
    pure { c2 with min_temp := d, min_time := t }
  else pure c2

/-- One iteration of the `while` loop for given floating-point operations. -/
def processLineWith (ops : FloatOps) (num_states : Nat) (states : List climate_info)
    (line : List Char) : Outcome :=
  match tokenize line with
  | none => .error Fault.nullPointer
  | some f => do
    let (i, already_exist) ← findSlot states f.code num_states 0
    match states[i]? with
    | none => .error Fault.outOfBounds
    | some cur =>
      let cur1 ← if already_exist then updateWith ops cur f else createWith ops f
      pure (states.set i cur1)

/-- The loop of `analyze_file` for given floating-point operations. -/
def analyzeLinesWith (ops : FloatOps) (num_states : Nat) :
    List climate_info → List (List Char) → Outcome
  | states, [] => .ok states
  | states, line :: rest =>
    match processLineWith ops num_states states line with
    | .error e => .error e
    | .ok states1 => analyzeLinesWith ops num_states states1 rest

/-- The function `analyze_file` for given floating-point operations. -/
def analyze_fileWith (ops : FloatOps) (file : List Char) (states : List climate_info)
    (num_states : Nat) : Outcome :=
  analyzeLinesWith ops num_states states (readLines file)

/-- The accumulator written by `createWith`. -/
def seedWith (ops : FloatOps) (f : Fields) : climate_info :=
  { num_records := 1
    code := f.code
    sum_humidity := ops.humidityInit f.humidity
    snow := strtoul f.snow
    sum_cloudcover := ops.cloudInit f.cloud
    lightning := strtoul f.lightning
    sum_pressure := ops.pressureInit (strtoul f.pressure)
    sum_temperature := ops.temp f.temperature
    max_temp := ops.temp f.temperature
    min_temp := ops.temp f.temperature
    max_time := f.time
    min_time := f.time }

/-- The accumulator left by `updateWith`. -/
def absorbWith (ops : FloatOps) (cur : climate_info) (f : Fields) : climate_info :=
  { num_records := (cur.num_records + 1) % ULONG_RANGE
    code := cur.code
    sum_humidity := ops.humidityAdd cur.sum_humidity f.humidity
    snow := (cur.snow + strtoul f.snow) % ULONG_RANGE
    sum_cloudcover := ops.cloudAdd cur.sum_cloudcover f.cloud
    lightning := (cur.lightning + strtoul f.lightning) % ULONG_RANGE
    sum_pressure := ops.pressureAdd cur.sum_pressure (strtoul f.pressure)
    sum_temperature := ops.temperatureAdd cur.sum_temperature (ops.temp f.temperature)
    max_temp := if cur.max_temp < ops.temp f.temperature then ops.temp f.temperature
      else cur.max_temp
    max_time := if cur.max_temp < ops.temp f.temperature then f.time else cur.max_time
    min_temp := if ops.temp f.temperature < cur.min_temp then ops.temp f.temperature
      else cur.min_temp
    min_time := if ops.temp f.temperature < cur.min_temp then f.time else cur.min_time }

/-- The accumulator `a` holds the extremes of the temperatures of the records `l`:
they bound every temperature, and each timestamp is that of the first record
whose temperature equals the extreme. -/
def ExtremaOf (ops : FloatOps) (l : List Fields) (a : climate_info) : Prop :=
  (∀ f ∈ l, a.min_temp ≤ ops.temp f.temperature ∧ ops.temp f.temperature ≤ a.max_temp)
    ∧ (l.find? (fun f => ops.temp f.temperature = a.max_temp)).map Fields.time
        = some a.max_time
    ∧ (l.find? (fun f => ops.temp f.temperature = a.min_temp)).map Fields.time
        = some a.min_time

/-! ## The loop body for arbitrary floating-point operations -/

/-- Rounding of a rational to the nearest integer, ties to the even one. -/
def roundHalfEven (q : ℚ) : Int :=
  let f := Rat.floor q
  if q - f < 1 / 2 then f
  else if 1 / 2 < q - f then f + 1
  else if f % 2 = 0 then f else f + 1

/-- Scaling of a positive rational by a power of two into `[2^(p-1), 2^p)`: the
result is the scaled value and the exponent `e` with `x = value * 2^e`. -/
def scaleTo (p : Nat) : Nat → ℚ → Int → ℚ × Int
  | 0, x, e => (x, e)
  | fuel + 1, x, e =>
    if (2 : ℚ) ^ p ≤ x then scaleTo p fuel (x / 2) (e + 1)
    else if x < (2 : ℚ) ^ (p - 1) then scaleTo p fuel (x * 2) (e - 1)
    else (x, e)

/-- Rounding to the nearest binary floating-point number with a significand of `p`
bits, ties to even (the default rounding mode), for values in the normal range of
the format: overflow and subnormal results are not modelled. -/
def roundTo (p : Nat) (q : ℚ) : ℚ :=
  if q = 0 then 0
  else
    let r := scaleTo p 2200 (if q < 0 then -q else q) 0
    let m : ℚ := (roundHalfEven r.1 : ℚ) * (2 : ℚ) ^ r.2
    if q < 0 then -m else m

/-- Rounding to `double` (IEEE 754 binary64, significand of 53 bits). -/
def roundDouble (q : ℚ) : ℚ := roundTo 53 q

/-- Rounding to `long double` in the x87 extended format (significand of 64 bits). -/
def roundLongDouble (q : ℚ) : ℚ := roundTo 64 q

/-- The operations as compiled for x86-64: `strtod` and `strtold` return the
correctly rounded value of the numeral, the constants `1.8` and `459.67` are
`double`, every operation is rounded once, and an assignment to the `double`
member `sum_humidity` rounds the `long double` result again. -/
def doubleOps : FloatOps :=
  { temp := fun tok =>
      roundDouble (roundDouble (roundDouble (strtod tok) * roundDouble (9 / 5))
        - roundDouble (45967 / 100))
    humidityInit := fun tok => roundDouble (roundLongDouble (strtold tok))
    humidityAdd := fun s tok => roundDouble (roundLongDouble (s + roundLongDouble (strtold tok)))
    cloudInit := fun tok => roundLongDouble (strtold tok)
    cloudAdd := fun s tok => roundLongDouble (s + roundLongDouble (strtold tok))
    pressureInit := fun n => roundLongDouble (n : ℚ)
    pressureAdd := fun s n => roundLongDouble (s + roundLongDouble (n : ℚ))
    temperatureAdd := fun s d => roundLongDouble (s + d) }

/-- Two valid records of `CA` whose temperature texts differ, 280.5 and
280.50000000000001, but denote the same `double`; the timestamps are 1000 and
2000. -/
def tieFile : List Char :=
  String.toList ("CA\t1000\t9prcjqk3yc80\t93.0\t0.0\t100.0\t0.0\t95644.0\t280.5\n"
  ++ "CA\t2000\t9prrremmdqxb\t61.0\t0.0\t0.0\t1.0\t102112.0\t280.50000000000001\n")

theorem create_eq_seed (f : Fields) (hc : f.code.length < 3) (ht : f.time.length < 15) :
    create f = .ok (seed f) := by
  have h1 : ¬ 3 ≤ f.code.length := by omega
  have h2 : ¬ 15 ≤ f.time.length := by omega
  simp [create, strcpy, h1, h2, seed, bind, Except.bind, pure, Except.pure]

theorem update_eq_absorb (cur : climate_info) (f : Fields) (ht : f.time.length < 15) :
    update cur f = .ok (absorb cur f) := by
  have h2 : ¬ 15 ≤ f.time.length := by omega
  simp only [update, strcpy, h2, absorb, bind, Except.bind, pure, Except.pure, if_false]
  by_cases h1 : cur.max_temp < dtemp f.temperature <;>
    by_cases h3 : dtemp f.temperature < cur.min_temp <;> simp [h1, h3]

theorem getElem?_append_cons_length {α : Type} (pre : List α) (s : α) (rest : List α) :
    (pre ++ s :: rest)[pre.length]? = some s := by
  induction pre with
  | nil => simp
  | cons a pre ih => simpa using ih

theorem set_append_cons_length {α : Type} (pre : List α) (s x : α) (rest : List α) :
    (pre ++ s :: rest).set pre.length x = pre ++ x :: rest := by
  simp

theorem findSlot_skip (c : List Char) (pre : List climate_info)
    (hpre : ∀ s ∈ pre, s.num_records ≠ 0 ∧ s.code ≠ c) :
    ∀ (before rest : List climate_info) (n : Nat), pre.length ≤ n →
      findSlot (before ++ pre ++ rest) c n before.length
        = findSlot (before ++ pre ++ rest) c (n - pre.length) (before.length + pre.length) := by
  induction pre with
  | nil => intro before rest n _; simp
  | cons s pre ih =>
    intro before rest n hn
    obtain ⟨m, rfl⟩ : ∃ m, n = m + 1 := ⟨n - 1, by simp at hn; omega⟩
    have hs := hpre s (List.mem_cons_self _ _)
    have hget : (before ++ s :: pre ++ rest)[before.length]? = some s := by
      have := getElem?_append_cons_length before s (pre ++ rest)
      simpa using this
    have ih1 := ih (fun x hx => hpre x (List.mem_cons_of_mem _ hx)) (before ++ [s]) rest m
      (by simp at hn; omega)
    have e : before ++ [s] ++ pre ++ rest = before ++ s :: pre ++ rest := by simp
    rw [e] at ih1
    simp only [List.length_append, List.length_singleton] at ih1
    rw [findSlot, hget]
    simp only [hs.1, hs.2, if_false]
    rw [ih1]
    simp only [List.length_cons]
    congr 1 <;> omega

theorem exists_first_code (c : List Char) :
    ∀ occ : List climate_info, c ∈ occ.map climate_info.code →
      ∃ pre s post, occ = pre ++ s :: post ∧ (∀ x ∈ pre, x.code ≠ c) ∧ s.code = c := by
  intro occ
  induction occ with
  | nil => intro h; simp at h
  | cons a occ ih =>
    intro h
    by_cases ha : a.code = c
    · exact ⟨[], a, occ, rfl, by simp, ha⟩
    · have h1 : c ∈ occ.map climate_info.code := by
        simp only [List.map_cons, List.mem_cons] at h
        rcases h with h | h
        · exact absurd h.symm ha
        · exact h
      obtain ⟨pre, s, post, e, hp, hs⟩ := ih h1
      refine ⟨a :: pre, s, post, by simp [e], ?_, hs⟩
      intro x hx
      rcases List.mem_cons.mp hx with rfl | hx
      · exact ha
      · exact hp x hx

theorem absorbInto_found (f : Fields) (s : climate_info) (post : List climate_info)
    (hs : s.code = f.code) :
    ∀ pre : List climate_info, (∀ x ∈ pre, x.code ≠ f.code) →
      absorbInto (pre ++ s :: post) f = pre ++ absorb s f :: post := by
  intro pre
  induction pre with
  | nil => intro _; simp [absorbInto, hs]
  | cons a pre ih =>
    intro h
    have ha := h a (List.mem_cons_self _ _)
    simp [absorbInto, ha, ih (fun x hx => h x (List.mem_cons_of_mem _ hx))]

theorem absorbInto_new (f : Fields) :
    ∀ occ : List climate_info, (∀ x ∈ occ, x.code ≠ f.code) →
      absorbInto occ f = occ ++ [seed f] := by
  intro occ
  induction occ with
  | nil => intro _; rfl
  | cons a occ ih =>
    intro h
    have ha := h a (List.mem_cons_self _ _)
    simp [absorbInto, ha, ih (fun x hx => h x (List.mem_cons_of_mem _ hx))]

/-- The scan stops with `already_exist = 1` at the first slot holding the code. -/
theorem findSlot_found (N : Nat) (c : List Char) (pre : List climate_info) (s : climate_info)
    (rest : List climate_info) (hpre : ∀ x ∈ pre, x.num_records ≠ 0 ∧ x.code ≠ c)
    (hs0 : s.num_records ≠ 0) (hs : s.code = c) (hN : pre.length < N) :
    findSlot (pre ++ s :: rest) c N 0 = .ok (pre.length, true) := by
  have hsk := findSlot_skip c pre hpre [] (s :: rest) N (by omega)
  simp only [List.nil_append, List.length_nil, Nat.zero_add] at hsk
  obtain ⟨m, hm⟩ : ∃ m, N - pre.length = m + 1 := ⟨N - pre.length - 1, by omega⟩
  rw [hsk, hm, findSlot, getElem?_append_cons_length]
  simp [hs0, hs]

/-- The scan stops with `already_exist = 0` at the first empty slot when no
earlier slot holds the code. -/
theorem findSlot_new (N : Nat) (c : List Char) (occ : List climate_info) (e : climate_info)
    (free : List climate_info) (hocc : ∀ x ∈ occ, x.num_records ≠ 0 ∧ x.code ≠ c)
    (he : e.num_records = 0) (hN : occ.length < N) :
    findSlot (occ ++ e :: free) c N 0 = .ok (occ.length, false) := by
  have hsk := findSlot_skip c occ hocc [] (e :: free) N (by omega)
  simp only [List.nil_append, List.length_nil, Nat.zero_add] at hsk
  obtain ⟨m, hm⟩ : ∃ m, N - occ.length = m + 1 := ⟨N - occ.length - 1, by omega⟩
  rw [hsk, hm, findSlot, getElem?_append_cons_length]
  simp [he]

/-- The scan runs to `i = num_states` when all scanned slots are occupied by other
codes. -/
theorem findSlot_full (N : Nat) (c : List Char) (occ rest : List climate_info)
    (hocc : ∀ x ∈ occ, x.num_records ≠ 0 ∧ x.code ≠ c) (hN : occ.length = N) :
    findSlot (occ ++ rest) c N 0 = .ok (N, false) := by
  have hsk := findSlot_skip c occ hocc [] rest N (by omega)
  simp only [List.nil_append, List.length_nil, Nat.zero_add] at hsk
  rw [hsk, hN, Nat.sub_self, findSlot]

/-- A line whose code already has an accumulator updates that accumulator. -/
theorem processLine_known (N : Nat) (occ free : List climate_info) (line : List Char)
    (f : Fields) (htok : tokenize line = some f) (ht : f.time.length < 15)
    (hocc : ∀ s ∈ occ, s.num_records ≠ 0) (hN : occ.length ≤ N)
    (hmem : f.code ∈ occ.map climate_info.code) :
    processLine N (occ ++ free) line = .ok (absorbInto occ f ++ free) := by
  obtain ⟨pre, s, post, rfl, hpre, hs⟩ := exists_first_code f.code occ hmem
  have hpre2 : ∀ x ∈ pre, x.num_records ≠ 0 ∧ x.code ≠ f.code :=
    fun x hx => ⟨hocc x (by simp [hx]), hpre x hx⟩
  have hs0 : s.num_records ≠ 0 := hocc s (by simp)
  have e : pre ++ s :: post ++ free = pre ++ s :: (post ++ free) := by simp
  have hfind := findSlot_found N f.code pre s (post ++ free) hpre2 hs0 hs
    (by simp at hN; omega)
  have hget := getElem?_append_cons_length pre s (post ++ free)
  have hset : (pre ++ s :: (post ++ free)).set pre.length (absorb s f)
      = pre ++ absorb s f :: post ++ free := by
    simp
  rw [absorbInto_found f s post hs pre hpre, e]
  simp only [processLine, htok, hfind, bind, Except.bind, hget, update_eq_absorb _ _ ht,
    if_true, pure, Except.pure, hset]

/-- A line with a new code takes the first empty slot, when there is one. -/
theorem processLine_new (N : Nat) (occ : List climate_info) (e : climate_info)
    (free : List climate_info) (line : List Char)
    (f : Fields) (htok : tokenize line = some f) (hc : f.code.length < 3)
    (ht : f.time.length < 15)
    (hocc : ∀ s ∈ occ, s.num_records ≠ 0) (he : e.num_records = 0) (hN : occ.length < N)
    (hmem : f.code ∉ occ.map climate_info.code) :
    processLine N (occ ++ e :: free) line = .ok (absorbInto occ f ++ free) := by
  have hne : ∀ x ∈ occ, x.code ≠ f.code := by
    intro x hx hxc
    exact hmem (List.mem_map.mpr ⟨x, hx, hxc⟩)
  have hfind := findSlot_new N f.code occ e free (fun x hx => ⟨hocc x hx, hne x hx⟩) he hN
  have hget := getElem?_append_cons_length occ e free
  have hset : (occ ++ e :: free).set occ.length (seed f) = occ ++ [seed f] ++ free := by
    simp
  rw [absorbInto_new f occ hne]
  simp only [processLine, htok, hfind, bind, Except.bind, hget, create_eq_seed _ hc ht,
    pure, Except.pure, hset]
  simp

/-- A line with a new code faults when every slot is occupied: the scan ends with
`i = num_states` and `states[i]` lies past the array. -/
theorem processLine_full (N : Nat) (occ : List climate_info) (line : List Char)
    (f : Fields) (htok : tokenize line = some f)
    (hocc : ∀ s ∈ occ, s.num_records ≠ 0) (hN : occ.length = N)
    (hmem : f.code ∉ occ.map climate_info.code) :
    processLine N occ line = .error Fault.outOfBounds := by
  have hne : ∀ x ∈ occ, x.code ≠ f.code := by
    intro x hx hxc
    exact hmem (List.mem_map.mpr ⟨x, hx, hxc⟩)
  have hfind := findSlot_full N f.code occ [] (fun x hx => ⟨hocc x hx, hne x hx⟩) hN
  rw [List.append_nil] at hfind
  have hget : occ[N]? = none := by
    rw [List.getElem?_eq_none_iff]; omega
  simp only [processLine, htok, hfind, bind, Except.bind, hget]

/-! ## The occupied prefix as an ordered map -/

theorem mem_firstOccurrences {α : Type} [DecidableEq α] (x : α) :
    ∀ l : List α, x ∈ firstOccurrences l ↔ x ∈ l := by
  intro l
  induction l with
  | nil => simp [firstOccurrences]
  | cons a l ih =>
    by_cases hxa : x = a
    · simp [firstOccurrences, hxa]
    · simp [firstOccurrences, hxa, ih]

theorem nodup_firstOccurrences {α : Type} [DecidableEq α] :
    ∀ l : List α, (firstOccurrences l).Nodup := by
  intro l
  induction l with
  | nil => simp [firstOccurrences]
  | cons a l ih =>
    simp only [firstOccurrences, List.nodup_cons]
    exact ⟨by simp, ih.filter _⟩

theorem firstOccurrences_snoc {α : Type} [DecidableEq α] (x : α) :
    ∀ l : List α, firstOccurrences (l ++ [x])
      = if x ∈ l then firstOccurrences l else firstOccurrences l ++ [x] := by
  intro l
  induction l with
  | nil => simp [firstOccurrences]
  | cons a l ih =>
    have e : firstOccurrences (a :: l ++ [x])
        = a :: (firstOccurrences (l ++ [x])).filter (fun y => y ≠ a) := rfl
    rw [e, ih]
    simp only [firstOccurrences]
    by_cases hxl : x ∈ l
    · simp [hxl]
    · by_cases hxa : x = a
      · subst hxa; simp [hxl]
      · simp [hxl, hxa, List.filter_append]

theorem absorb_code (a : climate_info) (f : Fields) : (absorb a f).code = a.code := rfl

theorem seed_code (f : Fields) : (seed f).code = f.code := rfl

theorem map_code_absorbInto (f : Fields) :
    ∀ occ : List climate_info, (absorbInto occ f).map climate_info.code
      = if f.code ∈ occ.map climate_info.code then occ.map climate_info.code
        else occ.map climate_info.code ++ [f.code] := by
  intro occ
  induction occ with
  | nil => simp [absorbInto, seed]
  | cons a occ ih =>
    by_cases ha : a.code = f.code
    · simp [absorbInto, ha, absorb]
    · have ha2 : ¬ f.code = a.code := fun h => ha h.symm
      simp only [absorbInto, ha, if_false, List.map_cons, ih, List.mem_cons, ha2, false_or]
      split <;> simp

theorem occupied_snoc (fs : List Fields) (f : Fields) :
    occupied (fs ++ [f]) = absorbInto (occupied fs) f := by
  simp [occupied, List.foldl_append]

/-- The codes of the occupied prefix are the distinct codes of the records, in the
order of their first occurrence. -/
theorem map_code_occupied (fs : List Fields) :
    (occupied fs).map climate_info.code = firstOccurrences (fs.map Fields.code) := by
  induction fs using List.reverseRecOn with
  | nil => rfl
  | append_singleton fs f ih =>
    rw [occupied_snoc, map_code_absorbInto, ih, List.map_append, List.map_singleton,
      firstOccurrences_snoc]
    by_cases h : f.code ∈ fs.map Fields.code <;> simp [h, mem_firstOccurrences]

theorem mem_absorbInto (f : Fields) (s : climate_info) :
    ∀ occ : List climate_info, (occ.map climate_info.code).Nodup → s ∈ absorbInto occ f →
      (s ∈ occ ∧ s.code ≠ f.code) ∨ (∃ a ∈ occ, a.code = f.code ∧ s = absorb a f)
        ∨ (s = seed f ∧ ∀ x ∈ occ, x.code ≠ f.code) := by
  intro occ
  induction occ with
  | nil =>
    intro _ h
    simp only [absorbInto, List.mem_singleton] at h
    exact Or.inr (Or.inr ⟨h, by simp⟩)
  | cons a occ ih =>
    intro hnd h
    simp only [List.map_cons, List.nodup_cons] at hnd
    by_cases ha : a.code = f.code
    · simp only [absorbInto, ha, if_true, List.mem_cons] at h
      rcases h with h | h
      · exact Or.inr (Or.inl ⟨a, by simp, ha, h⟩)
      · refine Or.inl ⟨by simp [h], ?_⟩
        intro hsc
        exact hnd.1 (List.mem_map.mpr ⟨s, h, by rw [hsc, ha]⟩)
    · simp only [absorbInto, ha, if_false, List.mem_cons] at h
      rcases h with h | h
      · exact Or.inl ⟨by simp [h], by rw [h]; exact ha⟩
      · rcases ih hnd.2 h with h1 | ⟨b, hb, hbc, hsb⟩ | ⟨h1, h2⟩
        · exact Or.inl ⟨by simp [h1.1], h1.2⟩
        · exact Or.inr (Or.inl ⟨b, by simp [hb], hbc, hsb⟩)
        · refine Or.inr (Or.inr ⟨h1, ?_⟩)
          intro x hx
          rcases List.mem_cons.mp hx with rfl | hx
          · exact ha
          · exact h2 x hx

theorem aggregate_snoc (l : List Fields) (f : Fields) :
    aggregate (l ++ [f])
      = some (match aggregate l with
              | none => seed f
              | some a => absorb a f) := by
  cases l with
  | nil => rfl
  | cons g l => simp [aggregate, List.foldl_append]

theorem group_snoc (c : List Char) (fs : List Fields) (f : Fields) :
    group c (fs ++ [f]) = if f.code = c then group c fs ++ [f] else group c fs := by
  by_cases h : f.code = c <;> simp [group, List.filter_append, h]

theorem group_eq_nil_of_not_mem (c : List Char) (fs : List Fields)
    (h : c ∉ fs.map Fields.code) : group c fs = [] := by
  simp only [group, List.filter_eq_nil_iff, decide_eq_true_eq]
  intro f hf hc
  exact h (List.mem_map.mpr ⟨f, hf, hc⟩)

theorem nodup_code_occupied (fs : List Fields) :
    ((occupied fs).map climate_info.code).Nodup := by
  rw [map_code_occupied]
  exact nodup_firstOccurrences _

/-- Every accumulator of the occupied prefix is the aggregate of the records that
carry its code. -/
theorem aggregate_of_mem_occupied (fs : List Fields) :
    ∀ s ∈ occupied fs, aggregate (group s.code fs) = some s := by
  induction fs using List.reverseRecOn with
  | nil => intro s hs; simp [occupied] at hs
  | append_singleton fs f ih =>
    intro s hs
    rw [occupied_snoc] at hs
    rcases mem_absorbInto f s (occupied fs) (nodup_code_occupied fs) hs with
      ⟨h1, h2⟩ | ⟨a, ha, hac, hsa⟩ | ⟨h1, h2⟩
    · have h3 : ¬ f.code = s.code := fun h => h2 h.symm
      rw [group_snoc, if_neg h3]
      exact ih s h1
    · have h3 : f.code = s.code := by rw [hsa, absorb_code, hac]
      rw [group_snoc, if_pos h3, aggregate_snoc]
      have h4 : s.code = a.code := by rw [hsa, absorb_code]
      rw [h4, ih a ha, hsa]
    · have h3 : f.code = s.code := by rw [h1, seed_code]
      have h4 : f.code ∉ fs.map Fields.code := by
        intro hmem
        have : f.code ∈ (occupied fs).map climate_info.code := by
          rw [map_code_occupied]; exact (mem_firstOccurrences _ _).mpr hmem
        obtain ⟨x, hx, hxc⟩ := List.mem_map.mp this
        exact h2 x hx hxc
      rw [group_snoc, if_pos h3, aggregate_snoc, ← h3, group_eq_nil_of_not_mem _ _ h4, h1]
      rfl

theorem foldl_absorb_num_records (f : Fields) (rest : List Fields) :
    (rest.foldl absorb (seed f)).num_records = (rest.length + 1) % ULONG_RANGE := by
  induction rest using List.reverseRecOn with
  | nil => simp [seed, ULONG_RANGE]
  | append_singleton rest g ih =>
    simp only [List.foldl_append, List.foldl_cons, List.foldl_nil, absorb, ih,
      List.length_append, List.length_singleton]
    exact Nat.mod_add_mod _ _ _

theorem aggregate_num_records (l : List Fields) (a : climate_info)
    (h : aggregate l = some a) : a.num_records = l.length % ULONG_RANGE ∧ l ≠ [] := by
  cases l with
  | nil => simp [aggregate] at h
  | cons f rest =>
    simp only [aggregate, Option.some.injEq] at h
    subst h
    exact ⟨by simpa using foldl_absorb_num_records f rest, by simp⟩

theorem length_group_le (c : List Char) (fs : List Fields) : (group c fs).length ≤ fs.length :=
  List.length_filter_le _ _

/-- The accumulators of the occupied prefix count their records, and so are
non-empty slots as long as fewer than `2^64` records were read. -/
theorem num_records_of_mem_occupied (fs : List Fields) (hlen : fs.length < ULONG_RANGE)
    (s : climate_info) (hs : s ∈ occupied fs) :
    s.num_records = (group s.code fs).length ∧ s.num_records ≠ 0 := by
  obtain ⟨h1, h2⟩ := aggregate_num_records _ _ (aggregate_of_mem_occupied fs s hs)
  have h3 := length_group_le s.code fs
  have h4 : (group s.code fs).length ≠ 0 := fun h => h2 (List.length_eq_zero.mp h)
  rw [Nat.mod_eq_of_lt (by omega)] at h1
  exact ⟨h1, by omega⟩

theorem length_absorbInto (occ : List climate_info) (f : Fields) :
    (absorbInto occ f).length
      = if f.code ∈ occ.map climate_info.code then occ.length else occ.length + 1 := by
  have h := congrArg List.length (map_code_absorbInto f occ)
  rw [List.length_map] at h
  rw [h]
  split <;> simp

theorem length_firstOccurrences_append {α : Type} [DecidableEq α] (l : List α) :
    ∀ l2 : List α, (firstOccurrences l).length ≤ (firstOccurrences (l ++ l2)).length := by
  intro l2
  induction l2 using List.reverseRecOn with
  | nil => simp
  | append_singleton l2 x ih =>
    rw [← List.append_assoc, firstOccurrences_snoc]
    split
    · exact ih
    · simp only [List.length_append, List.length_singleton]; omega

theorem length_occupied (fs : List Fields) :
    (occupied fs).length = (firstOccurrences (fs.map Fields.code)).length := by
  rw [← map_code_occupied, List.length_map]

/-! ## Runs of `analyze_file` on valid lines -/

theorem validLine_fields (line : List Char) (h : validLine line = true) :
    ∃ f, tokenize line = some f ∧ f.wellFormed = true := by
  unfold validLine at h
  cases ht : tokenize line with
  | none => rw [ht] at h; simp at h
  | some f => rw [ht] at h; exact ⟨f, rfl, h⟩

theorem wellFormed_bounds (f : Fields) (h : f.wellFormed = true) :
    f.code.length < 3 ∧ f.time.length < 15 := by
  simp only [Fields.wellFormed, Bool.and_eq_true, decide_eq_true_eq] at h
  exact ⟨h.1.1.1.1.1.1.1.1, h.1.1.1.1.1.1.1.2⟩

theorem records_cons (line : List Char) (rest : List (List Char)) (f : Fields)
    (h : tokenize line = some f) : records (line :: rest) = f :: records rest := by
  simp [records, List.filterMap_cons, h]

theorem records_append (l1 l2 : List (List Char)) :
    records (l1 ++ l2) = records l1 ++ records l2 := by
  simp [records, List.filterMap_append]

theorem length_records_of_valid (lines : List (List Char))
    (hv : ∀ l ∈ lines, validLine l = true) : (records lines).length = lines.length := by
  induction lines with
  | nil => rfl
  | cons l lines ih =>
    obtain ⟨f, hf, _⟩ := validLine_fields l (hv l (List.mem_cons_self _ _))
    rw [records_cons l lines f hf]
    simp [ih (fun x hx => hv x (List.mem_cons_of_mem _ hx))]

/-- One valid line takes the table of the history `hist` to the table of the
history extended by the record of the line, while a slot is left for its code. -/
theorem processLine_tableAfter (N : Nat) (init : List climate_info) (hempty : emptyTable init)
    (hlen : init.length = N) (hist : List Fields) (line : List Char) (f : Fields)
    (htok : tokenize line = some f) (hc : f.code.length < 3) (ht : f.time.length < 15)
    (hcount : hist.length < ULONG_RANGE)
    (hroom : (firstOccurrences ((hist ++ [f]).map Fields.code)).length ≤ N) :
    processLine N (tableAfter init hist) line = .ok (tableAfter init (hist ++ [f])) := by
  have hocc : ∀ s ∈ occupied hist, s.num_records ≠ 0 :=
    fun s hs => (num_records_of_mem_occupied hist hcount s hs).2
  have hlen2 := length_occupied (hist ++ [f])
  have hlen1 := length_occupied hist
  have hla := length_absorbInto (occupied hist) f
  rw [← occupied_snoc] at hla
  have hmono := length_firstOccurrences_append (hist.map Fields.code) [f.code]
  rw [← List.map_singleton, ← List.map_append] at hmono
  unfold tableAfter
  by_cases hmem : f.code ∈ (occupied hist).map climate_info.code
  · rw [if_pos hmem] at hla
    rw [processLine_known N (occupied hist) _ line f htok ht hocc (by omega) hmem,
      occupied_snoc, ← occupied_snoc, hla]
  · rw [if_neg hmem] at hla
    have hlt : (occupied hist).length < init.length := by omega
    have hdrop : init.drop (occupied hist).length
        = init[(occupied hist).length] :: init.drop ((occupied hist).length + 1) :=
      List.drop_eq_getElem_cons hlt
    have he : (init[(occupied hist).length]).num_records = 0 :=
      hempty _ (List.getElem_mem _)
    rw [hdrop, processLine_new N (occupied hist) _ _ line f htok hc ht hocc he (by omega) hmem,
      ← occupied_snoc, hla]

/-- Valid lines, with room in the table for their codes, are processed without
fault and lead to the table of the extended history. -/
theorem analyzeLines_tableAfter (N : Nat) (init : List climate_info) (hempty : emptyTable init)
    (hlen : init.length = N) :
    ∀ (lines : List (List Char)) (hist : List Fields),
      (∀ l ∈ lines, validLine l = true) →
      hist.length + lines.length < ULONG_RANGE →
      (firstOccurrences ((hist ++ records lines).map Fields.code)).length ≤ N →
      analyzeLines N (tableAfter init hist) lines
        = .ok (tableAfter init (hist ++ records lines)) := by
  intro lines
  induction lines with
  | nil => intro hist _ _ _; simp [analyzeLines, records]
  | cons line rest ih =>
    intro hist hv hcount hroom
    obtain ⟨f, htok, hwf⟩ := validLine_fields line (hv line (List.mem_cons_self _ _))
    obtain ⟨hc, ht⟩ := wellFormed_bounds f hwf
    rw [records_cons line rest f htok] at hroom ⊢
    have e : hist ++ f :: records rest = (hist ++ [f]) ++ records rest := by simp
    rw [e] at hroom ⊢
    have hroom1 : (firstOccurrences ((hist ++ [f]).map Fields.code)).length ≤ N := by
      have := length_firstOccurrences_append ((hist ++ [f]).map Fields.code)
        ((records rest).map Fields.code)
      rw [← List.map_append] at this
      omega
    simp only [List.length_cons] at hcount
    rw [analyzeLines, processLine_tableAfter N init hempty hlen hist line f htok hc ht
      (by omega) hroom1]
    exact ih (hist ++ [f]) (fun l hl => hv l (List.mem_cons_of_mem _ hl))
      (by simp only [List.length_append, List.length_singleton]; omega) hroom

theorem tableAfter_nil (init : List climate_info) : tableAfter init [] = init := by
  simp [tableAfter, occupied]

/-- The run of `analyze_file` on a file of valid lines, from an empty table with
room for the codes of the file. -/
theorem analyze_file_valid (file : List Char) (init : List climate_info) (N : Nat)
    (hempty : emptyTable init) (hlen : init.length = N)
    (hv : ∀ l ∈ readLines file, validLine l = true)
    (hcount : (readLines file).length < ULONG_RANGE)
    (hroom : (firstOccurrences ((records (readLines file)).map Fields.code)).length ≤ N) :
    analyze_file file init N = .ok (tableAfter init (records (readLines file))) := by
  have h := analyzeLines_tableAfter N init hempty hlen (readLines file) [] hv
    (by simpa using hcount) (by simpa using hroom)
  rw [tableAfter_nil] at h
  simpa [analyze_file] using h

/-! ## Properties of one accumulator -/

/-- Induction over the records aggregated into one accumulator: the creation from
a first record, then one update per further record. -/
theorem aggregate_induction (P : List Fields → climate_info → Prop)
    (hseed : ∀ f, P [f] (seed f))
    (habsorb : ∀ l a f, aggregate l = some a → P l a → P (l ++ [f]) (absorb a f)) :
    ∀ l a, aggregate l = some a → P l a := by
  intro l
  induction l using List.reverseRecOn with
  | nil => intro a h; simp [aggregate] at h
  | append_singleton l f ih =>
    intro a h
    rw [aggregate_snoc] at h
    cases hl : aggregate l with
    | none =>
      have hnil : l = [] := by
        cases l with
        | nil => rfl
        | cons g l => simp [aggregate] at hl
      subst hnil
      rw [hl] at h
      simp only [Option.some.injEq] at h
      subst h
      exact hseed f
    | some a0 =>
      rw [hl] at h
      simp only [Option.some.injEq] at h
      subst h
      exact habsorb l a0 f hl (ih a0 hl)

theorem aggregate_code (l : List Fields) (a : climate_info) (h : aggregate l = some a) :
    ∀ f ∈ l.head?, a.code = f.code := by
  revert a
  refine aggregate_induction (fun l a => ∀ f ∈ l.head?, a.code = f.code) ?_ ?_ l
  · intro f g hg
    simp only [List.head?_cons, Option.mem_def, Option.some.injEq] at hg
    subst hg; rfl
  · intro l a f hl ih g hg
    have hne : l ≠ [] := (aggregate_num_records l a hl).2
    cases l with
    | nil => exact absurd rfl hne
    | cons x l =>
      simp only [List.cons_append, List.head?_cons, Option.mem_def, Option.some.injEq] at hg
      rw [absorb_code]
      exact ih g (by simp [hg])

/-- The extremes of an accumulator bound the temperatures of its records and are
attained, and each timestamp is that of the first record attaining the extreme. -/
theorem aggregate_extrema (l : List Fields) (a : climate_info) (h : aggregate l = some a) :
    (∀ f ∈ l, a.min_temp ≤ dtemp f.temperature ∧ dtemp f.temperature ≤ a.max_temp)
    ∧ (l.find? (fun f => dtemp f.temperature = a.max_temp)).map Fields.time = some a.max_time
    ∧ (l.find? (fun f => dtemp f.temperature = a.min_temp)).map Fields.time
        = some a.min_time := by
  revert a
  refine aggregate_induction (fun l a =>
    (∀ f ∈ l, a.min_temp ≤ dtemp f.temperature ∧ dtemp f.temperature ≤ a.max_temp)
    ∧ (l.find? (fun f => dtemp f.temperature = a.max_temp)).map Fields.time = some a.max_time
    ∧ (l.find? (fun f => dtemp f.temperature = a.min_temp)).map Fields.time
        = some a.min_time) ?_ ?_ l
  · intro f
    refine ⟨?_, ?_, ?_⟩
    · intro g hg
      simp only [List.mem_singleton] at hg
      subst hg
      exact ⟨le_refl _, le_refl _⟩
    · simp [seed]
    · simp [seed]
  · intro l a f _ ih
    obtain ⟨hb, hmax, hmin⟩ := ih
    refine ⟨?_, ?_, ?_⟩
    · intro g hg
      have hmx : a.max_temp ≤ (absorb a f).max_temp := by
        simp only [absorb]; split <;> [exact le_of_lt (by assumption); exact le_refl _]
      have hmn : (absorb a f).min_temp ≤ a.min_temp := by
        simp only [absorb]; split <;> [exact le_of_lt (by assumption); exact le_refl _]
      rcases List.mem_append.mp hg with hg | hg
      · exact ⟨le_trans hmn (hb g hg).1, le_trans (hb g hg).2 hmx⟩
      · simp only [List.mem_singleton] at hg
        subst hg
        constructor
        · simp only [absorb]; split
          · exact le_refl _
          · exact not_lt.mp (by assumption)
        · simp only [absorb]; split
          · exact le_refl _
          · exact not_lt.mp (by assumption)
    · by_cases hlt : a.max_temp < dtemp f.temperature
      · have hnone : l.find? (fun g => dtemp g.temperature = dtemp f.temperature) = none := by
          rw [List.find?_eq_none]
          intro g hg hgeq
          simp only [decide_eq_true_eq] at hgeq
          have := (hb g hg).2
          rw [hgeq] at this
          exact absurd hlt (not_lt.mpr this)
        simp [absorb, hlt, List.find?_append, hnone]
      · cases hfind : l.find? (fun g => dtemp g.temperature = a.max_temp) with
        | none => rw [hfind] at hmax; simp at hmax
        | some g =>
          rw [hfind] at hmax
          simp only [absorb, hlt, if_false, List.find?_append, hfind, Option.or_some]
          exact hmax
    · by_cases hlt : dtemp f.temperature < a.min_temp
      · have hnone : l.find? (fun g => dtemp g.temperature = dtemp f.temperature) = none := by
          rw [List.find?_eq_none]
          intro g hg hgeq
          simp only [decide_eq_true_eq] at hgeq
          have := (hb g hg).1
          rw [hgeq] at this
          exact absurd hlt (not_lt.mpr this)
        simp [absorb, hlt, List.find?_append, hnone]
      · cases hfind : l.find? (fun g => dtemp g.temperature = a.min_temp) with
        | none => rw [hfind] at hmin; simp at hmin
        | some g =>
          rw [hfind] at hmin
          simp only [absorb, hlt, if_false, List.find?_append, hfind, Option.or_some]
          exact hmin

/-- The temperature sum of an accumulator is the sum of the temperatures of its
records. -/
theorem aggregate_sum_temperature (l : List Fields) (a : climate_info)
    (h : aggregate l = some a) :
    a.sum_temperature = (l.map (fun f => dtemp f.temperature)).sum := by
  revert a
  refine aggregate_induction
    (fun l a => a.sum_temperature = (l.map (fun f => dtemp f.temperature)).sum) ?_ ?_ l
  · intro f; simp [seed]
  · intro l a f _ ih
    simp [absorb, ih]

/-! ## The table after a run -/

theorem filter_tableAfter (init : List climate_info) (hempty : emptyTable init)
    (fs : List Fields) (hcount : fs.length < ULONG_RANGE) :
    (tableAfter init fs).filter (fun s => s.num_records ≠ 0) = occupied fs := by
  unfold tableAfter
  rw [List.filter_append]
  have h1 : (occupied fs).filter (fun s => s.num_records ≠ 0) = occupied fs := by
    rw [List.filter_eq_self]
    intro s hs
    simpa using (num_records_of_mem_occupied fs hcount s hs).2
  have h2 : (init.drop (occupied fs).length).filter (fun s => s.num_records ≠ 0) = [] := by
    rw [List.filter_eq_nil_iff]
    intro s hs
    simpa using hempty s (List.mem_of_mem_drop hs)
  rw [h1, h2, List.append_nil]

theorem mem_tableAfter_occupied (init : List climate_info) (hempty : emptyTable init)
    (fs : List Fields) (hcount : fs.length < ULONG_RANGE) (s : climate_info) :
    (s ∈ tableAfter init fs ∧ s.num_records ≠ 0) ↔ s ∈ occupied fs := by
  rw [← filter_tableAfter init hempty fs hcount, List.mem_filter]
  simp

theorem length_tableAfter (init : List climate_info) (fs : List Fields)
    (h : (occupied fs).length ≤ init.length) : (tableAfter init fs).length = init.length := by
  simp only [tableAfter, List.length_append, List.length_drop]
  omega

theorem firstOccurrences_const {α : Type} [DecidableEq α] (c : α) :
    ∀ l : List α, (∀ x ∈ l, x = c) → l ≠ [] → firstOccurrences l = [c] := by
  intro l
  induction l with
  | nil => intro _ h; exact absurd rfl h
  | cons x l ih =>
    intro hall _
    have hx : x = c := hall x (List.mem_cons_self _ _)
    subst hx
    have hl : ∀ y ∈ l, y = x := fun y hy => hall y (List.mem_cons_of_mem _ hy)
    simp only [firstOccurrences, List.cons.injEq, true_and, List.filter_eq_nil_iff]
    intro y hy
    simpa using hl y ((mem_firstOccurrences y l).mp hy)

theorem group_eq_self (c : List Char) (fs : List Fields) (h : ∀ f ∈ fs, f.code = c) :
    group c fs = fs := by
  simp only [group, List.filter_eq_self, decide_eq_true_eq]
  exact h

/-- The records of a single state occupy one slot, holding their aggregate. -/
theorem occupied_single (c : List Char) (fs : List Fields) (h : ∀ f ∈ fs, f.code = c)
    (hne : fs ≠ []) : ∃ a, occupied fs = [a] ∧ aggregate fs = some a ∧ a.code = c := by
  have hcodes : (occupied fs).map climate_info.code = [c] := by
    rw [map_code_occupied]
    refine firstOccurrences_const c _ ?_ (by simpa using hne)
    intro x hx
    obtain ⟨f, hf, rfl⟩ := List.mem_map.mp hx
    exact h f hf
  obtain ⟨a, ha⟩ : ∃ a, occupied fs = [a] := by
    have hl := congrArg List.length hcodes
    simp only [List.length_map, List.length_singleton] at hl
    exact List.length_eq_one.mp hl
  have hac : a.code = c := by
    rw [ha] at hcodes
    simpa using hcodes
  refine ⟨a, ha, ?_, hac⟩
  have := aggregate_of_mem_occupied fs a (by rw [ha]; simp)
  rwa [hac, group_eq_self c fs h] at this

theorem codeOf_eq_some (l : List Char) (c : List Char) (f : Fields)
    (hf : tokenize l = some f) : codeOf l = some c ↔ f.code = c := by
  simp [codeOf, hf]

theorem code_of_mem_records (lines : List (List Char)) (c : List Char)
    (hc : ∀ l ∈ lines, codeOf l = some c) : ∀ f ∈ records lines, f.code = c := by
  intro f hf
  obtain ⟨l, hl, hlf⟩ := List.mem_filterMap.mp hf
  exact (codeOf_eq_some l c f hlf).mp (hc l hl)

/-- The run of the loop on a non-empty sequence of valid lines of one state, from
an empty table: the first slot receives the aggregate of the records. -/
theorem analyzeLines_single (lines : List (List Char)) (init : List climate_info)
    (c : List Char) (hempty : emptyTable init) (hlen : init.length = NUM_STATES)
    (hv : ∀ l ∈ lines, validLine l = true)
    (hcount : lines.length < ULONG_RANGE)
    (hcode : ∀ l ∈ lines, codeOf l = some c)
    (hne : lines ≠ []) :
    ∃ a, aggregate (records lines) = some a ∧ a.code = c
      ∧ a.num_records = lines.length
      ∧ analyzeLines NUM_STATES init lines = .ok (a :: init.drop 1)
      ∧ tableAfter init (records lines) = a :: init.drop 1
      ∧ occupied (records lines) = [a] := by
  have hrl := length_records_of_valid _ hv
  have hrne : records lines ≠ [] := by
    intro h
    rw [h] at hrl
    exact hne (List.length_eq_zero.mp hrl.symm)
  obtain ⟨a, ha, hagg, hac⟩ :=
    occupied_single c (records lines) (code_of_mem_records _ c hcode) hrne
  have hroom : (firstOccurrences ((records lines).map Fields.code)).length ≤ NUM_STATES := by
    rw [← length_occupied, ha]
    simp [NUM_STATES]
  have htab : tableAfter init (records lines) = a :: init.drop 1 := by
    rw [tableAfter, ha]; rfl
  refine ⟨a, hagg, hac, ?_, ?_, htab, ha⟩
  · have := (aggregate_num_records _ _ hagg).1
    rw [hrl, Nat.mod_eq_of_lt hcount] at this
    exact this
  · have h := analyzeLines_tableAfter NUM_STATES init hempty hlen lines [] hv
      (by simpa using hcount) (by simpa using hroom)
    rw [tableAfter_nil, List.nil_append, htab] at h
    exact h

theorem aggregate_attained (l : List Fields) (a : climate_info) (h : aggregate l = some a) :
    (∃ f ∈ l, dtemp f.temperature = a.max_temp) ∧ (∃ f ∈ l, dtemp f.temperature = a.min_temp) := by
  obtain ⟨_, hmax, hmin⟩ := aggregate_extrema l a h
  constructor
  · cases hf : l.find? (fun f => dtemp f.temperature = a.max_temp) with
    | none => rw [hf] at hmax; simp at hmax
    | some g =>
      exact ⟨g, List.mem_of_find?_eq_some hf, by simpa using List.find?_some hf⟩
  · cases hf : l.find? (fun f => dtemp f.temperature = a.min_temp) with
    | none => rw [hf] at hmin; simp at hmin
    | some g =>
      exact ⟨g, List.mem_of_find?_eq_some hf, by simpa using List.find?_some hf⟩

theorem mem_group (c : List Char) (fs : List Fields) (f : Fields) :
    f ∈ group c fs ↔ f ∈ fs ∧ f.code = c := by
  simp [group]

theorem exists_occupied_of_mem (fs : List Fields) (f : Fields) (hf : f ∈ fs) :
    ∃ s ∈ occupied fs, s.code = f.code := by
  have h : f.code ∈ (occupied fs).map climate_info.code := by
    rw [map_code_occupied, mem_firstOccurrences]
    exact List.mem_map.mpr ⟨f, hf, rfl⟩
  obtain ⟨s, hs, hsc⟩ := List.mem_map.mp h
  exact ⟨s, hs, hsc⟩

/-- The report of the table after a run lists the accumulators of the occupied
prefix, in slot order. -/
theorem print_report_tableAfter (init : List climate_info) (hempty : emptyTable init)
    (fs : List Fields) (hcount : fs.length < ULONG_RANGE) (N : Nat) (hlen : init.length = N)
    (hroom : (occupied fs).length ≤ N) :
    print_report (tableAfter init fs) N = (occupied fs).map summarize := by
  have hl := length_tableAfter init fs (by omega)
  rw [print_report, List.take_of_length_le (by omega), filter_tableAfter init hempty fs hcount]

theorem emptyTable_zeroTable : emptyTable zeroTable := by
  intro s hs
  rw [List.eq_of_mem_replicate hs]
  rfl

theorem mem_occupied_iff (fs : List Fields) (s : climate_info) :
    s ∈ occupied fs ↔ aggregate (group s.code fs) = some s := by
  constructor
  · exact aggregate_of_mem_occupied fs s
  · intro h
    obtain ⟨_, hne⟩ := aggregate_num_records _ _ h
    obtain ⟨f, hf⟩ := List.exists_mem_of_ne_nil _ hne
    obtain ⟨hf1, hf2⟩ := (mem_group _ _ _).mp hf
    obtain ⟨s2, hs2, hs2c⟩ := exists_occupied_of_mem fs f hf1
    have h2 := aggregate_of_mem_occupied fs s2 hs2
    rw [hs2c, hf2, h] at h2
    simp only [Option.some.injEq] at h2
    rw [h2]; exact hs2

/-- In the table after a run, the accumulator found for a code is the aggregate
of the records carrying that code. -/
theorem findAccumulator_tableAfter (init : List climate_info) (hempty : emptyTable init)
    (fs : List Fields) (hcount : fs.length < ULONG_RANGE) (N : Nat) (hlen : init.length = N)
    (hroom : (occupied fs).length ≤ N) (c : List Char) :
    findAccumulator (tableAfter init fs) N c = aggregate (group c fs) := by
  have hocc : ∀ s ∈ occupied fs, s.num_records ≠ 0 :=
    fun s hs => (num_records_of_mem_occupied fs hcount s hs).2
  by_cases hmem : c ∈ (occupied fs).map climate_info.code
  · obtain ⟨pre, s, post, hsplit, hpre, hs⟩ := exists_first_code c _ hmem
    have hpre2 : ∀ x ∈ pre, x.num_records ≠ 0 ∧ x.code ≠ c :=
      fun x hx => ⟨hocc x (by rw [hsplit]; simp [hx]), hpre x hx⟩
    have hs0 : s.num_records ≠ 0 := hocc s (by rw [hsplit]; simp)
    have hN : pre.length < N := by
      have := congrArg List.length hsplit
      simp at this
      omega
    have hagg := aggregate_of_mem_occupied fs s (by rw [hsplit]; simp)
    rw [hs] at hagg
    have e : tableAfter init fs = pre ++ s :: (post ++ init.drop (occupied fs).length) := by
      rw [tableAfter, hsplit]; simp
    rw [findAccumulator, e, findSlot_found N c pre s _ hpre2 hs0 hs hN, hagg]
    exact getElem?_append_cons_length pre s _
  · have hne : ∀ x ∈ occupied fs, x.num_records ≠ 0 ∧ x.code ≠ c := by
      intro x hx
      exact ⟨hocc x hx, fun hxc => hmem (List.mem_map.mpr ⟨x, hx, hxc⟩)⟩
    have hnil : group c fs = [] := by
      apply group_eq_nil_of_not_mem
      intro h
      apply hmem
      rw [map_code_occupied]
      exact (mem_firstOccurrences _ _).mpr h
    rw [hnil, findAccumulator, tableAfter]
    rcases Nat.lt_or_ge (occupied fs).length N with hlt | hge
    · have hdrop : init.drop (occupied fs).length
          = init[(occupied fs).length] :: init.drop ((occupied fs).length + 1) :=
        List.drop_eq_getElem_cons (by omega)
      have he : (init[(occupied fs).length]).num_records = 0 :=
        hempty _ (List.getElem_mem _)
      rw [hdrop, findSlot_new N c _ _ _ hne he hlt]
      rfl
    · rw [findSlot_full N c _ _ hne (by omega)]
      rfl

theorem analyzeLines_append (N : Nat) (l1 l2 : List (List Char)) :
    ∀ t : List climate_info, analyzeLines N t (l1 ++ l2)
      = match analyzeLines N t l1 with
        | .error e => .error e
        | .ok t1 => analyzeLines N t1 l2 := by
  induction l1 with
  | nil => intro t; rfl
  | cons l l1 ih =>
    intro t
    simp only [List.cons_append, analyzeLines]
    cases processLine N t l with
    | error e => rfl
    | ok t1 => exact ih t1

/-- Analysing files one after another into the same table is analysing the
sequence of all their lines. -/
theorem analyzeFiles_eq_analyzeLines (N : Nat) (files : List (List Char)) :
    ∀ t : List climate_info,
      analyzeFiles N t files = analyzeLines N t (files.flatMap readLines) := by
  induction files with
  | nil => intro t; rfl
  | cons f files ih =>
    intro t
    simp only [analyzeFiles, List.flatMap_cons, analyzeLines_append, analyze_file]
    cases analyzeLines N t (readLines f) with
    | error e => rfl
    | ok t1 => exact ih t1

theorem group_records (c : List Char) (lines : List (List Char)) :
    group c (records lines) = records (lines.filter (fun l => codeOf l = some c)) := by
  induction lines with
  | nil => rfl
  | cons l lines ih =>
    cases hl : tokenize l with
    | none =>
      have h1 : records (l :: lines) = records lines := by simp [records, hl]
      have h2 : ¬ codeOf l = some c := by simp [codeOf, hl]
      rw [h1, List.filter_cons_of_neg (by simpa using h2), ih]
    | some f =>
      rw [records_cons l lines f hl]
      by_cases hc : f.code = c
      · have h2 : codeOf l = some c := (codeOf_eq_some l c f hl).mpr hc
        rw [List.filter_cons_of_pos (by simpa using h2), records_cons l _ f hl, ← ih]
        simp [group, hc]
      · have h2 : ¬ codeOf l = some c := fun h => hc ((codeOf_eq_some l c f hl).mp h)
        rw [List.filter_cons_of_neg (by simpa using h2), ← ih]
        simp [group, hc]

theorem length_firstOccurrences_perm {α : Type} [DecidableEq α] (l1 l2 : List α)
    (h : l1.Perm l2) : (firstOccurrences l1).length = (firstOccurrences l2).length := by
  apply List.Perm.length_eq
  rw [List.perm_ext_iff_of_nodup (nodup_firstOccurrences l1) (nodup_firstOccurrences l2)]
  intro a
  rw [mem_firstOccurrences, mem_firstOccurrences]
  exact h.mem_iff

theorem fgetsChunks_cons (n : Nat) (c : Char) (f cur : List Char) (room : Nat) :
    fgetsChunks n (c :: f) cur room
      = if c = '\n' ∨ room ≤ 1 then (c :: cur).reverse :: fgetsChunks n f [] (n - 1)
        else fgetsChunks n f (c :: cur) (room - 1) := by
  rw [fgetsChunks]

theorem fgetsChunks_append (n : Nat) (B : List Char) :
    ∀ (A cur : List Char) (room : Nat), A.getLast? = some '\n' →
      fgetsChunks n (A ++ B) cur room
        = fgetsChunks n A cur room ++ fgetsChunks n B [] (n - 1) := by
  intro A
  induction A with
  | nil => intro cur room h; simp at h
  | cons c A ih =>
    intro cur room h
    cases A with
    | nil =>
      simp only [List.getLast?_singleton, Option.some.injEq] at h
      subst h
      simp [fgetsChunks]
    | cons d A =>
      rw [List.getLast?_cons_cons] at h
      have e : c :: d :: A ++ B = c :: (d :: A ++ B) := rfl
      rw [e, fgetsChunks_cons, fgetsChunks_cons n c (d :: A)]
      by_cases hc : c = '\n' ∨ room ≤ 1
      · rw [if_pos hc, if_pos hc, ih [] (n - 1) h]
        rfl
      · rw [if_neg hc, if_neg hc, ih (c :: cur) (room - 1) h]

/-- A file that ends with a newline (or is empty) followed by another file is
read as the lines of the first followed by the lines of the second. -/
theorem readLines_append (A B : List Char) (h : A = [] ∨ A.getLast? = some '\n') :
    readLines (A ++ B) = readLines A ++ readLines B := by
  rcases h with h | h
  · subst h; simp [readLines, fgetsChunks]
  · simp only [readLines, fgetsChunks_append line_sz B A [] (line_sz - 1) h, List.map_append]

/-! ## Extremes, counts and sums (C1 to C4) -/

/-- C1: from an empty table of 50 slots and for a file of valid lines with at most
50 distinct state codes, `analyze_file` returns a table in which every state code
of the file has an occupied slot, and in every occupied slot `max_temp` is the
maximum and `min_temp` the minimum of the Fahrenheit temperatures
`strtod(temperature)*1.8-459.67` of the lines carrying the slot's code: both bound
every such temperature and both are attained. -/
theorem extrema_per_state (file : List Char) (init : List climate_info)
    (hempty : emptyTable init) (hlen : init.length = NUM_STATES)
    (hv : ∀ l ∈ readLines file, validLine l = true)
    (hcount : (readLines file).length < ULONG_RANGE)
    (hroom : (firstOccurrences ((records (readLines file)).map Fields.code)).length
      ≤ NUM_STATES) :
    ∃ t, analyze_file file init NUM_STATES = .ok t
      ∧ (∀ f ∈ records (readLines file), ∃ s ∈ t, s.num_records ≠ 0 ∧ s.code = f.code)
      ∧ ∀ s ∈ t, s.num_records ≠ 0 →
          (∀ f ∈ records (readLines file), f.code = s.code →
            s.min_temp ≤ dtemp f.temperature ∧ dtemp f.temperature ≤ s.max_temp)
          ∧ (∃ f ∈ records (readLines file), f.code = s.code ∧ dtemp f.temperature = s.max_temp)
          ∧ (∃ f ∈ records (readLines file), f.code = s.code
              ∧ dtemp f.temperature = s.min_temp) := by
  have hc : (records (readLines file)).length < ULONG_RANGE := by
    rw [length_records_of_valid _ hv]; exact hcount
  refine ⟨_, analyze_file_valid file init NUM_STATES hempty hlen hv hcount hroom, ?_, ?_⟩
  · intro f hf
    obtain ⟨s, hs, hsc⟩ := exists_occupied_of_mem _ f hf
    have := (mem_tableAfter_occupied init hempty _ hc s).mpr hs
    exact ⟨s, this.1, this.2, hsc⟩
  · intro s hs hs0
    have hocc := (mem_tableAfter_occupied init hempty _ hc s).mp ⟨hs, hs0⟩
    have hagg := aggregate_of_mem_occupied _ s hocc
    obtain ⟨hb, _, _⟩ := aggregate_extrema _ s hagg
    obtain ⟨⟨g, hg, hgm⟩, ⟨g2, hg2, hgm2⟩⟩ := aggregate_attained _ s hagg
    refine ⟨?_, ?_, ?_⟩
    · intro f hf hfc
      exact hb f ((mem_group _ _ _).mpr ⟨hf, hfc⟩)
    · exact ⟨g, ((mem_group _ _ _).mp hg).1, ((mem_group _ _ _).mp hg).2, hgm⟩
    · exact ⟨g2, ((mem_group _ _ _).mp hg2).1, ((mem_group _ _ _).mp hg2).2, hgm2⟩

theorem extrema_per_state_witness :
    ∃ t, analyze_file sampleFile zeroTable NUM_STATES = .ok t
      ∧ (∀ f ∈ records (readLines sampleFile), ∃ s ∈ t, s.num_records ≠ 0 ∧ s.code = f.code)
      ∧ ∀ s ∈ t, s.num_records ≠ 0 →
          (∀ f ∈ records (readLines sampleFile), f.code = s.code →
            s.min_temp ≤ dtemp f.temperature ∧ dtemp f.temperature ≤ s.max_temp)
          ∧ (∃ f ∈ records (readLines sampleFile),
              f.code = s.code ∧ dtemp f.temperature = s.max_temp)
          ∧ (∃ f ∈ records (readLines sampleFile), f.code = s.code
              ∧ dtemp f.temperature = s.min_temp) :=
  extrema_per_state sampleFile zeroTable emptyTable_zeroTable (by decide) (by decide)
    (by decide) (by decide)

/-- C3: for a file of `n ≥ 1` valid lines that all carry the state code `c`, read
into an empty table, `analyze_file` leaves exactly one slot with
`num_records != 0`; its code is `c` and its `num_records` is `n`. -/
theorem single_state_count (file : List Char) (init : List climate_info) (c : List Char)
    (hempty : emptyTable init) (hlen : init.length = NUM_STATES)
    (hv : ∀ l ∈ readLines file, validLine l = true)
    (hcount : (readLines file).length < ULONG_RANGE)
    (hcode : ∀ l ∈ readLines file, codeOf l = some c)
    (hn : 1 ≤ (readLines file).length) :
    ∃ t s, analyze_file file init NUM_STATES = .ok t
      ∧ t.filter (fun x => x.num_records ≠ 0) = [s]
      ∧ s.code = c ∧ s.num_records = (readLines file).length := by
  have hne : readLines file ≠ [] := by
    intro h; rw [h] at hn; simp at hn
  obtain ⟨a, _, hac, hnum, hrun, htab, hocc⟩ :=
    analyzeLines_single (readLines file) init c hempty hlen hv hcount hcode hne
  have hc : (records (readLines file)).length < ULONG_RANGE := by
    rw [length_records_of_valid _ hv]; exact hcount
  have hf := filter_tableAfter init hempty _ hc
  rw [htab, hocc] at hf
  exact ⟨a :: init.drop 1, a, hrun, hf, hac, hnum⟩

theorem single_state_count_witness :
    ∃ t s, analyze_file singleStateFile zeroTable NUM_STATES = .ok t
      ∧ t.filter (fun x => x.num_records ≠ 0) = [s]
      ∧ s.code = ['C', 'A'] ∧ s.num_records = (readLines singleStateFile).length :=
  single_state_count singleStateFile zeroTable ['C', 'A'] emptyTable_zeroTable (by decide)
    (by decide) (by decide) (by decide) (by decide)

/-- C4: for a non-empty file of valid lines of a single state, read into an empty
table, `sum_temperature` is (in exact arithmetic) the sum over the lines of
`Kelvin * 9/5 - 459.67`, and the average temperature that `print_report` computes
for the state, `sum_temperature / num_records`, is that sum divided by the number
of lines: the arithmetic mean of the Fahrenheit temperatures. -/
theorem single_state_mean (file : List Char) (init : List climate_info) (c : List Char)
    (hempty : emptyTable init) (hlen : init.length = NUM_STATES)
    (hv : ∀ l ∈ readLines file, validLine l = true)
    (hcount : (readLines file).length < ULONG_RANGE)
    (hcode : ∀ l ∈ readLines file, codeOf l = some c)
    (hne : readLines file ≠ []) :
    ∃ s rest, analyze_file file init NUM_STATES = .ok (s :: rest) ∧ s.code = c
      ∧ s.sum_temperature
          = ((records (readLines file)).map
              (fun f => strtod f.temperature * (9 / 5) - 45967 / 100)).sum
      ∧ print_report (s :: rest) NUM_STATES = [summarize s]
      ∧ (summarize s).average_temperature
          = ((records (readLines file)).map
              (fun f => strtod f.temperature * (9 / 5) - 45967 / 100)).sum
            / ((readLines file).length : ℚ) := by
  obtain ⟨a, hagg, hac, hnum, hrun, htab, hocc⟩ :=
    analyzeLines_single (readLines file) init c hempty hlen hv hcount hcode hne
  have hc : (records (readLines file)).length < ULONG_RANGE := by
    rw [length_records_of_valid _ hv]; exact hcount
  have hsum := aggregate_sum_temperature _ a hagg
  have hrep := print_report_tableAfter init hempty _ hc NUM_STATES hlen
    (by rw [hocc]; simp [NUM_STATES])
  rw [htab, hocc] at hrep
  refine ⟨a, init.drop 1, hrun, hac, hsum, hrep, ?_⟩
  show a.sum_temperature / (a.num_records : ℚ) = _
  rw [hnum, hsum]
  rfl

theorem single_state_mean_witness :
    ∃ s rest, analyze_file singleStateFile zeroTable NUM_STATES = .ok (s :: rest)
      ∧ s.code = ['C', 'A']
      ∧ s.sum_temperature
          = ((records (readLines singleStateFile)).map
              (fun f => strtod f.temperature * (9 / 5) - 45967 / 100)).sum
      ∧ print_report (s :: rest) NUM_STATES = [summarize s]
      ∧ (summarize s).average_temperature
          = ((records (readLines singleStateFile)).map
              (fun f => strtod f.temperature * (9 / 5) - 45967 / 100)).sum
            / ((readLines singleStateFile).length : ℚ) :=
  single_state_mean singleStateFile zeroTable ['C', 'A'] emptyTable_zeroTable (by decide)
    (by decide) (by decide) (by decide) (by decide)

/-! ## Several sources and report order (C5, C6) -/

theorem group_eq_of_lines (L1 L2 : List (List Char)) (hperm : L1.Perm L2)
    (hdist : ∀ c ∈ (records L2).map Fields.code,
      L1.filter (fun l => codeOf l = some c) = L2.filter (fun l => codeOf l = some c))
    (c : List Char) : group c (records L1) = group c (records L2) := by
  by_cases hc : c ∈ (records L2).map Fields.code
  · rw [group_records, group_records, hdist c hc]
  · have h2 : c ∉ (records L1).map Fields.code := by
      intro h
      apply hc
      obtain ⟨f, hf, hfc⟩ := List.mem_map.mp h
      obtain ⟨l, hl, hlf⟩ := List.mem_filterMap.mp hf
      exact List.mem_map.mpr ⟨f, List.mem_filterMap.mpr ⟨l, hperm.mem_iff.mp hl, hlf⟩, hfc⟩
    rw [group_eq_nil_of_not_mem c _ hc, group_eq_nil_of_not_mem c _ h2]

theorem nodup_occupied (fs : List Fields) : (occupied fs).Nodup :=
  List.Nodup.of_map _ (nodup_code_occupied fs)

/-- C5: let `L` be a file of valid lines with at most 50 distinct state codes, and
let the lines of the files `sources` be a rearrangement of the lines of `L` that
keeps, for each state code, the relative order of the lines of that state. Then
analysing the sources one after another into the same (initially empty) table
and analysing `L` alone both succeed, and for every state code the scan finds the
same accumulator, equal in all members, in both tables; the occupied slots of one
table are a rearrangement of those of the other. In particular, analysing `A` and
then `B` equals analysing `A` followed by `B`, whatever the table: for files when
`A` is empty or ends with a newline, and for sequences of lines in general. -/
theorem split_sources_same_accumulators (L : List Char) (sources : List (List Char))
    (init : List climate_info)
    (hempty : emptyTable init) (hlen : init.length = NUM_STATES)
    (hv : ∀ l ∈ readLines L, validLine l = true)
    (hcount : (readLines L).length < ULONG_RANGE)
    (hroom : (firstOccurrences ((records (readLines L)).map Fields.code)).length ≤ NUM_STATES)
    (hperm : (sources.flatMap readLines).Perm (readLines L))
    (hdist : ∀ c ∈ (records (readLines L)).map Fields.code,
      (sources.flatMap readLines).filter (fun l => codeOf l = some c)
        = (readLines L).filter (fun l => codeOf l = some c)) :
    (∃ t1 t2, analyzeFiles NUM_STATES init sources = .ok t1
      ∧ analyze_file L init NUM_STATES = .ok t2
      ∧ (∀ c, findAccumulator t1 NUM_STATES c = findAccumulator t2 NUM_STATES c)
      ∧ (t1.filter (fun s => s.num_records ≠ 0)).Perm (t2.filter (fun s => s.num_records ≠ 0)))
    ∧ (∀ (A B : List Char) (t : List climate_info) (N : Nat),
        (A = [] ∨ A.getLast? = some '\n') →
        analyzeFiles N t [A, B] = analyze_file (A ++ B) t N)
    ∧ ∀ (linesA linesB : List (List Char)) (t : List climate_info) (N : Nat),
        analyzeLines N t (linesA ++ linesB)
          = match analyzeLines N t linesA with
            | .error e => .error e
            | .ok t1 => analyzeLines N t1 linesB := by
  refine ⟨?_, ?_, fun linesA linesB t N => analyzeLines_append N linesA linesB t⟩
  · have hv1 : ∀ l ∈ sources.flatMap readLines, validLine l = true :=
      fun l hl => hv l (hperm.mem_iff.mp hl)
    have hcount1 : (sources.flatMap readLines).length < ULONG_RANGE := by
      rw [hperm.length_eq]; exact hcount
    have hg := group_eq_of_lines _ _ hperm hdist
    have hrperm : (records (sources.flatMap readLines)).Perm (records (readLines L)) :=
      hperm.filterMap _
    have hroom1 : (firstOccurrences ((records (sources.flatMap readLines)).map
        Fields.code)).length ≤ NUM_STATES := by
      rw [length_firstOccurrences_perm _ _ (hrperm.map _)]; exact hroom
    have hc1 : (records (sources.flatMap readLines)).length < ULONG_RANGE := by
      rw [length_records_of_valid _ hv1]; exact hcount1
    have hc2 : (records (readLines L)).length < ULONG_RANGE := by
      rw [length_records_of_valid _ hv]; exact hcount
    have hrun1 := analyzeLines_tableAfter NUM_STATES init hempty hlen
      (sources.flatMap readLines) [] hv1 (by simpa using hcount1) (by simpa using hroom1)
    rw [tableAfter_nil, List.nil_append, ← analyzeFiles_eq_analyzeLines] at hrun1
    refine ⟨_, _, hrun1, analyze_file_valid L init NUM_STATES hempty hlen hv hcount hroom,
      ?_, ?_⟩
    · intro c
      rw [findAccumulator_tableAfter init hempty _ hc1 NUM_STATES hlen
          (by rw [length_occupied]; exact hroom1),
        findAccumulator_tableAfter init hempty _ hc2 NUM_STATES hlen
          (by rw [length_occupied]; exact hroom), hg c]
    · rw [filter_tableAfter init hempty _ hc1, filter_tableAfter init hempty _ hc2,
        List.perm_ext_iff_of_nodup (nodup_occupied _) (nodup_occupied _)]
      intro s
      rw [mem_occupied_iff, mem_occupied_iff, hg]
  · intro A B t N h
    simp only [analyzeFiles, analyze_file, readLines_append A B h, analyzeLines_append]
    cases analyzeLines N t (readLines A) with
    | error e => rfl
    | ok t1 =>
      simp only
      cases analyzeLines N t1 (readLines B) <;> rfl

theorem split_sources_same_accumulators_witness :
    (∃ t1 t2, analyzeFiles NUM_STATES zeroTable sampleSources = .ok t1
      ∧ analyze_file sampleFile zeroTable NUM_STATES = .ok t2
      ∧ (∀ c, findAccumulator t1 NUM_STATES c = findAccumulator t2 NUM_STATES c)
      ∧ (t1.filter (fun s => s.num_records ≠ 0)).Perm (t2.filter (fun s => s.num_records ≠ 0)))
    ∧ (∀ (A B : List Char) (t : List climate_info) (N : Nat),
        (A = [] ∨ A.getLast? = some '\n') →
        analyzeFiles N t [A, B] = analyze_file (A ++ B) t N)
    ∧ ∀ (linesA linesB : List (List Char)) (t : List climate_info) (N : Nat),
        analyzeLines N t (linesA ++ linesB)
          = match analyzeLines N t linesA with
            | .error e => .error e
            | .ok t1 => analyzeLines N t1 linesB :=
  split_sources_same_accumulators sampleFile sampleSources zeroTable emptyTable_zeroTable
    (by decide) (by decide) (by decide) (by decide) (by decide) (by decide)

/-- C6: from an empty table and for a file of valid lines with at most 50 distinct
state codes, the codes of the slots with `num_records != 0`, in slot order, which
is the order in which `print_report` prints the per-state summaries, are the
distinct state codes of the file, each once, in the order of their first
occurrence. -/
theorem report_in_first_seen_order (file : List Char) (init : List climate_info)
    (hempty : emptyTable init) (hlen : init.length = NUM_STATES)
    (hv : ∀ l ∈ readLines file, validLine l = true)
    (hcount : (readLines file).length < ULONG_RANGE)
    (hroom : (firstOccurrences ((records (readLines file)).map Fields.code)).length
      ≤ NUM_STATES) :
    ∃ t, analyze_file file init NUM_STATES = .ok t
      ∧ (t.filter (fun s => s.num_records ≠ 0)).map climate_info.code
          = firstOccurrences ((records (readLines file)).map Fields.code)
      ∧ (print_report t NUM_STATES).map Summary.code
          = firstOccurrences ((records (readLines file)).map Fields.code) := by
  have hc : (records (readLines file)).length < ULONG_RANGE := by
    rw [length_records_of_valid _ hv]; exact hcount
  refine ⟨_, analyze_file_valid file init NUM_STATES hempty hlen hv hcount hroom, ?_, ?_⟩
  · rw [filter_tableAfter init hempty _ hc, map_code_occupied]
  · rw [print_report_tableAfter init hempty _ hc NUM_STATES hlen
      (by rw [length_occupied]; exact hroom), List.map_map, ← map_code_occupied]
    rfl

theorem report_in_first_seen_order_witness :
    ∃ t, analyze_file sampleFile zeroTable NUM_STATES = .ok t
      ∧ (t.filter (fun s => s.num_records ≠ 0)).map climate_info.code
          = firstOccurrences ((records (readLines sampleFile)).map Fields.code)
      ∧ (print_report t NUM_STATES).map Summary.code
          = firstOccurrences ((records (readLines sampleFile)).map Fields.code) :=
  report_in_first_seen_order sampleFile zeroTable emptyTable_zeroTable (by decide) (by decide)
    (by decide) (by decide)

/-! ## Malformed lines (C7, C8) -/

theorem count_tab_dropWhile_le (p : Char → Bool) (s : List Char) :
    (s.dropWhile p).count '\t' ≤ s.count '\t' :=
  (List.dropWhile_sublist p).count_le _

theorem count_tab_split (s : List Char) :
    s.count '\t' = (s.dropWhile (fun c => c ≠ '\t')).count '\t' := by
  induction s with
  | nil => rfl
  | cons c s ih =>
    by_cases hc : c = '\t'
    · subst hc; simp [List.dropWhile]
    · have h1 : ('\t' == c) = false := by
        simp only [beq_eq_false_iff_ne, ne_eq]; exact fun h => hc h.symm
      simp [List.dropWhile, hc, List.count_cons, h1, ih]

/-- Between two successful `strtok` calls at least one tab is consumed. -/
theorem strtok_tabs (s tok r : List Char) (h : strtok s = some (tok, r)) (hr : r ≠ []) :
    r.count '\t' + 1 ≤ s.count '\t' := by
  unfold strtok at h
  simp only at h
  split at h
  · simp at h
  · simp only [Option.some.injEq, Prod.mk.injEq] at h
    obtain ⟨_, h2⟩ := h
    have h3 := count_tab_dropWhile_le (fun c => c = '\t') s
    have h4 := count_tab_split (s.dropWhile (fun c => c = '\t'))
    cases hd : (s.dropWhile (fun c => c = '\t')).dropWhile (fun c => c ≠ '\t') with
    | nil => rw [hd] at h2; exact absurd h2.symm hr
    | cons x rest =>
      rw [hd] at h2 h4
      simp only [List.tail_cons] at h2
      subst h2
      have hx : x = '\t' := by
        have := List.head_dropWhile_not (fun c => decide (c ≠ '\t'))
          (s.dropWhile (fun c => c = '\t')) (by simp only [hd]; simp)
        simp only [hd, List.head_cons] at this
        simpa using this
      subst hx
      simp only [List.count_cons_self] at h4
      omega

theorem strtok_some_ne_nil (r : List Char) (x : List Char × List Char)
    (h : strtok r = some x) : r ≠ [] := by
  intro hr
  subst hr
  simp [strtok] at h

/-- Nine tokens need at least eight tabs. -/
theorem tokenize_some_tabs (line : List Char) (f : Fields) (h : tokenize line = some f) :
    8 ≤ line.count '\t' := by
  simp only [tokenize, Option.bind_eq_bind, Option.bind_eq_some, Option.pure_def,
    Option.some.injEq] at h
  obtain ⟨⟨t1, r1⟩, h1, ⟨t2, r2⟩, h2, ⟨t3, r3⟩, h3, ⟨t4, r4⟩, h4, ⟨t5, r5⟩, h5,
    ⟨t6, r6⟩, h6, ⟨t7, r7⟩, h7, ⟨t8, r8⟩, h8, ⟨t9, r9⟩, h9, _⟩ := h
  have k1 := strtok_tabs _ _ _ h1 (strtok_some_ne_nil _ _ h2)
  have k2 := strtok_tabs _ _ _ h2 (strtok_some_ne_nil _ _ h3)
  have k3 := strtok_tabs _ _ _ h3 (strtok_some_ne_nil _ _ h4)
  have k4 := strtok_tabs _ _ _ h4 (strtok_some_ne_nil _ _ h5)
  have k5 := strtok_tabs _ _ _ h5 (strtok_some_ne_nil _ _ h6)
  have k6 := strtok_tabs _ _ _ h6 (strtok_some_ne_nil _ _ h7)
  have k7 := strtok_tabs _ _ _ h7 (strtok_some_ne_nil _ _ h8)
  have k8 := strtok_tabs _ _ _ h8 (strtok_some_ne_nil _ _ h9)
  dsimp only at k2 k3 k4 k5 k6 k7 k8
  omega

theorem tokenize_none_of_few_tabs (line : List Char) (h : line.count '\t' < 8) :
    tokenize line = none := by
  cases ht : tokenize line with
  | none => rfl
  | some f => have := tokenize_some_tabs line f ht; omega

/-- C7 (as the code behaves): a line with fewer than nine tab-separated fields,
that is with fewer than eight tabs, is not rejected. When the loop of
`analyze_file` reaches such a line, the ninth `strtok` call returns NULL, `strtod`
is called on it, and the run ends in that fault: no table is returned and the
remaining lines of the source are not processed. -/
theorem short_line_faults (N : Nat) (states t : List climate_info) (file : List Char)
    (pre : List (List Char)) (line : List Char) (rest : List (List Char))
    (hfile : readLines file = pre ++ line :: rest)
    (hpre : analyzeLines N states pre = .ok t)
    (h : line.count '\t' < 8) :
    processLine N t line = .error Fault.nullPointer
      ∧ analyze_file file states N = .error Fault.nullPointer := by
  have hp : processLine N t line = .error Fault.nullPointer := by
    simp [processLine, tokenize_none_of_few_tabs line h]
  refine ⟨hp, ?_⟩
  rw [analyze_file, hfile, analyzeLines_append, hpre]
  simp [analyzeLines, hp]

theorem short_line_faults_witness :
    processLine NUM_STATES zeroTable (String.toList "TN\t1428300000000\tdn6nb3vwjyxb\t93.0\n")
        = .error Fault.nullPointer
      ∧ analyze_file shortLineFile zeroTable NUM_STATES = .error Fault.nullPointer :=
  short_line_faults NUM_STATES zeroTable zeroTable shortLineFile []
    (String.toList "TN\t1428300000000\tdn6nb3vwjyxb\t93.0\n")
    [String.toList
      "WA\t1428170400000\tc23nb3vwjyxb\t73.0\t0.0\t22.0\t0.0\t102074.0\t285.10425\n"]
    (by decide) rfl (by decide)

/-- What the scan returns: the index lies between the start and the bound; with
`already_exist = 1` the slot is occupied by the code, with `already_exist = 0` the
slot is empty or the scan ran to the bound. -/
theorem findSlot_spec (states : List climate_info) (c : List Char) :
    ∀ (n i j : Nat) (b : Bool), findSlot states c n i = .ok (j, b) →
      i ≤ j ∧ j ≤ i + n
      ∧ (b = true → ∃ s, states[j]? = some s ∧ s.num_records ≠ 0 ∧ s.code = c)
      ∧ (b = false → j = i + n ∨ ∃ e, states[j]? = some e ∧ e.num_records = 0) := by
  intro n
  induction n with
  | zero =>
    intro i j b h
    simp only [findSlot, Except.ok.injEq, Prod.mk.injEq] at h
    obtain ⟨rfl, rfl⟩ := h
    simp
  | succ n ih =>
    intro i j b h
    rw [findSlot] at h
    cases hs : states[i]? with
    | none => rw [hs] at h; simp at h
    | some s =>
      rw [hs] at h
      simp only at h
      by_cases h0 : s.num_records = 0
      · rw [if_pos h0] at h
        simp only [Except.ok.injEq, Prod.mk.injEq] at h
        obtain ⟨rfl, rfl⟩ := h
        exact ⟨le_refl _, by omega, by simp, fun _ => Or.inr ⟨s, hs, h0⟩⟩
      · rw [if_neg h0] at h
        by_cases hc : s.code = c
        · rw [if_pos hc] at h
          simp only [Except.ok.injEq, Prod.mk.injEq] at h
          obtain ⟨rfl, rfl⟩ := h
          exact ⟨le_refl _, by omega, fun _ => ⟨s, hs, h0, hc⟩, by simp⟩
        · rw [if_neg hc] at h
          obtain ⟨h1, h2, h3, h4⟩ := ih (i + 1) j b h
          refine ⟨by omega, by omega, h3, ?_⟩
          intro hb
          rcases h4 hb with h5 | h5
          · exact Or.inl (by omega)
          · exact Or.inr h5

theorem create_num_records (f : Fields) (a : climate_info) (h : create f = .ok a) :
    a.num_records = 1 := by
  simp only [create, strcpy, bind, Except.bind, pure, Except.pure] at h
  split at h
  · simp at h
  · split at h
    · simp at h
    · split at h
      · simp at h
      · simp only [Except.ok.injEq] at h
        rw [← h]

theorem update_num_records (cur : climate_info) (f : Fields) (a : climate_info)
    (h : update cur f = .ok a) : a.num_records = (cur.num_records + 1) % ULONG_RANGE := by
  by_cases ht : f.time.length < 15
  · rw [update_eq_absorb cur f ht] at h
    simp only [Except.ok.injEq] at h
    rw [← h]; rfl
  · have h15 : 15 ≤ f.time.length := by omega
    simp only [update, strcpy, h15, if_true, bind, Except.bind, pure, Except.pure] at h
    by_cases h1 : cur.max_temp < dtemp f.temperature
    · simp [h1] at h
    · by_cases h2 : dtemp f.temperature < cur.min_temp
      · simp [h1, h2] at h
      · simp only [h1, h2, if_false, Except.ok.injEq] at h
        rw [← h]

/-- A line with nine tokens is never skipped: when it is processed without fault
the table changes, because an accumulator is created or its count advances. -/
theorem processLine_changes (N : Nat) (states : List climate_info) (hN : states.length = N)
    (line : List Char) (f : Fields) (htok : tokenize line = some f) :
    processLine N states line ≠ .ok states := by
  intro h
  simp only [processLine, htok, bind, Except.bind] at h
  cases hfs : findSlot states f.code N 0 with
  | error e => rw [hfs] at h; simp at h
  | ok r =>
    obtain ⟨j, b⟩ := r
    rw [hfs] at h
    obtain ⟨_, hj, hfound, hnew⟩ := findSlot_spec states f.code N 0 j b hfs
    simp only at h
    cases hget : states[j]? with
    | none => rw [hget] at h; simp at h
    | some cur =>
      rw [hget] at h
      simp only at h
      have hjlt : j < states.length := by
        rcases Nat.lt_or_ge j states.length with hlt | hge
        · exact hlt
        · rw [List.getElem?_eq_none_iff.mpr hge] at hget; simp at hget
      cases b with
      | true =>
        obtain ⟨s, hs, hs0, _⟩ := hfound rfl
        rw [hget] at hs
        simp only [Option.some.injEq] at hs
        subst hs
        simp only [if_true] at h
        cases hu : update cur f with
        | error e => rw [hu] at h; simp at h
        | ok a =>
          rw [hu] at h
          simp only [pure, Except.pure, Except.ok.injEq] at h
          have h2 : (states.set j a)[j]? = some a := by
            rw [List.getElem?_set_self hjlt]
          rw [h, hget] at h2
          simp only [Option.some.injEq] at h2
          have h3 := update_num_records cur f a hu
          rw [← h2] at h3
          have h4 : cur.num_records % ULONG_RANGE = cur.num_records := by
            rw [h3]; exact Nat.mod_mod _ _
          have h5 : cur.num_records < ULONG_RANGE := by
            rw [← h4]; exact Nat.mod_lt _ (by simp [ULONG_RANGE])
          simp only [ULONG_RANGE] at h3 h5
          omega
      | false =>
        simp only [Bool.false_eq_true, if_false] at h
        cases hc : create f with
        | error e => rw [hc] at h; simp at h
        | ok a =>
          rw [hc] at h
          simp only [pure, Except.pure, Except.ok.injEq] at h
          have h2 : (states.set j a)[j]? = some a := by
            rw [List.getElem?_set_self hjlt]
          rw [h, hget] at h2
          simp only [Option.some.injEq] at h2
          have h3 := create_num_records f a hc
          rcases hnew rfl with h4 | ⟨e, he, he0⟩
          · omega
          · rw [hget] at he
            simp only [Option.some.injEq] at he
            rw [← he, h2] at he0
            omega

/-- The loop body depends on the tokens only through the code, the timestamp and
the values of the six conversions. -/
theorem processLine_congr (N : Nat) (states : List climate_info) (l1 l2 : List Char)
    (f g : Fields) (h1 : tokenize l1 = some f) (h2 : tokenize l2 = some g)
    (hcode : g.code = f.code) (htime : g.time = f.time)
    (hhum : strtold g.humidity = strtold f.humidity)
    (hsnow : strtoul g.snow = strtoul f.snow)
    (hcloud : strtold g.cloud = strtold f.cloud)
    (hlight : strtoul g.lightning = strtoul f.lightning)
    (hpres : strtoul g.pressure = strtoul f.pressure)
    (htemp : strtod g.temperature = strtod f.temperature) :
    processLine N states l1 = processLine N states l2 := by
  have hd : dtemp g.temperature = dtemp f.temperature := by simp [dtemp, htemp]
  have hcr : create g = create f := by
    simp only [create, hcode, htime, hhum, hsnow, hcloud, hlight, hpres, hd]
  have hup : ∀ cur, update cur g = update cur f := by
    intro cur
    simp only [update, htime, hhum, hsnow, hcloud, hlight, hpres, hd]
  simp only [processLine, h1, h2, hcode, hcr, hup]

/-- Which texts begin with a number for `strtod`: `n/a`, `null`, `N/A`, `none`,
`abc`, `-` and the empty text do not; `12abc` and `4.0F` begin with the numbers 12
and 4.0, which is what the conversion returns; `nan` and `inf` are spellings that
the conversion accepts. -/
theorem noConversion_examples :
    [String.toList "n/a", String.toList "null", String.toList "N/A", String.toList "none",
        String.toList "abc", String.toList "-", []].all noConversion = true
      ∧ [String.toList "12abc", String.toList "4.0F", String.toList "nan", String.toList "inf",
          String.toList "-Infinity", String.toList " NaN"].all (fun t => !noConversion t) = true
      ∧ strtod (String.toList "12abc") = 12 ∧ strtod (String.toList "4.0F") = 4 := by
  decide!

/-- C9 fails as stated: the table has a fixed capacity. The file
`fiftyOneCodesFile` consists of valid lines with 51 distinct state codes; read
into the empty table of `main`, the 51st code finds all 50 slots occupied, the
scan leaves `i = 50`, and the run ends in an access past the array instead of
with 51 accumulators. -/
theorem fifty_one_codes_fault :
    (∀ l ∈ readLines fiftyOneCodesFile, validLine l = true)
      ∧ (firstOccurrences ((records (readLines fiftyOneCodesFile)).map Fields.code)).length = 51
      ∧ analyze_file fiftyOneCodesFile zeroTable NUM_STATES = .error Fault.outOfBounds := by
  decide!

/-- C9 (amended): from an empty table and for a file of valid lines with `k ≤ 50`
distinct state codes, `analyze_file` ends with exactly `k` accumulators, one per
distinct code, and each aggregates exactly the lines of its code: it is the
accumulator obtained by analysing only those lines. -/
theorem accumulators_up_to_capacity (file : List Char) (init : List climate_info)
    (hempty : emptyTable init) (hlen : init.length = NUM_STATES)
    (hv : ∀ l ∈ readLines file, validLine l = true)
    (hcount : (readLines file).length < ULONG_RANGE)
    (hroom : (firstOccurrences ((records (readLines file)).map Fields.code)).length
      ≤ NUM_STATES) :
    ∃ t, analyze_file file init NUM_STATES = .ok t
      ∧ (t.filter (fun s => s.num_records ≠ 0)).length
          = (firstOccurrences ((records (readLines file)).map Fields.code)).length
      ∧ (t.filter (fun s => s.num_records ≠ 0)).map climate_info.code
          = firstOccurrences ((records (readLines file)).map Fields.code)
      ∧ ∀ s ∈ t, s.num_records ≠ 0 →
          analyzeLines NUM_STATES init
              ((readLines file).filter (fun l => codeOf l = some s.code))
            = .ok (s :: init.drop 1) := by
  have hc : (records (readLines file)).length < ULONG_RANGE := by
    rw [length_records_of_valid _ hv]; exact hcount
  refine ⟨_, analyze_file_valid file init NUM_STATES hempty hlen hv hcount hroom, ?_, ?_, ?_⟩
  · rw [filter_tableAfter init hempty _ hc, length_occupied]
  · rw [filter_tableAfter init hempty _ hc, map_code_occupied]
  · intro s hs hs0
    have hocc := (mem_tableAfter_occupied init hempty _ hc s).mp ⟨hs, hs0⟩
    have hagg := aggregate_of_mem_occupied _ s hocc
    have hgne := (aggregate_num_records _ _ hagg).2
    rw [group_records] at hagg hgne
    have hne : (readLines file).filter (fun l => codeOf l = some s.code) ≠ [] := by
      intro h
      rw [h] at hgne
      exact hgne rfl
    obtain ⟨a, ha, _, _, hrun, _, _⟩ := analyzeLines_single
      ((readLines file).filter (fun l => codeOf l = some s.code)) init s.code hempty hlen
      (fun l hl => hv l (List.mem_of_mem_filter hl))
      (lt_of_le_of_lt (List.length_filter_le _ _) hcount)
      (fun l hl => by simpa using (List.mem_filter.mp hl).2) hne
    rw [hagg] at ha
    simp only [Option.some.injEq] at ha
    subst ha
    exact hrun

theorem accumulators_up_to_capacity_witness :
    ∃ t, analyze_file sampleFile zeroTable NUM_STATES = .ok t
      ∧ (t.filter (fun s => s.num_records ≠ 0)).length
          = (firstOccurrences ((records (readLines sampleFile)).map Fields.code)).length
      ∧ (t.filter (fun s => s.num_records ≠ 0)).map climate_info.code
          = firstOccurrences ((records (readLines sampleFile)).map Fields.code)
      ∧ ∀ s ∈ t, s.num_records ≠ 0 →
          analyzeLines NUM_STATES zeroTable
              ((readLines sampleFile).filter (fun l => codeOf l = some s.code))
            = .ok (s :: zeroTable.drop 1) :=
  accumulators_up_to_capacity sampleFile zeroTable emptyTable_zeroTable (by decide) (by decide)
    (by decide) (by decide)

/-! ## The worked example (C10) -/

theorem validLine_of_fields (l : List Char) (f : Fields) (h : tokenize l = some f)
    (hw : f.wellFormed = true) : validLine l = true := by
  simp [validLine, h, hw]

/-- C10 fails as stated: in the worked example the accumulator of `WA` holds
`280.0 * 1.8 - 459.67`, which is 44.33 in exact arithmetic and the `double`
44.329999999999984 in the arithmetic of `doubleOps`; neither is within 0.05 of
44.6. -/
theorem worked_example_WA_temperature :
    analyze_file workedExampleFile zeroTable NUM_STATES
        = .ok (workedExampleTN :: workedExampleWA :: zeroTable.drop 2)
      ∧ workedExampleWA.max_temp = 4433 / 100
      ∧ ¬ (|workedExampleWA.max_temp - 446 / 10| ≤ 1 / 20)
      ∧ ((analyze_fileWith doubleOps workedExampleFile zeroTable NUM_STATES).toOption.bind
          (fun t => t[1]?)).map (fun s => (s.code, s.max_temp))
            = some (['W', 'A'], 779861607348961 / 17592186044416)
      ∧ ¬ (|(779861607348961 / 17592186044416 : ℚ) - 446 / 10| ≤ 1 / 20) := by
  refine ⟨by decide!, rfl, ?_, by decide!, ?_⟩
  · simp only [workedExampleWA]
    norm_num [abs_le]
  · norm_num [abs_le]

/-! ## Sums and counters (C11, C12) -/

theorem strtoul_lt (tok : List Char) : strtoul tok < ULONG_RANGE := by
  unfold strtoul
  simp only
  split
  · simp [ULONG_RANGE]
  · split
    · exact Nat.mod_lt _ (by simp [ULONG_RANGE])
    · omega

/-- The sums of an accumulator are the sums of the converted fields of its
records; the two counters are the sums of the flags modulo `2^64`. -/
theorem aggregate_sums (l : List Fields) (a : climate_info) (h : aggregate l = some a) :
    a.sum_humidity = (l.map (fun f => strtold f.humidity)).sum
    ∧ a.sum_cloudcover = (l.map (fun f => strtold f.cloud)).sum
    ∧ a.sum_pressure = (l.map (fun f => (strtoul f.pressure : ℚ))).sum
    ∧ a.snow = (l.map (fun f => strtoul f.snow)).sum % ULONG_RANGE
    ∧ a.lightning = (l.map (fun f => strtoul f.lightning)).sum % ULONG_RANGE := by
  revert a
  refine aggregate_induction (fun l a =>
    a.sum_humidity = (l.map (fun f => strtold f.humidity)).sum
    ∧ a.sum_cloudcover = (l.map (fun f => strtold f.cloud)).sum
    ∧ a.sum_pressure = (l.map (fun f => (strtoul f.pressure : ℚ))).sum
    ∧ a.snow = (l.map (fun f => strtoul f.snow)).sum % ULONG_RANGE
    ∧ a.lightning = (l.map (fun f => strtoul f.lightning)).sum % ULONG_RANGE) ?_ ?_ l
  · intro f
    refine ⟨by simp [seed], by simp [seed], by simp [seed], ?_, ?_⟩
    · simp [seed, Nat.mod_eq_of_lt (strtoul_lt f.snow)]
    · simp [seed, Nat.mod_eq_of_lt (strtoul_lt f.lightning)]
  · intro l a f _ ih
    obtain ⟨h1, h2, h3, h4, h5⟩ := ih
    refine ⟨by simp [absorb, h1], by simp [absorb, h2], by simp [absorb, h3], ?_, ?_⟩
    · simp [absorb, h4]
    · simp [absorb, h5]

theorem sum_le_length_of_le_one (l : List Nat) (h : ∀ x ∈ l, x ≤ 1) : l.sum ≤ l.length := by
  induction l with
  | nil => simp
  | cons x l ih =>
    have hx := h x (List.mem_cons_self _ _)
    have := ih (fun y hy => h y (List.mem_cons_of_mem _ hy))
    simp only [List.sum_cons, List.length_cons]
    omega

theorem wellFormed_flags (f : Fields) (h : f.wellFormed = true) :
    strtoul f.snow ≤ 1 ∧ strtoul f.lightning ≤ 1 := by
  simp only [Fields.wellFormed, flagField, Bool.and_eq_true, decide_eq_true_eq] at h
  exact ⟨h.1.1.1.1.2.2, h.1.1.2.2⟩

theorem wellFormed_of_mem_records (lines : List (List Char))
    (hv : ∀ l ∈ lines, validLine l = true) : ∀ f ∈ records lines, f.wellFormed = true := by
  intro f hf
  obtain ⟨l, hl, hlf⟩ := List.mem_filterMap.mp hf
  obtain ⟨g, hg, hw⟩ := validLine_fields l (hv l hl)
  rw [hlf] at hg
  simp only [Option.some.injEq] at hg
  rw [hg]; exact hw

/-- C11: from an empty table and for a file of valid lines with at most 50 distinct
state codes, every state code of the file has an occupied slot, and in every
occupied slot `sum_humidity` and `sum_cloudcover` are the exact sums of the
humidity and cloud fields of the lines carrying the slot's code, and `snow` and
`lightning` are the sums of the snow and lightning flags of those lines, each flag
being 0 or 1. -/
theorem sums_and_counters_per_state (file : List Char) (init : List climate_info)
    (hempty : emptyTable init) (hlen : init.length = NUM_STATES)
    (hv : ∀ l ∈ readLines file, validLine l = true)
    (hcount : (readLines file).length < ULONG_RANGE)
    (hroom : (firstOccurrences ((records (readLines file)).map Fields.code)).length
      ≤ NUM_STATES) :
    ∃ t, analyze_file file init NUM_STATES = .ok t
      ∧ (∀ f ∈ records (readLines file), ∃ s ∈ t, s.num_records ≠ 0 ∧ s.code = f.code)
      ∧ (∀ f ∈ records (readLines file), strtoul f.snow ≤ 1 ∧ strtoul f.lightning ≤ 1)
      ∧ ∀ s ∈ t, s.num_records ≠ 0 →
          s.sum_humidity
            = ((group s.code (records (readLines file))).map
                (fun f => strtold f.humidity)).sum
          ∧ s.sum_cloudcover
            = ((group s.code (records (readLines file))).map (fun f => strtold f.cloud)).sum
          ∧ s.snow
            = ((group s.code (records (readLines file))).map (fun f => strtoul f.snow)).sum
          ∧ s.lightning
            = ((group s.code (records (readLines file))).map
                (fun f => strtoul f.lightning)).sum := by
  have hc : (records (readLines file)).length < ULONG_RANGE := by
    rw [length_records_of_valid _ hv]; exact hcount
  have hwf := wellFormed_of_mem_records _ hv
  refine ⟨_, analyze_file_valid file init NUM_STATES hempty hlen hv hcount hroom, ?_,
    fun f hf => wellFormed_flags f (hwf f hf), ?_⟩
  · intro f hf
    obtain ⟨s, hs, hsc⟩ := exists_occupied_of_mem _ f hf
    have := (mem_tableAfter_occupied init hempty _ hc s).mpr hs
    exact ⟨s, this.1, this.2, hsc⟩
  · intro s hs hs0
    have hocc := (mem_tableAfter_occupied init hempty _ hc s).mp ⟨hs, hs0⟩
    obtain ⟨h1, h2, _, h4, h5⟩ := aggregate_sums _ s (aggregate_of_mem_occupied _ s hocc)
    have hgl := length_group_le s.code (records (readLines file))
    have hsnow : ((group s.code (records (readLines file))).map
        (fun f => strtoul f.snow)).sum ≤ (group s.code (records (readLines file))).length := by
      have := sum_le_length_of_le_one
        ((group s.code (records (readLines file))).map (fun f => strtoul f.snow)) (by
          intro x hx
          obtain ⟨f, hf, rfl⟩ := List.mem_map.mp hx
          exact (wellFormed_flags f (hwf f ((mem_group _ _ _).mp hf).1)).1)
      simpa using this
    have hlight : ((group s.code (records (readLines file))).map
        (fun f => strtoul f.lightning)).sum
          ≤ (group s.code (records (readLines file))).length := by
      have := sum_le_length_of_le_one
        ((group s.code (records (readLines file))).map (fun f => strtoul f.lightning)) (by
          intro x hx
          obtain ⟨f, hf, rfl⟩ := List.mem_map.mp hx
          exact (wellFormed_flags f (hwf f ((mem_group _ _ _).mp hf).1)).2)
      simpa using this
    rw [Nat.mod_eq_of_lt (by omega)] at h4 h5
    exact ⟨h1, h2, h4, h5⟩

theorem sums_and_counters_per_state_witness :
    ∃ t, analyze_file sampleFile zeroTable NUM_STATES = .ok t
      ∧ (∀ f ∈ records (readLines sampleFile), ∃ s ∈ t, s.num_records ≠ 0 ∧ s.code = f.code)
      ∧ (∀ f ∈ records (readLines sampleFile), strtoul f.snow ≤ 1 ∧ strtoul f.lightning ≤ 1)
      ∧ ∀ s ∈ t, s.num_records ≠ 0 →
          s.sum_humidity
            = ((group s.code (records (readLines sampleFile))).map
                (fun f => strtold f.humidity)).sum
          ∧ s.sum_cloudcover
            = ((group s.code (records (readLines sampleFile))).map
                (fun f => strtold f.cloud)).sum
          ∧ s.snow
            = ((group s.code (records (readLines sampleFile))).map
                (fun f => strtoul f.snow)).sum
          ∧ s.lightning
            = ((group s.code (records (readLines sampleFile))).map
                (fun f => strtoul f.lightning)).sum :=
  sums_and_counters_per_state sampleFile zeroTable emptyTable_zeroTable (by decide) (by decide)
    (by decide) (by decide)

/-- C12 (as the code behaves): pressure is converted with `strtoul`, which stops at
the radix point. The two valid lines of `fractionalPressureFile` carry the
pressures 101325.7 and 99000.5, of exact sum 200326.2, but `sum_pressure` after
`analyze_file` is 101325 + 99000 = 200325. -/
theorem fractional_pressure_truncated :
    (∀ l ∈ readLines fractionalPressureFile, validLine l = true)
      ∧ (records (readLines fractionalPressureFile)).map (fun f => strtold f.pressure)
          = [1013257 / 10, 990005 / 10]
      ∧ analyze_file fractionalPressureFile zeroTable NUM_STATES
          = .ok (fractionalPressureSlot :: zeroTable.tail)
      ∧ fractionalPressureSlot.sum_pressure = 200325
      ∧ fractionalPressureSlot.sum_pressure ≠ 1013257 / 10 + 990005 / 10 := by
  decide!

/-! ## Long lines (C13) -/

/-- When the buffer fills before a newline is met, `fgets` returns the characters
that fit and the next call continues after them. -/
theorem fgetsChunks_full (n : Nat) (b : List Char) :
    ∀ (a cur : List Char) (room : Nat), a.length = room → 0 < room →
      (∀ c ∈ a, c ≠ '\n') →
      fgetsChunks n (a ++ b) cur room = (cur.reverse ++ a) :: fgetsChunks n b [] (n - 1) := by
  intro a
  induction a with
  | nil => intro cur room h1 h2; simp at h1; omega
  | cons c a ih =>
    intro cur room h1 h2 h3
    have hc : c ≠ '\n' := h3 c (List.mem_cons_self _ _)
    rw [List.cons_append, fgetsChunks_cons]
    simp only [List.length_cons] at h1
    by_cases ha : a = []
    · subst ha
      simp only [List.length_nil] at h1
      have : c = '\n' ∨ room ≤ 1 := Or.inr (by omega)
      rw [if_pos this]
      simp
    · have hpos : 0 < a.length := List.length_pos.mpr ha
      have : ¬ (c = '\n' ∨ room ≤ 1) := by
        intro h
        rcases h with h | h
        · exact hc h
        · omega
      rw [if_neg this, ih (c :: cur) (room - 1) (by omega) (by omega)
        (fun x hx => h3 x (List.mem_cons_of_mem _ hx))]
      simp

/-- The first 99 characters of a longer line are read as a line of their own. -/
theorem readLines_long (file : List Char) (hlong : 99 < file.length)
    (hnl : ∀ c ∈ file.take 99, c ≠ '\n') :
    readLines file = cstr (file.take 99) :: readLines (file.drop 99) := by
  have h := fgetsChunks_full line_sz (file.drop 99) (file.take 99) [] (line_sz - 1)
    (by simp [line_sz]; omega) (by simp [line_sz]) hnl
  rw [List.take_append_drop] at h
  simp only [readLines, h, List.reverse_nil, List.nil_append, List.map_cons]

/-- C13 (amended): a line longer than 99 characters before its newline is not
treated as a parse failure. `fgets` with the 100-byte buffer delivers its first 99
characters as a line of their own and continues after them, so `analyze_file`
processes the line in pieces of at most 99 characters, each tokenized as a
separate line. -/
theorem long_line_read_in_pieces (pre file : List Char) (t : List climate_info) (N : Nat)
    (hpre : pre = [] ∨ pre.getLast? = some '\n')
    (hlong : 99 < file.length) (hnl : ∀ c ∈ file.take 99, c ≠ '\n') :
    readLines (pre ++ file)
        = readLines pre ++ cstr (file.take 99) :: readLines (file.drop 99)
      ∧ analyze_file (pre ++ file) t N
        = match analyzeLines N t (readLines pre) with
          | .error e => .error e
          | .ok t1 =>
            match processLine N t1 (cstr (file.take 99)) with
            | .error e => .error e
            | .ok t2 => analyze_file (file.drop 99) t2 N := by
  have h1 : readLines (pre ++ file)
      = readLines pre ++ cstr (file.take 99) :: readLines (file.drop 99) := by
    rw [readLines_append pre file hpre, readLines_long file hlong hnl]
  refine ⟨h1, ?_⟩
  rw [analyze_file, h1, analyzeLines_append]
  cases analyzeLines N t (readLines pre) with
  | error e => rfl
  | ok t1 => rfl

theorem long_line_read_in_pieces_witness :
    readLines ([] ++ longLineFile)
        = readLines [] ++ cstr (longLineFile.take 99) :: readLines (longLineFile.drop 99)
      ∧ analyze_file ([] ++ longLineFile) zeroTable NUM_STATES
        = match analyzeLines NUM_STATES zeroTable (readLines []) with
          | .error e => .error e
          | .ok t1 =>
            match processLine NUM_STATES t1 (cstr (longLineFile.take 99)) with
            | .error e => .error e
            | .ok t2 => analyze_file (longLineFile.drop 99) t2 NUM_STATES :=
  long_line_read_in_pieces [] longLineFile zeroTable NUM_STATES (Or.inl rfl) (by decide!)
    (by decide!)

/-- C13 fails as stated: `longLineFile` is a single line of 186 characters. It is
cut after 99 characters and both pieces are tokenized as records, which creates
two accumulators, whereas the source without that line (the empty source) leaves
the table empty. -/
theorem long_line_cut_into_records :
    (longLineFile.takeWhile (fun c => c ≠ '\n')).length = 186
      ∧ (readLines longLineFile).map List.length = [99, 88]
      ∧ analyze_file longLineFile zeroTable NUM_STATES
          = .ok (longLineSlot1 :: longLineSlot2 :: zeroTable.drop 2)
      ∧ analyze_file [] zeroTable NUM_STATES = .ok zeroTable
      ∧ analyze_file longLineFile zeroTable NUM_STATES
          ≠ analyze_file [] zeroTable NUM_STATES := by
  decide!

/-! ## Empty sources and the geolocation field (C14, C15) -/

theorem dropWhile_tab_token (tok rest : List Char) (hne : tok ≠ []) (hnt : '\t' ∉ tok) :
    (tok ++ rest).dropWhile (fun c => c = '\t') = tok ++ rest := by
  cases tok with
  | nil => exact absurd rfl hne
  | cons c tok =>
    have hc : c ≠ '\t' := fun h => hnt (by simp [h])
    simp [List.dropWhile, hc]

theorem takeWhile_token (tok rest : List Char) (hnt : '\t' ∉ tok) :
    (tok ++ '\t' :: rest).takeWhile (fun c => c ≠ '\t') = tok := by
  induction tok with
  | nil => simp [List.takeWhile]
  | cons c tok ih =>
    have hc : c ≠ '\t' := fun h => hnt (by simp [h])
    have ht : '\t' ∉ tok := fun h => hnt (List.mem_cons_of_mem _ h)
    have := ih ht
    simpa [List.takeWhile, hc] using this

theorem dropWhile_token (tok rest : List Char) (hnt : '\t' ∉ tok) :
    (tok ++ '\t' :: rest).dropWhile (fun c => c ≠ '\t') = '\t' :: rest := by
  induction tok with
  | nil => simp [List.dropWhile]
  | cons c tok ih =>
    have hc : c ≠ '\t' := fun h => hnt (by simp [h])
    have ht : '\t' ∉ tok := fun h => hnt (List.mem_cons_of_mem _ h)
    have := ih ht
    simpa [List.dropWhile, hc] using this

/-- On a non-empty field followed by a tab, `strtok` returns the field and
continues after the tab. -/
theorem strtok_token (tok rest : List Char) (hne : tok ≠ []) (hnt : '\t' ∉ tok) :
    strtok (tok ++ '\t' :: rest) = some (tok, rest) := by
  have h0 : tok ++ '\t' :: rest ≠ [] := by simp
  simp only [strtok, dropWhile_tab_token tok _ hne hnt, takeWhile_token tok rest hnt,
    dropWhile_token tok rest hnt, h0, if_false, List.tail_cons]

/-- Changing the third field changes only the `location` token. -/
theorem tokenize_location (code time g1 g2 rest : List Char)
    (hc : code ≠ []) (hct : '\t' ∉ code) (ht : time ≠ []) (htt : '\t' ∉ time)
    (hg1 : g1 ≠ []) (hg1t : '\t' ∉ g1) (hg2 : g2 ≠ []) (hg2t : '\t' ∉ g2) :
    tokenize (code ++ '\t' :: (time ++ '\t' :: (g2 ++ '\t' :: rest)))
      = (tokenize (code ++ '\t' :: (time ++ '\t' :: (g1 ++ '\t' :: rest)))).map
          (fun f => { f with location := g2 }) := by
  simp only [tokenize, strtok_token code _ hc hct, strtok_token time _ ht htt,
    strtok_token g1 _ hg1 hg1t, strtok_token g2 _ hg2 hg2t, Option.bind_eq_bind,
    Option.some_bind, Option.pure_def]
  cases strtok rest with
  | none => rfl
  | some p4 =>
    obtain ⟨t4, r4⟩ := p4
    simp only [Option.some_bind]
    cases strtok r4 with
    | none => rfl
    | some p5 =>
      obtain ⟨t5, r5⟩ := p5
      simp only [Option.some_bind]
      cases strtok r5 with
      | none => rfl
      | some p6 =>
        obtain ⟨t6, r6⟩ := p6
        simp only [Option.some_bind]
        cases strtok r6 with
        | none => rfl
        | some p7 =>
          obtain ⟨t7, r7⟩ := p7
          simp only [Option.some_bind]
          cases strtok r7 with
          | none => rfl
          | some p8 =>
            obtain ⟨t8, r8⟩ := p8
            simp only [Option.some_bind]
            cases strtok r8 with
            | none => rfl
            | some p9 =>
              obtain ⟨t9, r9⟩ := p9
              rfl

/-- No line buffer is skipped: processing it either ends in a fault or changes the
table. -/
theorem processLine_ne_self (N : Nat) (states : List climate_info) (hN : states.length = N)
    (line : List Char) : processLine N states line ≠ .ok states := by
  cases ht : tokenize line with
  | none => simp [processLine, ht]
  | some f => exact processLine_changes N states hN line f ht

/-- C14 fails as stated: the only line of `missingValuesFile` is not a valid
record, yet read into the empty table it creates the accumulator of `TN`. -/
theorem invalid_source_creates_entry :
    (∀ l ∈ readLines missingValuesFile, validLine l = false)
      ∧ analyze_file missingValuesFile zeroTable NUM_STATES
          = .ok (missingValuesSlot :: zeroTable.tail)
      ∧ missingValuesSlot.num_records ≠ 0 := by
  decide!

/-- C14 (amended): for the empty source, `analyze_file` applied to an empty table
returns the table as it was, so every slot still has `num_records = 0`; and no
line handed to the loop body leaves the table as it was. -/
theorem empty_source_leaves_empty_table (t : List climate_info) (N : Nat)
    (hempty : emptyTable t) (hlen : t.length = N) :
    analyze_file [] t N = .ok t
      ∧ (∀ t1, analyze_file [] t N = .ok t1 → emptyTable t1)
      ∧ ∀ line, processLine N t line ≠ .ok t := by
  refine ⟨rfl, ?_, processLine_ne_self N t hlen⟩
  intro t1 h
  have e : t1 = t := by
    have h2 : analyze_file [] t N = .ok t := rfl
    rw [h2] at h
    simpa using h.symm
  subst e
  exact hempty

theorem empty_source_leaves_empty_table_witness :
    analyze_file [] zeroTable NUM_STATES = .ok zeroTable
      ∧ (∀ t1, analyze_file [] zeroTable NUM_STATES = .ok t1 → emptyTable t1)
      ∧ ∀ line, processLine NUM_STATES zeroTable line ≠ .ok zeroTable :=
  empty_source_leaves_empty_table zeroTable NUM_STATES emptyTable_zeroTable (by decide)

/-- C15 fails as stated: `emptyGeoLine` and `geoLine` both have nine tab-separated
fields and differ only in the third, which is empty in the first. `strtok` skips
the two adjacent tabs, so the first line has only eight tokens and ends the run
in the NULL fault, while the second creates the accumulator of `TN`. -/
theorem empty_location_shifts_tokens :
    (emptyGeoLine.splitOn '\t').length = 9 ∧ (geoLine.splitOn '\t').length = 9
      ∧ (emptyGeoLine.splitOn '\t').set 2 [] = (geoLine.splitOn '\t').set 2 []
      ∧ processLine NUM_STATES zeroTable emptyGeoLine = .error Fault.nullPointer
      ∧ processLine NUM_STATES zeroTable geoLine = .ok (geoLineSlot :: zeroTable.tail) := by
  decide!

/-- C15 (amended): the geolocation field is discarded when it is not empty. Two
line buffers with non-empty state code and timestamp fields that differ only in
their third field, a non-empty string without tab in both, are processed with the
same result, and so are two sequences of lines that differ only there. -/
theorem location_is_discarded (N : Nat) (states : List climate_info)
    (code time g1 g2 rest : List Char)
    (hc : code ≠ []) (hct : '\t' ∉ code) (ht : time ≠ []) (htt : '\t' ∉ time)
    (hg1 : g1 ≠ []) (hg1t : '\t' ∉ g1) (hg2 : g2 ≠ []) (hg2t : '\t' ∉ g2) :
    processLine N states (code ++ '\t' :: (time ++ '\t' :: (g1 ++ '\t' :: rest)))
        = processLine N states (code ++ '\t' :: (time ++ '\t' :: (g2 ++ '\t' :: rest)))
      ∧ ∀ others : List (List Char),
          analyzeLines N states
              ((code ++ '\t' :: (time ++ '\t' :: (g1 ++ '\t' :: rest))) :: others)
            = analyzeLines N states
              ((code ++ '\t' :: (time ++ '\t' :: (g2 ++ '\t' :: rest))) :: others) := by
  have hp : processLine N states (code ++ '\t' :: (time ++ '\t' :: (g1 ++ '\t' :: rest)))
      = processLine N states (code ++ '\t' :: (time ++ '\t' :: (g2 ++ '\t' :: rest))) := by
    have h2 := tokenize_location code time g1 g2 rest hc hct ht htt hg1 hg1t hg2 hg2t
    cases h1 : tokenize (code ++ '\t' :: (time ++ '\t' :: (g1 ++ '\t' :: rest))) with
    | none =>
      rw [h1] at h2
      simp only [Option.map_none'] at h2
      simp only [processLine, h1, h2]
    | some f =>
      rw [h1] at h2
      simp only [Option.map_some'] at h2
      exact processLine_congr N states _ _ f { f with location := g2 } h1 h2 rfl rfl rfl rfl
        rfl rfl rfl rfl
  refine ⟨hp, fun others => ?_⟩
  simp only [analyzeLines, hp]

theorem location_is_discarded_witness :
    processLine NUM_STATES zeroTable geoLine = processLine NUM_STATES zeroTable otherGeoLine
      ∧ ∀ others : List (List Char),
          analyzeLines NUM_STATES zeroTable (geoLine :: others)
            = analyzeLines NUM_STATES zeroTable (otherGeoLine :: others) :=
  location_is_discarded NUM_STATES zeroTable (String.toList "TN")
    (String.toList "1430308800000") (String.toList "dn6nb3vwjyxb")
    (String.toList "9prcjqk3yc80")
    (String.toList "4.0\t1.0\t100.0\t0.0\t99226.0\t282.63037\n")
    (by decide) (by decide) (by decide) (by decide) (by decide) (by decide) (by decide)
    (by decide)

/-! ## The prefix invariant, the frame and the bounds (C16, C17, C18) -/

theorem takeWhile_occupied_append (occ free : List climate_info)
    (hocc : ∀ s ∈ occ, s.num_records ≠ 0) (hfree : ∀ s ∈ free, s.num_records = 0) :
    (occ ++ free).takeWhile (fun s => s.num_records ≠ 0) = occ := by
  induction occ with
  | nil =>
    cases free with
    | nil => rfl
    | cons e free =>
      have := hfree e (List.mem_cons_self _ _)
      simp [List.takeWhile, this]
  | cons a occ ih =>
    have ha := hocc a (List.mem_cons_self _ _)
    have := ih (fun s hs => hocc s (List.mem_cons_of_mem _ hs))
    simpa [List.takeWhile, ha] using this

theorem occupiedCount_append (occ free : List climate_info)
    (hocc : ∀ s ∈ occ, s.num_records ≠ 0) (hfree : ∀ s ∈ free, s.num_records = 0) :
    occupiedCount (occ ++ free) = occ.length := by
  rw [occupiedCount, takeWhile_occupied_append occ free hocc hfree]

/-- A table made of occupied slots with distinct codes followed by empty slots
satisfies the prefix invariant. -/
theorem prefixInvariant_append (occ free : List climate_info)
    (hocc : ∀ s ∈ occ, s.num_records ≠ 0) (hfree : ∀ s ∈ free, s.num_records = 0)
    (hnd : (occ.map climate_info.code).Nodup) : prefixInvariant (occ ++ free) := by
  unfold prefixInvariant
  rw [occupiedCount_append occ free hocc hfree, List.take_left', List.drop_left']
  · exact ⟨hocc, hfree, hnd⟩
  · rfl
  · rfl

/-- Every table satisfying the prefix invariant splits into its occupied slots
and its empty slots. -/
theorem prefixInvariant_split (states : List climate_info) (h : prefixInvariant states) :
    ∃ occ free, states = occ ++ free ∧ occ.length = occupiedCount states
      ∧ (∀ s ∈ occ, s.num_records ≠ 0) ∧ (∀ s ∈ free, s.num_records = 0)
      ∧ (occ.map climate_info.code).Nodup := by
  refine ⟨states.take (occupiedCount states), states.drop (occupiedCount states),
    (List.take_append_drop _ _).symm, ?_, h.1, h.2.1, h.2.2⟩
  rw [List.length_take]
  have : occupiedCount states ≤ states.length := by
    unfold occupiedCount
    exact (List.takeWhile_sublist _).length_le
  omega

theorem prefixInvariant_tableAfter (init : List climate_info) (hempty : emptyTable init)
    (fs : List Fields) (hcount : fs.length < ULONG_RANGE) :
    prefixInvariant (tableAfter init fs)
      ∧ occupiedCount (tableAfter init fs) = (occupied fs).length := by
  have hocc : ∀ s ∈ occupied fs, s.num_records ≠ 0 :=
    fun s hs => (num_records_of_mem_occupied fs hcount s hs).2
  have hfree : ∀ s ∈ init.drop (occupied fs).length, s.num_records = 0 :=
    fun s hs => hempty s (List.mem_of_mem_drop hs)
  exact ⟨prefixInvariant_append _ _ hocc hfree (nodup_code_occupied fs),
    occupiedCount_append _ _ hocc hfree⟩

/-- The hypotheses on a file hold for every initial segment of its lines. -/
theorem hypotheses_take (lines : List (List Char)) (n : Nat) (N : Nat)
    (hv : ∀ l ∈ lines, validLine l = true) (hcount : lines.length < ULONG_RANGE)
    (hroom : (firstOccurrences ((records lines).map Fields.code)).length ≤ N) :
    (∀ l ∈ lines.take n, validLine l = true)
      ∧ (lines.take n).length < ULONG_RANGE
      ∧ (records (lines.take n)).length < ULONG_RANGE
      ∧ (firstOccurrences ((records (lines.take n)).map Fields.code)).length ≤ N := by
  have hv1 : ∀ l ∈ lines.take n, validLine l = true :=
    fun l hl => hv l (List.mem_of_mem_take hl)
  have hl : (lines.take n).length ≤ lines.length := by
    rw [List.length_take]; omega
  refine ⟨hv1, by omega, by rw [length_records_of_valid _ hv1]; omega, ?_⟩
  have h := length_firstOccurrences_append ((records (lines.take n)).map Fields.code)
    ((records (lines.drop n)).map Fields.code)
  rw [← List.map_append, ← records_append, List.take_append_drop] at h
  omega

/-- The table reached after the first `n` lines of a file of valid lines. -/
theorem analyzeLines_take (file : List Char) (init : List climate_info) (N : Nat)
    (hempty : emptyTable init) (hlen : init.length = N)
    (hv : ∀ l ∈ readLines file, validLine l = true)
    (hcount : (readLines file).length < ULONG_RANGE)
    (hroom : (firstOccurrences ((records (readLines file)).map Fields.code)).length ≤ N)
    (n : Nat) :
    analyzeLines N init ((readLines file).take n)
      = .ok (tableAfter init (records ((readLines file).take n))) := by
  obtain ⟨h1, h2, _, h4⟩ := hypotheses_take (readLines file) n N hv hcount hroom
  have h := analyzeLines_tableAfter N init hempty hlen ((readLines file).take n) [] h1
    (by simpa using h2) (by simpa using h4)
  rw [tableAfter_nil, List.nil_append] at h
  exact h

/-- C16: starting from an empty table and for a file of valid lines with at most
50 distinct state codes, the table reached after any number `n` of lines
satisfies the prefix invariant: with `k` the number of distinct codes seen so far,
the slots `0..k-1` have `num_records != 0`, every slot from `k` on has
`num_records = 0`, and the codes in the occupied slots are pairwise distinct; hence
the scan finds an accumulator for a code if and only if some occupied slot holds
that code. -/
theorem prefix_invariant_kept (file : List Char) (init : List climate_info)
    (hempty : emptyTable init) (hlen : init.length = NUM_STATES)
    (hv : ∀ l ∈ readLines file, validLine l = true)
    (hcount : (readLines file).length < ULONG_RANGE)
    (hroom : (firstOccurrences ((records (readLines file)).map Fields.code)).length
      ≤ NUM_STATES)
    (n : Nat) :
    ∃ t, analyzeLines NUM_STATES init ((readLines file).take n) = .ok t
      ∧ t.length = NUM_STATES
      ∧ prefixInvariant t
      ∧ occupiedCount t
          = (firstOccurrences ((records ((readLines file).take n)).map Fields.code)).length
      ∧ ∀ c, (findAccumulator t NUM_STATES c).isSome
          ↔ ∃ s ∈ t, s.num_records ≠ 0 ∧ s.code = c := by
  obtain ⟨_, _, h3, h4⟩ := hypotheses_take (readLines file) n NUM_STATES hv hcount hroom
  have hol : (occupied (records ((readLines file).take n))).length ≤ NUM_STATES := by
    rw [length_occupied]; exact h4
  obtain ⟨hinv, hk⟩ := prefixInvariant_tableAfter init hempty _ h3
  refine ⟨_, analyzeLines_take file init NUM_STATES hempty hlen hv hcount hroom n,
    ?_, hinv, by rw [hk, length_occupied], ?_⟩
  · rw [length_tableAfter init _ (by omega), hlen]
  · intro c
    rw [findAccumulator_tableAfter init hempty _ h3 NUM_STATES hlen hol c]
    constructor
    · intro h
      obtain ⟨s, hs⟩ := Option.isSome_iff_exists.mp h
      obtain ⟨_, hne⟩ := aggregate_num_records _ _ hs
      obtain ⟨f, hf⟩ := List.exists_mem_of_ne_nil _ hne
      obtain ⟨hf1, hf2⟩ := (mem_group _ _ _).mp hf
      obtain ⟨s2, hs2, hs2c⟩ := exists_occupied_of_mem _ f hf1
      have := (mem_tableAfter_occupied init hempty _ h3 s2).mpr hs2
      exact ⟨s2, this.1, this.2, by rw [hs2c, hf2]⟩
    · rintro ⟨s, hs, hs0, hsc⟩
      have hocc := (mem_tableAfter_occupied init hempty _ h3 s).mp ⟨hs, hs0⟩
      have := aggregate_of_mem_occupied _ s hocc
      rw [hsc] at this
      rw [this]; rfl

theorem prefix_invariant_kept_witness :
    ∃ t, analyzeLines NUM_STATES zeroTable ((readLines sampleFile).take 4) = .ok t
      ∧ t.length = NUM_STATES
      ∧ prefixInvariant t
      ∧ occupiedCount t
          = (firstOccurrences
              ((records ((readLines sampleFile).take 4)).map Fields.code)).length
      ∧ ∀ c, (findAccumulator t NUM_STATES c).isSome
          ↔ ∃ s ∈ t, s.num_records ≠ 0 ∧ s.code = c :=
  prefix_invariant_kept sampleFile zeroTable emptyTable_zeroTable (by decide) (by decide)
    (by decide) (by decide) 4

/-- On the table of a history, with room for the code of the next record, the scan
stops at an index inside the array. -/
theorem findSlot_tableAfter (N : Nat) (init : List climate_info) (hempty : emptyTable init)
    (hlen : init.length = N) (hist : List Fields) (f : Fields)
    (hcount : hist.length < ULONG_RANGE)
    (hroom : (firstOccurrences ((hist ++ [f]).map Fields.code)).length ≤ N) :
    ∃ i b, findSlot (tableAfter init hist) f.code N 0 = .ok (i, b) ∧ i < N
      ∧ i < (tableAfter init hist).length := by
  have hocc : ∀ s ∈ occupied hist, s.num_records ≠ 0 :=
    fun s hs => (num_records_of_mem_occupied hist hcount s hs).2
  have hla := length_absorbInto (occupied hist) f
  rw [← occupied_snoc, length_occupied] at hla
  have hlo := length_occupied hist
  have hmono := length_firstOccurrences_append (hist.map Fields.code) [f.code]
  rw [← List.map_singleton, ← List.map_append] at hmono
  have htl : (tableAfter init hist).length = N := by
    rw [length_tableAfter init hist (by omega), hlen]
  by_cases hmem : f.code ∈ (occupied hist).map climate_info.code
  · obtain ⟨pre, s, post, hsplit, hpre, hs⟩ := exists_first_code f.code _ hmem
    have hpre2 : ∀ x ∈ pre, x.num_records ≠ 0 ∧ x.code ≠ f.code :=
      fun x hx => ⟨hocc x (by rw [hsplit]; simp [hx]), hpre x hx⟩
    have hs0 : s.num_records ≠ 0 := hocc s (by rw [hsplit]; simp)
    have hN : pre.length < N := by
      have := congrArg List.length hsplit
      simp at this
      omega
    have e : tableAfter init hist
        = pre ++ s :: (post ++ init.drop (occupied hist).length) := by
      rw [tableAfter, hsplit]; simp
    refine ⟨pre.length, true, ?_, hN, by omega⟩
    rw [e, findSlot_found N f.code pre s _ hpre2 hs0 hs hN]
  · rw [if_neg hmem] at hla
    have hne : ∀ x ∈ occupied hist, x.num_records ≠ 0 ∧ x.code ≠ f.code := by
      intro x hx
      exact ⟨hocc x hx, fun hxc => hmem (List.mem_map.mpr ⟨x, hx, hxc⟩)⟩
    have hlt : (occupied hist).length < N := by omega
    have hdrop : init.drop (occupied hist).length
        = init[(occupied hist).length] :: init.drop ((occupied hist).length + 1) :=
      List.drop_eq_getElem_cons (by omega)
    have he : (init[(occupied hist).length]).num_records = 0 :=
      hempty _ (List.getElem_mem _)
    refine ⟨(occupied hist).length, false, ?_, hlt, by omega⟩
    rw [tableAfter, hdrop, findSlot_new N f.code _ _ _ hne he hlt]

theorem take_succ_of_getElem? {α : Type} (l : List α) (n : Nat) (x : α)
    (h : l[n]? = some x) : l.take (n + 1) = l.take n ++ [x] := by
  rw [List.take_succ, h]
  rfl

/-- C18: starting from an empty table of 50 slots and for a file of valid lines
with at most 50 distinct state codes, the run of `analyze_file` returns a table,
so no access to `states[i]` falls outside the array; and for every line of the
file, on the table reached before it, the scan (which visits the indices from 0
upwards) stops at an index `i < 50`, the index that the creation or update branch
then uses. -/
theorem slot_index_in_bounds (file : List Char) (init : List climate_info)
    (hempty : emptyTable init) (hlen : init.length = NUM_STATES)
    (hv : ∀ l ∈ readLines file, validLine l = true)
    (hcount : (readLines file).length < ULONG_RANGE)
    (hroom : (firstOccurrences ((records (readLines file)).map Fields.code)).length
      ≤ NUM_STATES) :
    (∃ t, analyze_file file init NUM_STATES = .ok t)
      ∧ ∀ n line, (readLines file)[n]? = some line →
          ∃ t f i b, analyzeLines NUM_STATES init ((readLines file).take n) = .ok t
            ∧ t.length = NUM_STATES
            ∧ tokenize line = some f
            ∧ findSlot t f.code NUM_STATES 0 = .ok (i, b)
            ∧ i < NUM_STATES := by
  refine ⟨⟨_, analyze_file_valid file init NUM_STATES hempty hlen hv hcount hroom⟩, ?_⟩
  intro n line hline
  obtain ⟨f, htok, _⟩ := validLine_fields line (hv line (List.getElem?_mem hline))
  obtain ⟨_, _, h3, h4⟩ := hypotheses_take (readLines file) n NUM_STATES hv hcount hroom
  obtain ⟨_, _, _, h4s⟩ :=
    hypotheses_take (readLines file) (n + 1) NUM_STATES hv hcount hroom
  rw [take_succ_of_getElem? _ n line hline, records_append,
    records_cons line [] f htok] at h4s
  have hrn : records ([] : List (List Char)) = [] := rfl
  rw [hrn] at h4s
  obtain ⟨i, b, hfind, hi, _⟩ := findSlot_tableAfter NUM_STATES init hempty hlen
    (records ((readLines file).take n)) f h3 h4s
  refine ⟨_, f, i, b, analyzeLines_take file init NUM_STATES hempty hlen hv hcount hroom n,
    ?_, htok, hfind, hi⟩
  rw [length_tableAfter init _ (by rw [length_occupied]; omega), hlen]

theorem slot_index_in_bounds_witness :
    (∃ t, analyze_file sampleFile zeroTable NUM_STATES = .ok t)
      ∧ ∀ n line, (readLines sampleFile)[n]? = some line →
          ∃ t f i b, analyzeLines NUM_STATES zeroTable ((readLines sampleFile).take n) = .ok t
            ∧ t.length = NUM_STATES
            ∧ tokenize line = some f
            ∧ findSlot t f.code NUM_STATES 0 = .ok (i, b)
            ∧ i < NUM_STATES :=
  slot_index_in_bounds sampleFile zeroTable emptyTable_zeroTable (by decide) (by decide)
    (by decide) (by decide)

/-- C17 fails as stated: `fullTable` satisfies the prefix invariant with all 50
slots occupied, and `dcLine` is a valid line with the new code `DC`; processing it
changes no slot but ends in an access past the array. -/
theorem full_table_new_code_faults :
    fullTable.length = NUM_STATES ∧ prefixInvariant fullTable
      ∧ validLine dcLine = true ∧ codeOf dcLine = some ['D', 'C']
      ∧ processLine NUM_STATES fullTable dcLine = .error Fault.outOfBounds := by
  decide!

/-- A count at `ULONG_MAX` wraps to zero on the next record of the state, which
makes the slot look empty; the frame property therefore needs counts below
`ULONG_MAX`. -/
theorem count_wraps_at_ulong_max :
    (update { zeroSlot with num_records := ULONG_RANGE - 1, code := ['D', 'C'] }
        ⟨String.toList "DC", String.toList "1428480000000", String.toList "9prcjqk3yc80",
          String.toList "93.0", String.toList "0.0", String.toList "100.0",
          String.toList "0.0", String.toList "95644.0", String.toList "327.5"⟩).toOption.map
      climate_info.num_records = some 0 := by
  decide!

theorem getElem?_set_other {α : Type} (l : List α) (i j : Nat) (x : α) (h : j ≠ i) :
    (l.set i x)[j]? = l[j]? := by
  rw [List.getElem?_set_ne (fun e => h e.symm)]

/-- C17 (amended): for a table of `num_states` slots that satisfies the prefix
invariant and whose counts are below `ULONG_MAX`, and for a valid line with state
code `c` such that `c` has an accumulator or an empty slot is left, processing the
line returns the table with exactly one slot replaced: the accumulator of `c`, or
the first empty slot when `c` is new. The new content of that slot has code `c`
and one record more; every other slot is unchanged in all members; the code of an
occupied slot does not change, no occupied slot becomes empty and no
`num_records` decreases. -/
theorem frame_of_one_line (N : Nat) (states : List climate_info) (line c : List Char)
    (hN : states.length = N) (hinv : prefixInvariant states)
    (hv : validLine line = true) (hcode : codeOf line = some c)
    (hroom : (∃ s ∈ states, s.num_records ≠ 0 ∧ s.code = c) ∨ occupiedCount states < N)
    (hmax : ∀ s ∈ states, s.num_records + 1 < ULONG_RANGE) :
    ∃ i cur new, i < N ∧ states[i]? = some cur
      ∧ processLine N states line = .ok (states.set i new)
      ∧ new ≠ cur
      ∧ (∀ j, j ≠ i → (states.set i new)[j]? = states[j]?)
      ∧ ((cur.num_records ≠ 0 ∧ cur.code = c)
          ∨ (cur.num_records = 0 ∧ i = occupiedCount states
              ∧ ∀ s ∈ states, s.num_records ≠ 0 → s.code ≠ c))
      ∧ new.code = c ∧ new.num_records = cur.num_records + 1
      ∧ ∀ (j : Nat) (s : climate_info), states[j]? = some s →
          ∃ s1, (states.set i new)[j]? = some s1 ∧ s.num_records ≤ s1.num_records
            ∧ (s.num_records ≠ 0 → s1.code = s.code ∧ s1.num_records ≠ 0) := by
  obtain ⟨f, htok, hwf⟩ := validLine_fields line hv
  obtain ⟨hcl, htl⟩ := wellFormed_bounds f hwf
  have hfc : f.code = c := (codeOf_eq_some line c f htok).mp hcode
  obtain ⟨occ, free, hsplit, hk, hocc, hfree, hnd⟩ := prefixInvariant_split states hinv
  have hframe : ∀ (i : Nat) (cur new : climate_info), i < N → states[i]? = some cur →
      new.num_records = cur.num_records + 1 → (cur.num_records ≠ 0 → new.code = cur.code) →
      (∀ j, j ≠ i → (states.set i new)[j]? = states[j]?)
      ∧ new ≠ cur
      ∧ ∀ (j : Nat) (s : climate_info), states[j]? = some s →
          ∃ s1, (states.set i new)[j]? = some s1 ∧ s.num_records ≤ s1.num_records
            ∧ (s.num_records ≠ 0 → s1.code = s.code ∧ s1.num_records ≠ 0) := by
    intro i cur new hi hcur hnum hcd
    refine ⟨fun j hj => getElem?_set_other states i j new hj, ?_, ?_⟩
    · intro h
      rw [h] at hnum
      omega
    · intro j s hs
      by_cases hj : j = i
      · subst hj
        rw [hcur] at hs
        simp only [Option.some.injEq] at hs
        subst hs
        refine ⟨new, List.getElem?_set_self (by omega), by omega, fun h0 => ⟨hcd h0, by omega⟩⟩
      · exact ⟨s, by rw [getElem?_set_other states i j new hj]; exact hs, le_refl _,
          fun h0 => ⟨rfl, h0⟩⟩
  by_cases hmem : f.code ∈ occ.map climate_info.code
  · obtain ⟨pre, s, post, hocc_split, hpre, hs⟩ := exists_first_code f.code occ hmem
    have hs_mem : s ∈ states := by rw [hsplit, hocc_split]; simp
    have hs0 : s.num_records ≠ 0 := hocc s (by rw [hocc_split]; simp)
    have hi : pre.length < N := by
      have := congrArg List.length hsplit
      rw [hocc_split] at this
      simp at this
      omega
    have hst : states = pre ++ s :: (post ++ free) := by
      rw [hsplit, hocc_split]; simp
    have hget : states[pre.length]? = some s := by
      rw [hst]; exact getElem?_append_cons_length pre s _
    have hrun : processLine N states line = .ok (states.set pre.length (absorb s f)) := by
      have h := processLine_known N occ free line f htok htl hocc
        (by rw [hk]; unfold occupiedCount
            exact le_trans (List.takeWhile_sublist _).length_le (by omega)) hmem
      rw [← hsplit, hocc_split, absorbInto_found f s post hs pre hpre] at h
      rw [h, hst]
      simp
    have hnum : (absorb s f).num_records = s.num_records + 1 := by
      have := hmax s hs_mem
      show (s.num_records + 1) % ULONG_RANGE = s.num_records + 1
      exact Nat.mod_eq_of_lt this
    obtain ⟨h1, h2, h3⟩ := hframe pre.length s (absorb s f) hi hget hnum (fun _ => rfl)
    exact ⟨pre.length, s, absorb s f, hi, hget, hrun, h2, h1, Or.inl ⟨hs0, by rw [hs, hfc]⟩,
      by rw [absorb_code, hs, hfc], hnum, h3⟩
  · have hnew : ∀ x ∈ states, x.num_records ≠ 0 → x.code ≠ c := by
      intro x hx hx0 hxc
      rw [hsplit] at hx
      rcases List.mem_append.mp hx with h | h
      · exact hmem (List.mem_map.mpr ⟨x, h, by rw [hxc, hfc]⟩)
      · exact hx0 (hfree x h)
    have hlt : occ.length < N := by
      rcases hroom with ⟨x, hx, hx0, hxc⟩ | h
      · exact absurd hxc (hnew x hx hx0)
      · rw [hk]; exact h
    obtain ⟨e, free1, hfree_split⟩ : ∃ e free1, free = e :: free1 := by
      cases free with
      | nil =>
        have := congrArg List.length hsplit
        simp at this
        omega
      | cons e free1 => exact ⟨e, free1, rfl⟩
    have he : e.num_records = 0 := hfree e (by rw [hfree_split]; simp)
    have hst : states = occ ++ e :: free1 := by rw [hsplit, hfree_split]
    have hget : states[occ.length]? = some e := by
      rw [hst]; exact getElem?_append_cons_length occ e _
    have hrun : processLine N states line = .ok (states.set occ.length (seed f)) := by
      have h := processLine_new N occ e free1 line f htok hcl htl hocc he hlt hmem
      have hne : ∀ x ∈ occ, x.code ≠ f.code :=
        fun x hx hxc => hmem (List.mem_map.mpr ⟨x, hx, hxc⟩)
      rw [absorbInto_new f occ hne] at h
      rw [hst, h]
      simp
    have hnum : (seed f).num_records = e.num_records + 1 := by rw [he]; rfl
    obtain ⟨h1, h2, h3⟩ := hframe occ.length e (seed f) hlt hget hnum
      (fun h0 => absurd he h0)
    exact ⟨occ.length, e, seed f, hlt, hget, hrun, h2, h1, Or.inr ⟨he, hk, hnew⟩,
      by rw [seed_code, hfc], hnum, h3⟩

theorem frame_of_one_line_witness :
    ∃ i cur new, i < NUM_STATES ∧ zeroTable[i]? = some cur
      ∧ processLine NUM_STATES zeroTable dcLine = .ok (zeroTable.set i new)
      ∧ new ≠ cur
      ∧ (∀ j, j ≠ i → (zeroTable.set i new)[j]? = zeroTable[j]?)
      ∧ ((cur.num_records ≠ 0 ∧ cur.code = ['D', 'C'])
          ∨ (cur.num_records = 0 ∧ i = occupiedCount zeroTable
              ∧ ∀ s ∈ zeroTable, s.num_records ≠ 0 → s.code ≠ ['D', 'C']))
      ∧ new.code = ['D', 'C'] ∧ new.num_records = cur.num_records + 1
      ∧ ∀ (j : Nat) (s : climate_info), zeroTable[j]? = some s →
          ∃ s1, (zeroTable.set i new)[j]? = some s1 ∧ s.num_records ≤ s1.num_records
            ∧ (s.num_records ≠ 0 → s1.code = s.code ∧ s1.num_records ≠ 0) :=
  frame_of_one_line NUM_STATES zeroTable dcLine ['D', 'C'] (by decide) (by decide) (by decide)
    (by decide) (Or.inr (by decide)) (by decide)

/-! ## Floating-point operations left open (C2, C10) -/

theorem createWith_exact (f : Fields) : createWith exactOps f = create f := rfl

theorem updateWith_exact (cur : climate_info) (f : Fields) :
    updateWith exactOps cur f = update cur f := rfl

theorem processLineWith_exact (N : Nat) (states : List climate_info) (line : List Char) :
    processLineWith exactOps N states line = processLine N states line := rfl

/-- In exact arithmetic the general loop is the loop `analyzeLines`. -/
theorem analyzeLinesWith_exact (N : Nat) (lines : List (List Char)) :
    ∀ states, analyzeLinesWith exactOps N states lines = analyzeLines N states lines := by
  induction lines with
  | nil => intro states; rfl
  | cons l lines ih =>
    intro states
    simp only [analyzeLinesWith, analyzeLines, processLineWith_exact]
    cases processLine N states l with
    | error e => rfl
    | ok t => exact ih t

theorem analyze_fileWith_exact (file : List Char) (states : List climate_info) (N : Nat) :
    analyze_fileWith exactOps file states N = analyze_file file states N :=
  analyzeLinesWith_exact N (readLines file) states

theorem createWith_eq_seedWith (ops : FloatOps) (f : Fields) (hc : f.code.length < 3)
    (ht : f.time.length < 15) : createWith ops f = .ok (seedWith ops f) := by
  have h1 : ¬ 3 ≤ f.code.length := by omega
  have h2 : ¬ 15 ≤ f.time.length := by omega
  simp [createWith, strcpy, h1, h2, seedWith, bind, Except.bind, pure, Except.pure]

theorem updateWith_eq_absorbWith (ops : FloatOps) (cur : climate_info) (f : Fields)
    (ht : f.time.length < 15) : updateWith ops cur f = .ok (absorbWith ops cur f) := by
  have h2 : ¬ 15 ≤ f.time.length := by omega
  simp only [updateWith, strcpy, h2, absorbWith, bind, Except.bind, pure, Except.pure,
    if_false]
  by_cases h1 : cur.max_temp < ops.temp f.temperature <;>
    by_cases h3 : ops.temp f.temperature < cur.min_temp <;> simp [h1, h3]

/-- A line whose code is held by the slot after `pre` updates that slot. -/
theorem processLineWith_found (ops : FloatOps) (N : Nat) (pre : List climate_info)
    (s : climate_info) (rest : List climate_info) (line : List Char) (f : Fields)
    (htok : tokenize line = some f) (ht : f.time.length < 15)
    (hpre : ∀ x ∈ pre, x.num_records ≠ 0 ∧ x.code ≠ f.code)
    (hs0 : s.num_records ≠ 0) (hs : s.code = f.code) (hN : pre.length < N) :
    processLineWith ops N (pre ++ s :: rest) line
      = .ok (pre ++ absorbWith ops s f :: rest) := by
  have hfind := findSlot_found N f.code pre s rest hpre hs0 hs hN
  have hget := getElem?_append_cons_length pre s rest
  have hset : (pre ++ s :: rest).set pre.length (absorbWith ops s f)
      = pre ++ absorbWith ops s f :: rest := by simp
  simp only [processLineWith, htok, hfind, bind, Except.bind, hget,
    updateWith_eq_absorbWith _ _ _ ht, if_true, pure, Except.pure, hset]

/-- A line with a new code takes the first empty slot. -/
theorem processLineWith_new (ops : FloatOps) (N : Nat) (occ : List climate_info)
    (e : climate_info) (free : List climate_info) (line : List Char) (f : Fields)
    (htok : tokenize line = some f) (hc : f.code.length < 3) (ht : f.time.length < 15)
    (hocc : ∀ x ∈ occ, x.num_records ≠ 0 ∧ x.code ≠ f.code)
    (he : e.num_records = 0) (hN : occ.length < N) :
    processLineWith ops N (occ ++ e :: free) line = .ok (occ ++ seedWith ops f :: free) := by
  have hfind := findSlot_new N f.code occ e free hocc he hN
  have hget := getElem?_append_cons_length occ e free
  have hset : (occ ++ e :: free).set occ.length (seedWith ops f)
      = occ ++ seedWith ops f :: free := by simp
  simp only [processLineWith, htok, hfind, bind, Except.bind, hget,
    createWith_eq_seedWith _ _ hc ht, pure, Except.pure, hset]
  simp

theorem extremaOf_seedWith (ops : FloatOps) (f : Fields) :
    ExtremaOf ops [f] (seedWith ops f) := by
  refine ⟨?_, by simp [seedWith], by simp [seedWith]⟩
  intro g hg
  simp only [List.mem_singleton] at hg
  subst hg
  exact ⟨le_refl _, le_refl _⟩

/-- One update keeps the extremes: a strictly more extreme temperature replaces
the extreme and its timestamp, a tie or a less extreme one replaces nothing. -/
theorem extremaOf_absorbWith (ops : FloatOps) (l : List Fields) (a : climate_info)
    (f : Fields) (h : ExtremaOf ops l a) : ExtremaOf ops (l ++ [f]) (absorbWith ops a f) := by
  obtain ⟨hb, hmax, hmin⟩ := h
  refine ⟨?_, ?_, ?_⟩
  · intro g hg
    have hmx : a.max_temp ≤ (absorbWith ops a f).max_temp := by
      simp only [absorbWith]; split <;> [exact le_of_lt (by assumption); exact le_refl _]
    have hmn : (absorbWith ops a f).min_temp ≤ a.min_temp := by
      simp only [absorbWith]; split <;> [exact le_of_lt (by assumption); exact le_refl _]
    rcases List.mem_append.mp hg with hg | hg
    · exact ⟨le_trans hmn (hb g hg).1, le_trans (hb g hg).2 hmx⟩
    · simp only [List.mem_singleton] at hg
      subst hg
      constructor
      · simp only [absorbWith]; split
        · exact le_refl _
        · exact not_lt.mp (by assumption)
      · simp only [absorbWith]; split
        · exact le_refl _
        · exact not_lt.mp (by assumption)
  · by_cases hlt : a.max_temp < ops.temp f.temperature
    · have hnone : l.find? (fun g => ops.temp g.temperature = ops.temp f.temperature)
          = none := by
        rw [List.find?_eq_none]
        intro g hg hgeq
        simp only [decide_eq_true_eq] at hgeq
        have := (hb g hg).2
        rw [hgeq] at this
        exact absurd hlt (not_lt.mpr this)
      simp [absorbWith, hlt, List.find?_append, hnone]
    · cases hfind : l.find? (fun g => ops.temp g.temperature = a.max_temp) with
      | none => rw [hfind] at hmax; simp at hmax
      | some g =>
        rw [hfind] at hmax
        simp only [absorbWith, hlt, if_false, List.find?_append, hfind, Option.or_some]
        exact hmax
  · by_cases hlt : ops.temp f.temperature < a.min_temp
    · have hnone : l.find? (fun g => ops.temp g.temperature = ops.temp f.temperature)
          = none := by
        rw [List.find?_eq_none]
        intro g hg hgeq
        simp only [decide_eq_true_eq] at hgeq
        have := (hb g hg).1
        rw [hgeq] at this
        exact absurd hlt (not_lt.mpr this)
      simp [absorbWith, hlt, List.find?_append, hnone]
    · cases hfind : l.find? (fun g => ops.temp g.temperature = a.min_temp) with
      | none => rw [hfind] at hmin; simp at hmin
      | some g =>
        rw [hfind] at hmin
        simp only [absorbWith, hlt, if_false, List.find?_append, hfind, Option.or_some]
        exact hmin

theorem extremaOf_foldl (ops : FloatOps) (rest : List Fields) :
    ∀ (l : List Fields) (a : climate_info), ExtremaOf ops l a →
      ExtremaOf ops (l ++ rest) (rest.foldl (absorbWith ops) a) := by
  induction rest with
  | nil => intro l a h; simpa using h
  | cons f rest ih =>
    intro l a h
    have := ih (l ++ [f]) (absorbWith ops a f) (extremaOf_absorbWith ops l a f h)
    simpa using this

/-- Lines of the state held by the first slot update that slot one after the
other, while its count stays below `2^64`. -/
theorem analyzeLinesWith_first_slot (ops : FloatOps) (N : Nat) (hN : 0 < N)
    (tail : List climate_info) :
    ∀ (lines : List (List Char)) (a : climate_info),
      (∀ l ∈ lines, validLine l = true) → (∀ l ∈ lines, codeOf l = some a.code) →
      a.num_records ≠ 0 → a.num_records + lines.length < ULONG_RANGE →
      analyzeLinesWith ops N (a :: tail) lines
        = .ok ((records lines).foldl (absorbWith ops) a :: tail) := by
  intro lines
  induction lines with
  | nil => intro a _ _ _ _; rfl
  | cons line rest ih =>
    intro a hv hcode h0 hcount
    obtain ⟨f, htok, hwf⟩ := validLine_fields line (hv line (List.mem_cons_self _ _))
    obtain ⟨_, ht⟩ := wellFormed_bounds f hwf
    have hfc : f.code = a.code :=
      (codeOf_eq_some line a.code f htok).mp (hcode line (List.mem_cons_self _ _))
    have hstep := processLineWith_found ops N [] a tail line f htok ht (by simp) h0 hfc.symm
      (by simpa using hN)
    simp only [List.nil_append] at hstep
    simp only [List.length_cons] at hcount
    have hnr : (absorbWith ops a f).num_records = a.num_records + 1 :=
      Nat.mod_eq_of_lt (by omega)
    rw [analyzeLinesWith, hstep, records_cons line rest f htok]
    exact ih (absorbWith ops a f) (fun l hl => hv l (List.mem_cons_of_mem _ hl))
      (fun l hl => hcode l (List.mem_cons_of_mem _ hl)) (by rw [hnr]; omega)
      (by rw [hnr]; omega)

/-- The temperature texts of `tieFile` are different numbers with the same
`double`: in `double` arithmetic the second record ties the first and the stored
timestamps stay `1000`; in exact arithmetic the second record is a new maximum. -/
theorem tieFile_timestamps :
    strtod (String.toList "280.5") < strtod (String.toList "280.50000000000001")
      ∧ doubleOps.temp (String.toList "280.5\n")
          = doubleOps.temp (String.toList "280.50000000000001\n")
      ∧ ((analyze_fileWith doubleOps tieFile zeroTable NUM_STATES).toOption.bind List.head?).map
          (fun s => (s.max_time, s.min_time)) = some (String.toList "1000", String.toList "1000")
      ∧ ((analyze_fileWith exactOps tieFile zeroTable NUM_STATES).toOption.bind List.head?).map
          (fun s => (s.max_time, s.min_time))
            = some (String.toList "2000", String.toList "1000") := by
  decide!

/-- C2: for a non-empty file of valid lines that all carry the state code `c`,
read into an empty table, and whatever the floating-point operations compute (in
particular when two temperature texts round to the same `double`), the accumulator
of `c` stores as `max_time` the timestamp field of the first line, in input order,
whose temperature equals the maximum, and as `min_time` that of the first line
whose temperature equals the minimum; a later line that ties an extreme does not
replace its timestamp. -/
theorem first_extreme_timestamp (ops : FloatOps) (file : List Char)
    (init : List climate_info) (c : List Char)
    (hempty : emptyTable init) (hlen : init.length = NUM_STATES)
    (hv : ∀ l ∈ readLines file, validLine l = true)
    (hcount : (readLines file).length < ULONG_RANGE)
    (hcode : ∀ l ∈ readLines file, codeOf l = some c)
    (hne : readLines file ≠ []) :
    ∃ s rest, analyze_fileWith ops file init NUM_STATES = .ok (s :: rest) ∧ s.code = c
      ∧ (∀ f ∈ records (readLines file), ops.temp f.temperature ≤ s.max_temp)
      ∧ ((records (readLines file)).find? (fun f => ops.temp f.temperature = s.max_temp)).map
          Fields.time = some s.max_time
      ∧ (∀ f ∈ records (readLines file), s.min_temp ≤ ops.temp f.temperature)
      ∧ ((records (readLines file)).find? (fun f => ops.temp f.temperature = s.min_temp)).map
          Fields.time = some s.min_time := by
  cases hl : readLines file with
  | nil => exact absurd hl hne
  | cons line rest =>
    rw [hl] at hv hcount hcode
    obtain ⟨f, htok, hwf⟩ := validLine_fields line (hv line (List.mem_cons_self _ _))
    obtain ⟨hcl, htl⟩ := wellFormed_bounds f hwf
    have hfc : f.code = c :=
      (codeOf_eq_some line c f htok).mp (hcode line (List.mem_cons_self _ _))
    obtain ⟨e, tail, hinit⟩ : ∃ e tail, init = e :: tail := by
      cases init with
      | nil => simp [NUM_STATES] at hlen
      | cons e tail => exact ⟨e, tail, rfl⟩
    have he : e.num_records = 0 := hempty e (by rw [hinit]; simp)
    have hfirst := processLineWith_new ops NUM_STATES [] e tail line f htok hcl htl
      (by simp) he (by simp [NUM_STATES])
    simp only [List.nil_append] at hfirst
    simp only [List.length_cons] at hcount
    have hrest := analyzeLinesWith_first_slot ops NUM_STATES (by simp [NUM_STATES]) tail rest
      (seedWith ops f) (fun l h => hv l (List.mem_cons_of_mem _ h))
      (fun l h => by
        have := hcode l (List.mem_cons_of_mem _ h)
        rw [this]; exact congrArg some hfc.symm)
      (by simp [seedWith]) (by simp only [seedWith]; omega)
    have hrun : analyze_fileWith ops file init NUM_STATES
        = .ok ((records rest).foldl (absorbWith ops) (seedWith ops f) :: tail) := by
      rw [analyze_fileWith, hl, analyzeLinesWith, hinit, hfirst]
      exact hrest
    have hext := extremaOf_foldl ops (records rest) [f] (seedWith ops f)
      (extremaOf_seedWith ops f)
    have hrec : records (line :: rest) = f :: records rest := records_cons line rest f htok
    have hcodeacc : ∀ (fs : List Fields) (a : climate_info),
        (fs.foldl (absorbWith ops) a).code = a.code := by
      intro fs
      induction fs with
      | nil => intro a; rfl
      | cons g fs ih => intro a; exact (ih (absorbWith ops a g)).trans rfl
    rw [hrec]
    simp only [List.singleton_append] at hext
    obtain ⟨hb, hmax, hmin⟩ := hext
    exact ⟨_, tail, hrun, by rw [hcodeacc]; exact hfc, fun g hg => (hb g hg).2, hmax,
      fun g hg => (hb g hg).1, hmin⟩

theorem first_extreme_timestamp_witness :
    ∃ s rest, analyze_fileWith doubleOps tieFile zeroTable NUM_STATES = .ok (s :: rest)
      ∧ s.code = ['C', 'A']
      ∧ (∀ f ∈ records (readLines tieFile), doubleOps.temp f.temperature ≤ s.max_temp)
      ∧ ((records (readLines tieFile)).find?
          (fun f => doubleOps.temp f.temperature = s.max_temp)).map Fields.time = some s.max_time
      ∧ (∀ f ∈ records (readLines tieFile), s.min_temp ≤ doubleOps.temp f.temperature)
      ∧ ((records (readLines tieFile)).find?
          (fun f => doubleOps.temp f.temperature = s.min_temp)).map Fields.time = some s.min_time :=
  first_extreme_timestamp doubleOps tieFile zeroTable ['C', 'A'] emptyTable_zeroTable (by decide)
    (by decide) (by decide) (by decide) (by decide)

/-- C10 (amended): the worked example with the temperature of `WA` corrected, for
any floating-point operations whose temperatures are within 0.001 of the exact
values (exact arithmetic and `doubleOps` are such). Reading, into an empty table
and in this order, a `TN` line with timestamp `t1` and 293.15 K, a `TN` line with
timestamp `t2` and 310.93 K and a `WA` line with 280.0 K yields `TN` with
`num_records = 2`, `max_temp` within 0.05 of 100.0 with `max_time = t2`, `min_temp`
within 0.05 of 68.0 with `min_time = t1`; `WA` with `num_records = 1` and
`max_temp = min_temp` within 0.05 of 44.33; and the slot order `[TN, WA]` with no
other occupied slot, which is also the order of the per-state summaries of
`print_report`. -/
theorem worked_example (ops : FloatOps) (file : List Char) (init : List climate_info)
    (l1 l2 l3 : List Char) (f1 f2 f3 : Fields)
    (hempty : emptyTable init) (hlen : init.length = NUM_STATES)
    (hfile : readLines file = [l1, l2, l3])
    (h1 : tokenize l1 = some f1) (h2 : tokenize l2 = some f2) (h3 : tokenize l3 = some f3)
    (hw1 : f1.wellFormed = true) (hw2 : f2.wellFormed = true) (hw3 : f3.wellFormed = true)
    (hc1 : f1.code = ['T', 'N']) (hc2 : f2.code = ['T', 'N']) (hc3 : f3.code = ['W', 'A'])
    (hk1 : strtod f1.temperature = 29315 / 100) (hk2 : strtod f2.temperature = 31093 / 100)
    (hk3 : strtod f3.temperature = 280)
    (ha1 : |ops.temp f1.temperature - dtemp f1.temperature| ≤ 1 / 1000)
    (ha2 : |ops.temp f2.temperature - dtemp f2.temperature| ≤ 1 / 1000)
    (ha3 : |ops.temp f3.temperature - dtemp f3.temperature| ≤ 1 / 1000) :
    ∃ tn wa, analyze_fileWith ops file init NUM_STATES = .ok (tn :: wa :: init.drop 2)
      ∧ tn.code = ['T', 'N'] ∧ tn.num_records = 2
      ∧ |tn.max_temp - 100| ≤ 1 / 20 ∧ tn.max_time = f2.time
      ∧ |tn.min_temp - 68| ≤ 1 / 20 ∧ tn.min_time = f1.time
      ∧ wa.code = ['W', 'A'] ∧ wa.num_records = 1
      ∧ wa.max_temp = wa.min_temp ∧ |wa.max_temp - 4433 / 100| ≤ 1 / 20
      ∧ ((tn :: wa :: init.drop 2).filter (fun s => s.num_records ≠ 0)).map climate_info.code
          = [['T', 'N'], ['W', 'A']]
      ∧ (print_report (tn :: wa :: init.drop 2) NUM_STATES).map Summary.code
          = [['T', 'N'], ['W', 'A']] := by
  obtain ⟨hcl1, htl1⟩ := wellFormed_bounds f1 hw1
  obtain ⟨_, htl2⟩ := wellFormed_bounds f2 hw2
  obtain ⟨hcl3, htl3⟩ := wellFormed_bounds f3 hw3
  obtain ⟨e0, e1, tail, hinit⟩ : ∃ e0 e1 tail, init = e0 :: e1 :: tail := by
    cases init with
    | nil => simp [NUM_STATES] at hlen
    | cons e0 init =>
      cases init with
      | nil => simp [NUM_STATES] at hlen
      | cons e1 tail => exact ⟨e0, e1, tail, rfl⟩
  have he0 : e0.num_records = 0 := hempty e0 (by rw [hinit]; simp)
  have he1 : e1.num_records = 0 := hempty e1 (by rw [hinit]; simp)
  have htail : ∀ s ∈ tail, s.num_records = 0 := fun s hs => hempty s (by rw [hinit]; simp [hs])
  have d1 : dtemp f1.temperature = 68 := by rw [dtemp, hk1]; norm_num
  have d2 : dtemp f2.temperature = 25001 / 250 := by rw [dtemp, hk2]; norm_num
  have d3 : dtemp f3.temperature = 4433 / 100 := by rw [dtemp, hk3]; norm_num
  rw [d1, abs_le] at ha1
  rw [d2, abs_le] at ha2
  rw [d3, abs_le] at ha3
  have hlt : ops.temp f1.temperature < ops.temp f2.temperature := by linarith [ha1.2, ha2.1]
  have hnlt : ¬ ops.temp f2.temperature < ops.temp f1.temperature := not_lt.mpr (le_of_lt hlt)
  have s1 := processLineWith_new ops NUM_STATES [] e0 (e1 :: tail) l1 f1 h1 hcl1 htl1
    (by simp) he0 (by simp [NUM_STATES])
  have s2 := processLineWith_found ops NUM_STATES [] (seedWith ops f1) (e1 :: tail) l2 f2 h2
    htl2 (by simp) (by simp [seedWith]) (by simp [seedWith, hc1, hc2]) (by simp [NUM_STATES])
  have s3 := processLineWith_new ops NUM_STATES [absorbWith ops (seedWith ops f1) f2] e1 tail
    l3 f3 h3 hcl3 htl3 (by simp [absorbWith, seedWith, ULONG_RANGE, hc1, hc3]) he1
    (by simp [NUM_STATES])
  simp only [List.nil_append, List.singleton_append] at s1 s2 s3
  have hrun : analyze_fileWith ops file init NUM_STATES
      = .ok (absorbWith ops (seedWith ops f1) f2 :: seedWith ops f3 :: tail) := by
    simp only [analyze_fileWith, hfile, analyzeLinesWith, hinit, s1, s2, s3]
  have hdrop : init.drop 2 = tail := by rw [hinit]; rfl
  have hfil : ((absorbWith ops (seedWith ops f1) f2 :: seedWith ops f3 :: tail).filter
      (fun s => s.num_records ≠ 0)) = [absorbWith ops (seedWith ops f1) f2, seedWith ops f3] := by
    simp [List.filter_cons, absorbWith, seedWith, ULONG_RANGE]
    exact htail
  rw [hdrop]
  refine ⟨absorbWith ops (seedWith ops f1) f2, seedWith ops f3, hrun, hc1, ?_, ?_, ?_, ?_, ?_,
    hc3, rfl, rfl, ?_, ?_, ?_⟩
  · simp [absorbWith, seedWith, ULONG_RANGE]
  · simp only [absorbWith, seedWith, hlt, if_true]
    rw [abs_le]; constructor <;> linarith [ha2.1, ha2.2]
  · simp only [absorbWith, seedWith, hlt, if_true]
  · simp only [absorbWith, seedWith, hnlt, if_false]
    rw [abs_le]; constructor <;> linarith [ha1.1, ha1.2]
  · simp only [absorbWith, seedWith, hnlt, if_false]
  · show |ops.temp f3.temperature - 4433 / 100| ≤ 1 / 20
    rw [abs_le]; constructor <;> linarith [ha3.1, ha3.2]
  · rw [hfil]; simp [absorbWith, seedWith, hc1, hc3]
  · have hl : (absorbWith ops (seedWith ops f1) f2 :: seedWith ops f3 :: tail).length
        ≤ NUM_STATES := by
      rw [← hlen, hinit]; simp
    rw [print_report, List.take_of_length_le hl, hfil]
    simp [summarize, absorbWith, seedWith, hc1, hc3]

theorem worked_example_witness :
    ∃ tn wa, analyze_fileWith doubleOps workedExampleFile zeroTable NUM_STATES
        = .ok (tn :: wa :: zeroTable.drop 2)
      ∧ tn.code = ['T', 'N'] ∧ tn.num_records = 2
      ∧ |tn.max_temp - 100| ≤ 1 / 20 ∧ tn.max_time = String.toList "1430308800000"
      ∧ |tn.min_temp - 68| ≤ 1 / 20 ∧ tn.min_time = String.toList "1428300000000"
      ∧ wa.code = ['W', 'A'] ∧ wa.num_records = 1
      ∧ wa.max_temp = wa.min_temp ∧ |wa.max_temp - 4433 / 100| ≤ 1 / 20
      ∧ ((tn :: wa :: zeroTable.drop 2).filter (fun s => s.num_records ≠ 0)).map
          climate_info.code = [['T', 'N'], ['W', 'A']]
      ∧ (print_report (tn :: wa :: zeroTable.drop 2) NUM_STATES).map Summary.code
          = [['T', 'N'], ['W', 'A']] :=
  worked_example doubleOps workedExampleFile zeroTable
    (String.toList "TN\t1428300000000\tdn6nb3vwjyxb\t93.0\t0.0\t100.0\t0.0\t95644.0\t293.15\n")
    (String.toList "TN\t1430308800000\tdn6nb3vwjyxb\t4.0\t1.0\t100.0\t0.0\t99226.0\t310.93\n")
    (String.toList "WA\t1428559200000\tc23nb3vwjyxb\t61.0\t0.0\t0.0\t1.0\t102112.0\t280.0\n")
    ⟨String.toList "TN", String.toList "1428300000000", String.toList "dn6nb3vwjyxb",
      String.toList "93.0", String.toList "0.0", String.toList "100.0", String.toList "0.0",
      String.toList "95644.0", String.toList "293.15\n"⟩
    ⟨String.toList "TN", String.toList "1430308800000", String.toList "dn6nb3vwjyxb",
      String.toList "4.0", String.toList "1.0", String.toList "100.0", String.toList "0.0",
      String.toList "99226.0", String.toList "310.93\n"⟩
    ⟨String.toList "WA", String.toList "1428559200000", String.toList "c23nb3vwjyxb",
      String.toList "61.0", String.toList "0.0", String.toList "0.0", String.toList "1.0",
      String.toList "102112.0", String.toList "280.0\n"⟩
    emptyTable_zeroTable (by decide) (by decide) (by decide) (by decide) (by decide)
    (by decide) (by decide) (by decide) rfl rfl rfl (by decide!) (by decide!) (by decide!)
    (by decide!) (by decide!) (by decide!)

end Climate
